import Mathlib

/-!
Verification of arpio-client-go.

A shallow embedding of the JSON codecs (`app.go`, `selection_rules.go`,
`staged_resources.go`), the resource operations (`client.go`, `client_app.go`,
`client_recovery_points.go`) and the poll loops of the Arpio client.

Modelling conventions
* A Go `string` is the sequence of its bytes (`GoString`), which need not be
  well-formed UTF-8.  `GoString.text` is the text that `json.Marshal` writes for
  it, `GoString.ofText` the Go string of a text.
* A JSON text is represented by its syntax tree `Json`, whose strings and keys
  are texts (what the decoder makes of a string literal); turning the tree into
  bytes and back (the scanner with its limit on nesting, escapes, white space)
  is the work of `encoding/json` and is not modelled.
* A Go slice is `Option (List α)`: `none` is the nil slice, `some []` the empty
  non-nil slice.  The same convention is used for Go maps.
* A Go interface value is an inductive type with a `nil` constructor, one
  constructor for each concrete type of this package that implements it, and
  one constructor for the values of every other type.
* A Go `error` is `Option String`: `none` is the nil error, `some s` an error
  whose text is `s`.  The texts of the errors of `encoding/json` are stand-ins:
  only the fact that `json.Marshal` or `json.Unmarshal` fails is taken from the
  library.
-/

namespace Arpio

/-! ## Go strings and their text -/

/-- A Go `string`: a sequence of bytes, which need not be well-formed UTF-8. -/
abbrev GoString := List (Fin 256)

/-- Function `utf8.AppendRune` on a Unicode scalar value: the one to four bytes
of its UTF-8 code. -/
def utf8EncodeRune (n : Nat) : GoString :=
  if n < 0x80 then [Fin.ofNat n]
  else if n < 0x800 then [Fin.ofNat (0xC0 + n / 64), Fin.ofNat (0x80 + n % 64)]
  else if n < 0x10000 then
    [Fin.ofNat (0xE0 + n / 4096), Fin.ofNat (0x80 + n / 64 % 64), Fin.ofNat (0x80 + n % 64)]
  else
    [Fin.ofNat (0xF0 + n / 262144), Fin.ofNat (0x80 + n / 4096 % 64),
     Fin.ofNat (0x80 + n / 64 % 64), Fin.ofNat (0x80 + n % 64)]

/-- The least second byte that `utf8.DecodeRune` accepts after the first byte
`b0` of a code of three or four bytes (the table `acceptRanges`): codes
longer than needed are refused. -/
def utf8Lo (b0 : Nat) : Nat := if b0 = 0xE0 then 0xA0 else if b0 = 0xF0 then 0x90 else 0x80

/-- The greatest second byte that `utf8.DecodeRune` accepts after the first
byte `b0`: surrogates and codes above U+10FFFF are refused. -/
def utf8Hi (b0 : Nat) : Nat := if b0 = 0xED then 0x9F else if b0 = 0xF4 then 0x8F else 0xBF

/-- Function `utf8.DecodeRuneInString`: the scalar value whose well-formed UTF-8
code starts the bytes, and the bytes after that code; `none` stands for the
result `(RuneError, 1)` (or `(RuneError, 0)` on no bytes): the bytes start with
no well-formed code. -/
def utf8DecodeRune : GoString → Option (Nat × GoString)
  | [] => none
  | b0 :: rest =>
    if b0.val < 0x80 then some (b0.val, rest)
    else if b0.val < 0xC2 then none
    else if b0.val < 0xE0 then
      match rest with
      | b1 :: r =>
        if 0x80 ≤ b1.val ∧ b1.val ≤ 0xBF then
          some ((b0.val - 0xC0) * 64 + (b1.val - 0x80), r)
        else none
      | _ => none
    else if b0.val < 0xF0 then
      match rest with
      | b1 :: b2 :: r =>
        if utf8Lo b0.val ≤ b1.val ∧ b1.val ≤ utf8Hi b0.val ∧
            0x80 ≤ b2.val ∧ b2.val ≤ 0xBF then
          some ((b0.val - 0xE0) * 4096 + (b1.val - 0x80) * 64 + (b2.val - 0x80), r)
        else none
      | _ => none
    else if b0.val < 0xF5 then
      match rest with
      | b1 :: b2 :: b3 :: r =>
        if utf8Lo b0.val ≤ b1.val ∧ b1.val ≤ utf8Hi b0.val ∧
            0x80 ≤ b2.val ∧ b2.val ≤ 0xBF ∧ 0x80 ≤ b3.val ∧ b3.val ≤ 0xBF then
          some ((b0.val - 0xF0) * 262144 + (b1.val - 0x80) * 4096 + (b2.val - 0x80) * 64 +
            (b3.val - 0x80), r)
        else none
      | _ => none
    else none

/-- The conversion of a text to a Go string: the UTF-8 bytes of its characters.
This is the Go string of a string literal of the source, and the Go string that
`json.Unmarshal` stores for a JSON string. -/
def GoString.ofText (t : String) : GoString :=
  t.data.flatMap (fun c => utf8EncodeRune c.toNat)

/-- The characters of `GoString.text`; the first argument bounds the number of
steps, and every step consumes a byte. -/
def GoString.textChars : Nat → GoString → List Char
  | 0, _ => []
  | _ + 1, [] => []
  | fuel + 1, b :: bs =>
    match utf8DecodeRune (b :: bs) with
    | some (n, rest) => Char.ofNat n :: GoString.textChars fuel rest
    | none => Char.ofNat 0xFFFD :: GoString.textChars fuel bs

/-- The text of a Go string, as `json.Marshal` writes it (and as a `range` loop
reads it): every well-formed UTF-8 code is its character, and every byte that
starts no well-formed code is replaced by U+FFFD. -/
def GoString.text (s : GoString) : String := String.mk (GoString.textChars s.length s)

/-- The scan of `utf8.ValidString`; the first argument bounds the number of steps. -/
def utf8ValidScan : Nat → GoString → Bool
  | _, [] => true
  | 0, _ :: _ => false
  | fuel + 1, b :: bs =>
    match utf8DecodeRune (b :: bs) with
    | some (_, rest) => utf8ValidScan fuel rest
    | none => false

/-- Function `utf8.ValidString`: the bytes are a sequence of well-formed UTF-8
codes. -/
def utf8ValidString (s : GoString) : Bool := utf8ValidScan s.length s

/-- Bytewise order of Go strings (`a < b`, `strings.Compare(a, b) < 0`). -/
def GoString.lt : GoString → GoString → Bool
  | [], [] => false
  | [], _ :: _ => true
  | _ :: _, [] => false
  | a :: as, b :: bs => if a.val < b.val then true else if a = b then GoString.lt as bs else false

instance : Coe String GoString := ⟨GoString.ofText⟩

/-! ## JSON values and the `encoding/json` decoding rules used by the client -/

/-- Syntax tree of a JSON value.  A number is `num` when its text is that of an
integer and `frac` when its text has a fraction or an exponent. -/
inductive Json where
  | null
  | bool (b : Bool)
  | num (n : Int)
  | frac (text : String)
  | str (s : String)
  | arr (xs : List Json)
  | obj (kvs : List (String × Json))

/-- Go slice: `none` is nil. -/
abbrev Slice (α : Type) := Option (List α)

/-- Elements of a slice, as `range` visits them (a nil slice has none). -/
def Slice.elems {α : Type} : Slice α → List α
  | none => []
  | some xs => xs

/-- Go `map[string]string`: `none` is the nil map; the entries of a non-nil map
are kept in increasing key order (the order in which `json.Marshal` writes
them), one entry for each key. -/
abbrev StrMap := Option (List (GoString × GoString))

/-- Store `k ↦ v` in the entries of a map. -/
def mapInsert (k v : GoString) : List (GoString × GoString) → List (GoString × GoString)
  | [] => [(k, v)]
  | (k1, v1) :: rest =>
    if GoString.lt k k1 then (k, v) :: (k1, v1) :: rest
    else if k = k1 then (k, v) :: rest
    else (k1, v1) :: mapInsert k v rest

/-- Case folding of one character of a key, as far as it can make the key
equal to a field name of this package, which are all ASCII letters: an ASCII
capital is folded to its small letter, and so are the two letters outside
ASCII that Unicode folds onto ASCII letters, U+017F (long s) onto `s` and
U+212A (Kelvin sign) onto `k`.  Every other character is kept. -/
def foldChar (c : Char) : Char :=
  if c = Char.ofNat 0x17F then 's'
  else if c = Char.ofNat 0x212A then 'k'
  else c.toLower

/-- Case folding of a key, for the case-insensitive fallback of
`encoding/json` when matching object keys against struct fields. -/
def foldKey (s : String) : String := String.mk (s.data.map foldChar)

/-- The struct field (by its JSON name) that receives object key `key`: an
exact match is preferred, otherwise the first case-insensitive match. -/
def matchField (fields : List String) (key : String) : Option String :=
  match fields.find? (fun f => f == key) with
  | some f => some f
  | none => fields.find? (fun f => foldKey f == foldKey key)

/-- Decoding of a JSON object into a struct: every member is offered to the
struct in document order, and the call fails when a member fails.  Only the
outcome is given: the struct after a decoding without failure, or an error
(`encoding/json` goes on after some failures and reports one of them at the
end; what it has stored by then is not given). -/
def decodeFields {σ : Type} (setField : σ → String → Json → Except String σ) :
    σ → List (String × Json) → Except String σ
  | s, [] => .ok s
  | s, (k, v) :: rest =>
    match setField s k v with
    | .error e => .error e
    | .ok s1 => decodeFields setField s1 rest

/-- The function `json.Unmarshal` into a struct value `cur`: `null` leaves the struct
untouched, an object is decoded member by member, anything else is a type
error. -/
def unmarshalStruct {σ : Type} (setField : σ → String → Json → Except String σ)
    (cur : σ) : Json → Except String σ
  | .null => .ok cur
  | .obj kvs => decodeFields setField cur kvs
  | _ => .error "json: cannot unmarshal into Go value of struct type"

/-- The function `json.Unmarshal` into a Go `string` holding `cur`. -/
def unmarshalString (cur : GoString) : Json → Except String GoString
  | .null => .ok cur
  | .str s => .ok (GoString.ofText s)
  | _ => .error "json: cannot unmarshal into Go value of type string"

/-- The function `json.Unmarshal` into a Go `int` (64 bits) holding `cur`; a number
with a fraction or an exponent is refused. -/
def unmarshalInt (cur : Int) : Json → Except String Int
  | .null => .ok cur
  | .num n =>
    if -(2 ^ 63 : Int) ≤ n ∧ n < (2 ^ 63 : Int) then .ok n
    else .error "json: cannot unmarshal number into Go value of type int"
  | _ => .error "json: cannot unmarshal into Go value of type int"

/-- Elements of a JSON array decoded as Go strings, each into a fresh element
(`encoding/json` decodes into the elements of the slice that is there: where a
slice that already has elements meets `null` in the array, the old element
stays; this reuse is not given). -/
def unmarshalStrings : List Json → Except String (List GoString)
  | [] => .ok []
  | j :: js =>
    match unmarshalString [] j with
    | .error e => .error e
    | .ok s =>
      match unmarshalStrings js with
      | .error e => .error e
      | .ok ss => .ok (s :: ss)

/-- The function `json.Unmarshal` into a Go `[]string`: `null` gives the nil slice. -/
def unmarshalStringSlice : Json → Except String (Slice GoString)
  | .null => .ok none
  | .arr xs =>
    match unmarshalStrings xs with
    | .error e => .error e
    | .ok ss => .ok (some ss)
  | _ => .error "json: cannot unmarshal into Go value of type []string"

/-- Members of a JSON object stored one after the other into map entries. -/
def unmarshalEntries :
    List (GoString × GoString) → List (String × Json) →
      Except String (List (GoString × GoString))
  | m, [] => .ok m
  | m, (k, j) :: rest =>
    match unmarshalString [] j with
    | .error e => .error e
    | .ok v => unmarshalEntries (mapInsert (GoString.ofText k) v m) rest

/-- The function `json.Unmarshal` into a Go `map[string]string` holding `cur`: `null`
gives the nil map, an object is stored into the map (made first when nil). -/
def unmarshalStrMap (cur : StrMap) : Json → Except String StrMap
  | .null => .ok none
  | .obj kvs =>
    match unmarshalEntries (Slice.elems cur) kvs with
    | .error e => .error e
    | .ok m => .ok (some m)
  | _ => .error "json: cannot unmarshal into Go value of type map[string]string"

/-- The function `json.Unmarshal` into a Go `[]json.RawMessage`: every element keeps
its JSON value undecoded. -/
def unmarshalRawSlice : Json → Except String (Slice Json)
  | .null => .ok none
  | .arr xs => .ok (some xs)
  | _ => .error "json: cannot unmarshal into Go value of type []json.RawMessage"

/-- The function `json.Marshal` of a Go `string`: its text. -/
def marshalString (s : GoString) : Json := .str (GoString.text s)

/-- The function `json.Marshal` of a Go `[]string`. -/
def marshalStringSlice : Slice GoString → Json
  | none => .null
  | some ss => .arr (ss.map marshalString)

/-- The function `json.Marshal` of a Go `map[string]string`: the entries in the
order of their keys, each key and value written as its text. -/
def marshalStrMap : StrMap → Json
  | none => .null
  | some m => .obj (m.map (fun kv => (GoString.text kv.1, marshalString kv.2)))

/-- The function `json.Marshal` of a Go `[]json.RawMessage`. -/
def marshalRawSlice : Slice Json → Json
  | none => .null
  | some xs => .arr xs

/-! ## Time -/

/-- A `time.Time` instant, in nanoseconds since the zero time (monotonic clock
readings and locations are not modelled). -/
structure Time where
  nanos : Int
  deriving DecidableEq, Repr

/-- The method `Time.After`. -/
def Time.After (t u : Time) : Bool := decide (u.nanos < t.nanos)

/-- The method `Time.Before`. -/
def Time.Before (t u : Time) : Bool := decide (t.nanos < u.nanos)

/-- The method `Time.Add` for a duration in nanoseconds. -/
def Time.Add (t : Time) (d : Int) : Time := ⟨t.nanos + d⟩

/-- The RFC 3339 text codec of `time.Time` used by `encoding/json`, which is a
part of the Go library and not of this package: `format` is the text that
`Time.MarshalJSON` puts between quotes, or `none` when `Time.MarshalJSON`
returns an error (it refuses, for one, a time whose year is outside 0 to
9999); `parse` is what `Time.UnmarshalJSON` reads a text back with. -/
structure TimeCodec where
  format : Time → Option String
  parse : String → Option Time

/-- The function `json.Marshal` of a `time.Time`. -/
def marshalTime (tc : TimeCodec) (t : Time) : Except String Json :=
  match tc.format t with
  | some s => .ok (.str s)
  | none =>
    .error "json: error calling MarshalJSON for type time.Time: Time.MarshalJSON: year outside of range [0,9999]"

/-- The function `json.Unmarshal` into a `time.Time` holding `cur`. -/
def unmarshalTime (tc : TimeCodec) (cur : Time) : Json → Except String Time
  | .null => .ok cur
  | .str s =>
    match tc.parse s with
    | some t => .ok t
    | none => .error "parsing time: not an RFC 3339 time"
  | _ => .error "Time.UnmarshalJSON: input is not a JSON string"

/-! ## Selection rules (`selection_rules.go`) -/

/-- Constant `ArnRuleType`. -/
def ArnRuleType : GoString := GoString.ofText "arn"

/-- Constant `TagRuleType`. -/
def TagRuleType : GoString := GoString.ofText "tag"

/-- Embeddable struct `selectionRule`. -/
structure selectionRule where
  RuleType : GoString
  deriving DecidableEq, Repr

/-- Struct `ArnRule`: the embedded `selectionRule` and the ARN strings. -/
structure ArnRule where
  base : selectionRule
  Arns : Slice GoString
  deriving DecidableEq, Repr

/-- Struct `TagRule`: the embedded `selectionRule`, a tag name and a value. -/
structure TagRule where
  base : selectionRule
  Name : GoString
  Value : GoString
  deriving DecidableEq, Repr

/-- Interface `SelectionRule`: nil, a value of one of the three types of the
package that have the method `GetRuleType`, or a value of any other type that
has the method (a type of the caller, or a pointer to a type of the package),
which is given by what `json.Marshal` returns for it. -/
inductive SelectionRule where
  | nil
  | baseRule (r : selectionRule)
  | arnRule (r : ArnRule)
  | tagRule (r : TagRule)
  | other (marshal : Except String Json)

/-- Constructor `NewArnRule`. -/
def NewArnRule (arns : Slice GoString) : ArnRule :=
  { base := { RuleType := ArnRuleType }, Arns := arns }

/-- Constructor `NewTagRule`. -/
def NewTagRule (name value : GoString) : TagRule :=
  { base := { RuleType := TagRuleType }, Name := name, Value := value }

/-- The function `json.Marshal` of a `SelectionRule`: for the types of the package the
members follow the field order of the dynamic type, the promoted `ruleType`
first, and there is no failing case; a nil interface is written as `null`. -/
def marshalSelectionRule : SelectionRule → Except String Json
  | .nil => .ok .null
  | .baseRule r => .ok (.obj [("ruleType", marshalString r.RuleType)])
  | .arnRule r =>
    .ok (.obj [("ruleType", marshalString r.base.RuleType), ("arns", marshalStringSlice r.Arns)])
  | .tagRule r =>
    .ok (.obj [("ruleType", marshalString r.base.RuleType), ("name", marshalString r.Name),
      ("value", marshalString r.Value)])
  | .other marshal => marshal

/-- One object member stored into a `selectionRule`. -/
def selectionRule.setField (r : selectionRule) (key : String) (v : Json) :
    Except String selectionRule :=
  match matchField ["ruleType"] key with
  | some "ruleType" =>
    match unmarshalString r.RuleType v with
    | .error e => .error e
    | .ok s => .ok { r with RuleType := s }
  | _ => .ok r

/-- One object member stored into an `ArnRule`. -/
def ArnRule.setField (r : ArnRule) (key : String) (v : Json) : Except String ArnRule :=
  match matchField ["ruleType", "arns"] key with
  | some "ruleType" =>
    match unmarshalString r.base.RuleType v with
    | .error e => .error e
    | .ok s => .ok { r with base := { RuleType := s } }
  | some "arns" =>
    match unmarshalStringSlice v with
    | .error e => .error e
    | .ok ss => .ok { r with Arns := ss }
  | _ => .ok r

/-- One object member stored into a `TagRule`. -/
def TagRule.setField (r : TagRule) (key : String) (v : Json) : Except String TagRule :=
  match matchField ["ruleType", "name", "value"] key with
  | some "ruleType" =>
    match unmarshalString r.base.RuleType v with
    | .error e => .error e
    | .ok s => .ok { r with base := { RuleType := s } }
  | some "name" =>
    match unmarshalString r.Name v with
    | .error e => .error e
    | .ok s => .ok { r with Name := s }
  | some "value" =>
    match unmarshalString r.Value v with
    | .error e => .error e
    | .ok s => .ok { r with Value := s }
  | _ => .ok r

/-! ## Applications (`app.go`) -/

/-- Struct `App`.  `RawSelectionRules` is the serialization helper; a
`json.RawMessage` is represented by the JSON value it holds. -/
structure App where
  AccountID : GoString
  AppID : GoString
  AppType : GoString
  CreatedAt : Time
  Name : GoString
  NotificationEmails : Slice GoString
  RPO : Int
  SelectionRules : Slice SelectionRule
  SourceAwsAccountID : GoString
  SourceRegion : GoString
  SyncPhase : GoString
  TargetAwsAccountID : GoString
  TargetRegion : GoString
  RawSelectionRules : Slice Json

/-- The zero value of `App` (`var decoded App`). -/
def App.zero : App :=
  { AccountID := [], AppID := [], AppType := [], CreatedAt := ⟨0⟩, Name := [],
    NotificationEmails := none, RPO := 0, SelectionRules := none,
    SourceAwsAccountID := [], SourceRegion := [], SyncPhase := [],
    TargetAwsAccountID := [], TargetRegion := [], RawSelectionRules := none }

/-- JSON names of the serialized fields of `AppDTO`, in declaration order
(`SelectionRules` has the tag `json:"-"`). -/
def appFields : List String :=
  ["accountId", "appId", "type", "createdAt", "name", "notificationEmails", "rpo",
   "sourceAwsAccountId", "sourceRegion", "syncPhase", "targetAwsAccountId",
   "targetRegion", "selectionRules"]

/-- The members that `json.Marshal` writes for an `AppDTO` whose `CreatedAt` is
written as `createdAt`: members in field order; `appId`, `notificationEmails`
and `syncPhase` are left out when empty (`omitempty`; a `time.Time` is never
empty). -/
def appDTOMembers (a : App) (createdAt : Json) : List (String × Json) :=
  [("accountId", marshalString a.AccountID)] ++
  (if a.AppID = [] then [] else [("appId", marshalString a.AppID)]) ++
  [("type", marshalString a.AppType), ("createdAt", createdAt),
   ("name", marshalString a.Name)] ++
  (if (Slice.elems a.NotificationEmails).length = 0 then []
   else [("notificationEmails", marshalStringSlice a.NotificationEmails)]) ++
  [("rpo", .num a.RPO), ("sourceAwsAccountId", marshalString a.SourceAwsAccountID),
   ("sourceRegion", marshalString a.SourceRegion)] ++
  (if a.SyncPhase = [] then [] else [("syncPhase", marshalString a.SyncPhase)]) ++
  [("targetAwsAccountId", marshalString a.TargetAwsAccountID),
   ("targetRegion", marshalString a.TargetRegion),
   ("selectionRules", marshalRawSlice a.RawSelectionRules)]

/-- The function `json.Marshal` of an `AppDTO`; it fails when the marshalling of
`CreatedAt` fails. -/
def marshalAppDTO (tc : TimeCodec) (a : App) : Except String Json :=
  match marshalTime tc a.CreatedAt with
  | .error e => .error e
  | .ok createdAt => .ok (.obj (appDTOMembers a createdAt))

/-- The loop of `App.MarshalJSON`: every rule is marshalled and appended to the
raw messages gathered so far; the first failure ends the loop. -/
def marshalRulesLoop : List SelectionRule → List Json → Except String (List Json)
  | [], raw => .ok raw
  | r :: rs, raw =>
    match marshalSelectionRule r with
    | .error e => .error e
    | .ok b => marshalRulesLoop rs (raw ++ [b])

/-- Method `App.MarshalJSON`. -/
def App.MarshalJSON (tc : TimeCodec) (a : App) : Except String Json :=
  let a0 : App := { a with RawSelectionRules := some [] }
  match a0.SelectionRules with
  | none => marshalAppDTO tc a0
  | some rs =>
    match marshalRulesLoop rs (Slice.elems a0.RawSelectionRules) with
    | .error e => .error e
    | .ok raw => marshalAppDTO tc { a0 with RawSelectionRules := some raw }

/-- One object member stored into an `AppDTO`. -/
def App.setField (tc : TimeCodec) (a : App) (key : String) (v : Json) : Except String App :=
  match matchField appFields key with
  | some "accountId" => (unmarshalString a.AccountID v).map (fun s => { a with AccountID := s })
  | some "appId" => (unmarshalString a.AppID v).map (fun s => { a with AppID := s })
  | some "type" => (unmarshalString a.AppType v).map (fun s => { a with AppType := s })
  | some "createdAt" => (unmarshalTime tc a.CreatedAt v).map (fun t => { a with CreatedAt := t })
  | some "name" => (unmarshalString a.Name v).map (fun s => { a with Name := s })
  | some "notificationEmails" =>
    (unmarshalStringSlice v).map (fun s => { a with NotificationEmails := s })
  | some "rpo" => (unmarshalInt a.RPO v).map (fun n => { a with RPO := n })
  | some "sourceAwsAccountId" =>
    (unmarshalString a.SourceAwsAccountID v).map (fun s => { a with SourceAwsAccountID := s })
  | some "sourceRegion" =>
    (unmarshalString a.SourceRegion v).map (fun s => { a with SourceRegion := s })
  | some "syncPhase" => (unmarshalString a.SyncPhase v).map (fun s => { a with SyncPhase := s })
  | some "targetAwsAccountId" =>
    (unmarshalString a.TargetAwsAccountID v).map (fun s => { a with TargetAwsAccountID := s })
  | some "targetRegion" =>
    (unmarshalString a.TargetRegion v).map (fun s => { a with TargetRegion := s })
  | some "selectionRules" =>
    (unmarshalRawSlice v).map (fun s => { a with RawSelectionRules := s })
  | _ => .ok a

/-- A Go call either returns its results or panics. -/
inductive Run (α : Type) where
  | ret (a : α)
  | panic (msg : String)

/-- The body of the loop of `App.UnmarshalJSON` for one raw rule, up to the
check of `err`: the discriminator is decoded first, then the rule as the type
it names; any other discriminator panics. -/
def unmarshalSelectionRule (rawSelectionRule : Json) : Run (Except String SelectionRule) :=
  match unmarshalStruct selectionRule.setField { RuleType := [] } rawSelectionRule with
  | .error e => .ret (.error e)
  | .ok baseRule =>
    if baseRule.RuleType = ArnRuleType then
      .ret ((unmarshalStruct ArnRule.setField
        { base := { RuleType := [] }, Arns := none } rawSelectionRule).map SelectionRule.arnRule)
    else if baseRule.RuleType = TagRuleType then
      .ret ((unmarshalStruct TagRule.setField
        { base := { RuleType := [] }, Name := [], Value := [] } rawSelectionRule).map
        SelectionRule.tagRule)
    else .panic ("unhandled selection rule type: " ++ GoString.text baseRule.RuleType)

/-- The loop of `App.UnmarshalJSON` over the raw rules: each decoded rule is
appended to `SelectionRules`; an error or a panic ends the loop. -/
def unmarshalRulesLoop : List Json → App → Run (Except String App)
  | [], a => .ret (.ok a)
  | rawSelectionRule :: rest, a =>
    match unmarshalSelectionRule rawSelectionRule with
    | .panic m => .panic m
    | .ret (.error e) => .ret (.error e)
    | .ret (.ok rule) =>
      unmarshalRulesLoop rest
        { a with SelectionRules := some (Slice.elems a.SelectionRules ++ [rule]) }

/-- Method `App.UnmarshalJSON` on a receiver holding `a`. -/
def App.UnmarshalJSON (tc : TimeCodec) (a : App) (b : Json) : Run (Except String App) :=
  match unmarshalStruct (App.setField tc) a b with
  | .error e => .ret (.error e)
  | .ok a1 =>
    unmarshalRulesLoop (Slice.elems a1.RawSelectionRules) { a1 with SelectionRules := some [] }

/-! ## Staged resources (`staged_resources.go`) -/

/-- Constant `BackupRecoveryPointExtraType`. -/
def BackupRecoveryPointExtraType : GoString := GoString.ofText "backupRecoveryPoint"

/-- Constant `BackupVaultExtraType`. -/
def BackupVaultExtraType : GoString := GoString.ofText "backupVault"

/-- Constant `EC2ImageExtraType`. -/
def EC2ImageExtraType : GoString := GoString.ofText "ec2Image"

/-- Constant `EC2SnapshotExtraType`. -/
def EC2SnapshotExtraType : GoString := GoString.ofText "ec2Snapshot"

/-- Constant `KMSKeyExtraType`. -/
def KMSKeyExtraType : GoString := GoString.ofText "kmsKey"

/-- Constant `RDSDBClusterSnapshotExtraType`. -/
def RDSDBClusterSnapshotExtraType : GoString := GoString.ofText "rdsDbClusterSnapshot"

/-- Constant `RDSDBSnapshotExtraType`. -/
def RDSDBSnapshotExtraType : GoString := GoString.ofText "rdsDbSnapshot"

/-- Constant `RDSOptionGroupExtraType`. -/
def RDSOptionGroupExtraType : GoString := GoString.ofText "rdsOptionGroup"

/-- Embeddable struct `stagedExtra`. -/
structure stagedExtra where
  Type_ : GoString
  Environment : GoString
  deriving DecidableEq, Repr

/-- The zero value of `stagedExtra`. -/
def stagedExtra.zero : stagedExtra := { Type_ := [], Environment := [] }

/-- Struct `BackupRecoveryPointExtra`. -/
structure BackupRecoveryPointExtra where
  base : stagedExtra
  BackupVaultName : GoString
  RecoveryPointARN : GoString
  RestoreMetadata : StrMap
  deriving DecidableEq, Repr

/-- Struct `EC2ImageExtra`. -/
structure EC2ImageExtra where
  base : stagedExtra
  ImageARN : GoString
  SnapshotARNs : Slice GoString
  deriving DecidableEq, Repr

/-- Struct `BackupVaultExtra`. -/
structure BackupVaultExtra where
  base : stagedExtra
  BackupVaultName : GoString
  deriving DecidableEq, Repr

/-- Struct `EC2SnapshotExtra`. -/
structure EC2SnapshotExtra where
  base : stagedExtra
  SnapshotARN : GoString
  deriving DecidableEq, Repr

/-- Struct `KMSKeyExtra`. -/
structure KMSKeyExtra where
  base : stagedExtra
  KMSKeyARN : GoString
  deriving DecidableEq, Repr

/-- Struct `RDSDBClusterSnapshotExtra`. -/
structure RDSDBClusterSnapshotExtra where
  base : stagedExtra
  DBClusterSnapshotARN : GoString
  deriving DecidableEq, Repr

/-- Struct `RDSDBSnapshotExtra`. -/
structure RDSDBSnapshotExtra where
  base : stagedExtra
  DBSnapshotARN : GoString
  deriving DecidableEq, Repr

/-- Struct `RDSOptionGroupExtra`. -/
structure RDSOptionGroupExtra where
  base : stagedExtra
  OptionGroupARN : GoString
  deriving DecidableEq, Repr

/-- Interface `StagedExtra`: nil, a value of one of the types of the package
that have the methods `GetType` and `GetEnvironment`, or a value of any other
type that has them, which is given by what `json.Marshal` returns for it. -/
inductive StagedExtra where
  | nil
  | baseExtra (e : stagedExtra)
  | backupRecoveryPoint (e : BackupRecoveryPointExtra)
  | backupVault (e : BackupVaultExtra)
  | ec2Image (e : EC2ImageExtra)
  | ec2Snapshot (e : EC2SnapshotExtra)
  | kmsKey (e : KMSKeyExtra)
  | rdsDbClusterSnapshot (e : RDSDBClusterSnapshotExtra)
  | rdsDbSnapshot (e : RDSDBSnapshotExtra)
  | rdsOptionGroup (e : RDSOptionGroupExtra)
  | other (marshal : Except String Json)

/-- The two members that every staged extra starts with. -/
def marshalStagedBase (e : stagedExtra) : List (String × Json) :=
  [("type", marshalString e.Type_), ("environment", marshalString e.Environment)]

/-- The function `json.Marshal` of a `StagedExtra`: for the types of the package the
members follow the field order of the dynamic type, the promoted `type` and
`environment` first, and there is no failing case; a nil interface is written
as `null`. -/
def marshalStagedExtra : StagedExtra → Except String Json
  | .nil => .ok .null
  | .baseExtra e => .ok (.obj (marshalStagedBase e))
  | .backupRecoveryPoint e =>
    .ok (.obj (marshalStagedBase e.base ++
      [("backupVaultName", marshalString e.BackupVaultName),
       ("recoveryPointArn", marshalString e.RecoveryPointARN),
       ("restoreMetadata", marshalStrMap e.RestoreMetadata)]))
  | .backupVault e =>
    .ok (.obj (marshalStagedBase e.base ++
      [("backupVaultName", marshalString e.BackupVaultName)]))
  | .ec2Image e =>
    .ok (.obj (marshalStagedBase e.base ++
      [("imageArn", marshalString e.ImageARN),
       ("snapshotArns", marshalStringSlice e.SnapshotARNs)]))
  | .ec2Snapshot e =>
    .ok (.obj (marshalStagedBase e.base ++ [("snapshotArn", marshalString e.SnapshotARN)]))
  | .kmsKey e =>
    .ok (.obj (marshalStagedBase e.base ++ [("kmsKeyArn", marshalString e.KMSKeyARN)]))
  | .rdsDbClusterSnapshot e =>
    .ok (.obj (marshalStagedBase e.base ++
      [("dbClusterSnapshotArn", marshalString e.DBClusterSnapshotARN)]))
  | .rdsDbSnapshot e =>
    .ok (.obj (marshalStagedBase e.base ++ [("dbSnapshotArn", marshalString e.DBSnapshotARN)]))
  | .rdsOptionGroup e =>
    .ok (.obj (marshalStagedBase e.base ++
      [("optionGroupArn", marshalString e.OptionGroupARN)]))
  | .other marshal => marshal

/-- One object member stored into a `stagedExtra`. -/
def stagedExtra.setField (e : stagedExtra) (key : String) (v : Json) :
    Except String stagedExtra :=
  match matchField ["type", "environment"] key with
  | some "type" => (unmarshalString e.Type_ v).map (fun s => { e with Type_ := s })
  | some "environment" =>
    (unmarshalString e.Environment v).map (fun s => { e with Environment := s })
  | _ => .ok e

/-- One object member stored into a `BackupRecoveryPointExtra`. -/
def BackupRecoveryPointExtra.setField (e : BackupRecoveryPointExtra) (key : String)
    (v : Json) : Except String BackupRecoveryPointExtra :=
  match matchField
      ["type", "environment", "backupVaultName", "recoveryPointArn", "restoreMetadata"]
      key with
  | some "type" =>
    (unmarshalString e.base.Type_ v).map (fun s => { e with base := { e.base with Type_ := s } })
  | some "environment" =>
    (unmarshalString e.base.Environment v).map
      (fun s => { e with base := { e.base with Environment := s } })
  | some "backupVaultName" =>
    (unmarshalString e.BackupVaultName v).map (fun s => { e with BackupVaultName := s })
  | some "recoveryPointArn" =>
    (unmarshalString e.RecoveryPointARN v).map (fun s => { e with RecoveryPointARN := s })
  | some "restoreMetadata" =>
    (unmarshalStrMap e.RestoreMetadata v).map (fun m => { e with RestoreMetadata := m })
  | _ => .ok e

/-- One object member stored into an `EC2ImageExtra`. -/
def EC2ImageExtra.setField (e : EC2ImageExtra) (key : String) (v : Json) :
    Except String EC2ImageExtra :=
  match matchField ["type", "environment", "imageArn", "snapshotArns"] key with
  | some "type" =>
    (unmarshalString e.base.Type_ v).map (fun s => { e with base := { e.base with Type_ := s } })
  | some "environment" =>
    (unmarshalString e.base.Environment v).map
      (fun s => { e with base := { e.base with Environment := s } })
  | some "imageArn" => (unmarshalString e.ImageARN v).map (fun s => { e with ImageARN := s })
  | some "snapshotArns" =>
    (unmarshalStringSlice v).map (fun ss => { e with SnapshotARNs := ss })
  | _ => .ok e

/-- One object member stored into a `BackupVaultExtra`. -/
def BackupVaultExtra.setField (e : BackupVaultExtra) (key : String) (v : Json) :
    Except String BackupVaultExtra :=
  match matchField ["type", "environment", "backupVaultName"] key with
  | some "type" =>
    (unmarshalString e.base.Type_ v).map (fun s => { e with base := { e.base with Type_ := s } })
  | some "environment" =>
    (unmarshalString e.base.Environment v).map
      (fun s => { e with base := { e.base with Environment := s } })
  | some "backupVaultName" =>
    (unmarshalString e.BackupVaultName v).map (fun s => { e with BackupVaultName := s })
  | _ => .ok e

/-- One object member stored into an `EC2SnapshotExtra`. -/
def EC2SnapshotExtra.setField (e : EC2SnapshotExtra) (key : String) (v : Json) :
    Except String EC2SnapshotExtra :=
  match matchField ["type", "environment", "snapshotArn"] key with
  | some "type" =>
    (unmarshalString e.base.Type_ v).map (fun s => { e with base := { e.base with Type_ := s } })
  | some "environment" =>
    (unmarshalString e.base.Environment v).map
      (fun s => { e with base := { e.base with Environment := s } })
  | some "snapshotArn" =>
    (unmarshalString e.SnapshotARN v).map (fun s => { e with SnapshotARN := s })
  | _ => .ok e

/-- One object member stored into a `KMSKeyExtra`. -/
def KMSKeyExtra.setField (e : KMSKeyExtra) (key : String) (v : Json) :
    Except String KMSKeyExtra :=
  match matchField ["type", "environment", "kmsKeyArn"] key with
  | some "type" =>
    (unmarshalString e.base.Type_ v).map (fun s => { e with base := { e.base with Type_ := s } })
  | some "environment" =>
    (unmarshalString e.base.Environment v).map
      (fun s => { e with base := { e.base with Environment := s } })
  | some "kmsKeyArn" =>
    (unmarshalString e.KMSKeyARN v).map (fun s => { e with KMSKeyARN := s })
  | _ => .ok e

/-- One object member stored into a `RDSDBClusterSnapshotExtra`. -/
def RDSDBClusterSnapshotExtra.setField (e : RDSDBClusterSnapshotExtra) (key : String) (v : Json) :
    Except String RDSDBClusterSnapshotExtra :=
  match matchField ["type", "environment", "dbClusterSnapshotArn"] key with
  | some "type" =>
    (unmarshalString e.base.Type_ v).map (fun s => { e with base := { e.base with Type_ := s } })
  | some "environment" =>
    (unmarshalString e.base.Environment v).map
      (fun s => { e with base := { e.base with Environment := s } })
  | some "dbClusterSnapshotArn" =>
    (unmarshalString e.DBClusterSnapshotARN v).map (fun s => { e with DBClusterSnapshotARN := s })
  | _ => .ok e

/-- One object member stored into a `RDSDBSnapshotExtra`. -/
def RDSDBSnapshotExtra.setField (e : RDSDBSnapshotExtra) (key : String) (v : Json) :
    Except String RDSDBSnapshotExtra :=
  match matchField ["type", "environment", "dbSnapshotArn"] key with
  | some "type" =>
    (unmarshalString e.base.Type_ v).map (fun s => { e with base := { e.base with Type_ := s } })
  | some "environment" =>
    (unmarshalString e.base.Environment v).map
      (fun s => { e with base := { e.base with Environment := s } })
  | some "dbSnapshotArn" =>
    (unmarshalString e.DBSnapshotARN v).map (fun s => { e with DBSnapshotARN := s })
  | _ => .ok e

/-- One object member stored into a `RDSOptionGroupExtra`. -/
def RDSOptionGroupExtra.setField (e : RDSOptionGroupExtra) (key : String) (v : Json) :
    Except String RDSOptionGroupExtra :=
  match matchField ["type", "environment", "optionGroupArn"] key with
  | some "type" =>
    (unmarshalString e.base.Type_ v).map (fun s => { e with base := { e.base with Type_ := s } })
  | some "environment" =>
    (unmarshalString e.base.Environment v).map
      (fun s => { e with base := { e.base with Environment := s } })
  | some "optionGroupArn" =>
    (unmarshalString e.OptionGroupARN v).map (fun s => { e with OptionGroupARN := s })
  | _ => .ok e

/-- Struct `StagedResource`.  `RawExtras` is the serialization helper. -/
structure StagedResource where
  ARN : GoString
  Tags : StrMap
  Type_ : GoString
  Extras : Slice StagedExtra
  RawExtras : Slice Json

/-- The zero value of `StagedResource`. -/
def StagedResource.zero : StagedResource :=
  { ARN := [], Tags := none, Type_ := [], Extras := none, RawExtras := none }

/-- The function `json.Marshal` of a `StagedResourceDTO` (`Extras` has the tag
`json:"-"`). -/
def marshalStagedResourceDTO (sr : StagedResource) : Json :=
  .obj [("arn", marshalString sr.ARN), ("tags", marshalStrMap sr.Tags),
    ("type", marshalString sr.Type_), ("extras", marshalRawSlice sr.RawExtras)]

/-- The loop of `StagedResource.MarshalJSON`: every extra is marshalled and
appended to the raw messages gathered so far; the first failure ends the loop. -/
def marshalExtrasLoop : List StagedExtra → List Json → Except String (List Json)
  | [], raw => .ok raw
  | e :: es, raw =>
    match marshalStagedExtra e with
    | .error err => .error err
    | .ok b => marshalExtrasLoop es (raw ++ [b])

/-- Method `StagedResource.MarshalJSON`. -/
def StagedResource.MarshalJSON (sr : StagedResource) : Except String Json :=
  let sr0 : StagedResource := { sr with RawExtras := some [] }
  match sr0.Extras with
  | none => .ok (marshalStagedResourceDTO sr0)
  | some es =>
    match marshalExtrasLoop es (Slice.elems sr0.RawExtras) with
    | .error e => .error e
    | .ok raw => .ok (marshalStagedResourceDTO { sr0 with RawExtras := some raw })

/-- One object member stored into a `StagedResourceDTO`. -/
def StagedResource.setField (sr : StagedResource) (key : String) (v : Json) :
    Except String StagedResource :=
  match matchField ["arn", "tags", "type", "extras"] key with
  | some "arn" => (unmarshalString sr.ARN v).map (fun s => { sr with ARN := s })
  | some "tags" => (unmarshalStrMap sr.Tags v).map (fun m => { sr with Tags := m })
  | some "type" => (unmarshalString sr.Type_ v).map (fun s => { sr with Type_ := s })
  | some "extras" => (unmarshalRawSlice v).map (fun s => { sr with RawExtras := s })
  | _ => .ok sr

/-- The body of the loop of `StagedResource.UnmarshalJSON` for one raw extra, up
to the check of `err`: the discriminator is decoded first, then the extra as the
type it names.  In the `default` case nothing is assigned: `extra` keeps its
zero value, the nil interface, and `err` is still nil. -/
def unmarshalStagedExtra (rawExtra : Json) : Except String StagedExtra :=
  match unmarshalStruct stagedExtra.setField stagedExtra.zero rawExtra with
  | .error e => .error e
  | .ok baseExtra =>
    if baseExtra.Type_ = BackupRecoveryPointExtraType then
      (unmarshalStruct BackupRecoveryPointExtra.setField
        { base := stagedExtra.zero, BackupVaultName := [], RecoveryPointARN := [],
          RestoreMetadata := none } rawExtra).map StagedExtra.backupRecoveryPoint
    else if baseExtra.Type_ = BackupVaultExtraType then
      (unmarshalStruct BackupVaultExtra.setField
        { base := stagedExtra.zero, BackupVaultName := [] } rawExtra).map
        StagedExtra.backupVault
    else if baseExtra.Type_ = EC2ImageExtraType then
      (unmarshalStruct EC2ImageExtra.setField
        { base := stagedExtra.zero, ImageARN := [], SnapshotARNs := none } rawExtra).map
        StagedExtra.ec2Image
    else if baseExtra.Type_ = EC2SnapshotExtraType then
      (unmarshalStruct EC2SnapshotExtra.setField
        { base := stagedExtra.zero, SnapshotARN := [] } rawExtra).map StagedExtra.ec2Snapshot
    else if baseExtra.Type_ = KMSKeyExtraType then
      (unmarshalStruct KMSKeyExtra.setField
        { base := stagedExtra.zero, KMSKeyARN := [] } rawExtra).map StagedExtra.kmsKey
    else if baseExtra.Type_ = RDSDBClusterSnapshotExtraType then
      (unmarshalStruct RDSDBClusterSnapshotExtra.setField
        { base := stagedExtra.zero, DBClusterSnapshotARN := [] } rawExtra).map
        StagedExtra.rdsDbClusterSnapshot
    else if baseExtra.Type_ = RDSDBSnapshotExtraType then
      (unmarshalStruct RDSDBSnapshotExtra.setField
        { base := stagedExtra.zero, DBSnapshotARN := [] } rawExtra).map
        StagedExtra.rdsDbSnapshot
    else if baseExtra.Type_ = RDSOptionGroupExtraType then
      (unmarshalStruct RDSOptionGroupExtra.setField
        { base := stagedExtra.zero, OptionGroupARN := [] } rawExtra).map
        StagedExtra.rdsOptionGroup
    else .ok StagedExtra.nil

/-- The loop of `StagedResource.UnmarshalJSON` over the raw extras: after the
switch, `extra` is appended to `Extras` whenever `err` is nil. -/
def unmarshalExtrasLoop : List Json → StagedResource → Except String StagedResource
  | [], sr => .ok sr
  | rawExtra :: rest, sr =>
    match unmarshalStagedExtra rawExtra with
    | .error e => .error e
    | .ok extra =>
      unmarshalExtrasLoop rest { sr with Extras := some (Slice.elems sr.Extras ++ [extra]) }

/-- Method `StagedResource.UnmarshalJSON` on a receiver holding `sr`. -/
def StagedResource.UnmarshalJSON (sr : StagedResource) (b : Json) :
    Except String StagedResource :=
  match unmarshalStruct StagedResource.setField sr b with
  | .error e => .error e
  | .ok sr1 => unmarshalExtrasLoop (Slice.elems sr1.RawExtras) { sr1 with Extras := some [] }

/-! ## Recovery points (`recovery_point.go`) -/

/-- Struct `RecoveryPoint`. -/
structure RecoveryPoint where
  AvailableAt : Time
  Protected : Bool
  RecoveryPointID : GoString
  Timestamp : Time
  deriving DecidableEq, Repr

/-- The zero value of `RecoveryPoint`. -/
def RecoveryPoint.zero : RecoveryPoint :=
  { AvailableAt := ⟨0⟩, Protected := false, RecoveryPointID := [], Timestamp := ⟨0⟩ }

/-- The function `json.Unmarshal` into a Go `bool` holding `cur`. -/
def unmarshalBool (cur : Bool) : Json → Except String Bool
  | .null => .ok cur
  | .bool b => .ok b
  | _ => .error "json: cannot unmarshal into Go value of type bool"

/-- One object member stored into a `RecoveryPoint`. -/
def RecoveryPoint.setField (tc : TimeCodec) (r : RecoveryPoint) (key : String) (v : Json) :
    Except String RecoveryPoint :=
  match matchField ["availableAt", "protected", "recoveryPointId", "timestamp"] key with
  | some "availableAt" =>
    (unmarshalTime tc r.AvailableAt v).map (fun t => { r with AvailableAt := t })
  | some "protected" => (unmarshalBool r.Protected v).map (fun b => { r with Protected := b })
  | some "recoveryPointId" =>
    (unmarshalString r.RecoveryPointID v).map (fun s => { r with RecoveryPointID := s })
  | some "timestamp" => (unmarshalTime tc r.Timestamp v).map (fun t => { r with Timestamp := t })
  | _ => .ok r

/-! ## The `fmt` package on a format string without operands

`fmt.Errorf(msg)` in `doApiRequest` passes the message as the format string and
no operand.  The functions below follow `(*pp).doPrintf` of the Go library for
an empty operand list. -/

/-- The flags `#0+- ` after a percent sign are skipped. -/
def fmtSkipFlags : List Char → List Char
  | [] => []
  | c :: cs =>
    if c = '#' ∨ c = '0' ∨ c = '+' ∨ c = '-' ∨ c = ' ' then fmtSkipFlags cs else c :: cs

/-- Function `parsenum`: the leading decimal digits are read; the result is
`none` when the number grows too large (the scan then jumps to its end bound),
otherwise whether a digit was read, and the text after the digits. -/
def fmtParsenum : List Char → Nat → Bool → Option (Bool × List Char)
  | [], _, isnum => some (isnum, [])
  | c :: cs, num, isnum =>
    if '0' ≤ c ∧ c ≤ '9' then
      if num > 1000000 then none
      else fmtParsenum cs (num * 10 + (c.toNat - 48)) true
    else some (isnum, c :: cs)

/-- The text up to the first closing bracket, and the text after it. -/
def fmtSplitBracket : List Char → Option (List Char × List Char)
  | [] => none
  | c :: cs =>
    if c = ']' then some ([], cs)
    else
      match fmtSplitBracket cs with
      | none => none
      | some (inside, after) => some (c :: inside, after)

/-- Method `argNumber` with no operand: when the text starts with an opening
bracket the index is consumed, the operand number is marked bad since no index
is in range, and `found` tells whether the brackets hold a number.  The result
is the rest of the text, `found`, and the new value of `goodArgNum`. -/
def fmtArgNumber (cs : List Char) (good : Bool) : List Char × Bool × Bool :=
  match cs with
  | '[' :: rest =>
    if cs.length < 3 then (rest, false, false)
    else
      match fmtSplitBracket rest with
      | none => (rest, false, false)
      | some (inside, after) =>
        match fmtParsenum inside 0 false with
        | some (true, []) => (after, true, false)
        | _ => (after, false, false)
  | _ => (cs, false, good)

/-- The width of a verb with no operand, from the text `cs` after the flags and
a possible index (`afterIndex` tells whether an index was found, `good` is
`goodArgNum`): a star is reported as a bad width; otherwise the digits of a
width are read.  The result is the text written, the rest of the format, and
the new values of `afterIndex` and `goodArgNum`. -/
def fmtWidth (cs : List Char) (afterIndex good : Bool) :
    List Char × List Char × Bool × Bool :=
  match cs with
  | '*' :: rest => ("%!(BADWIDTH)".data, rest, false, good)
  | _ =>
    match fmtParsenum cs 0 false with
    | none => ([], [], afterIndex, good)
    | some (widPresent, rest) => ([], rest, afterIndex, good && !(afterIndex && widPresent))

/-- The precision of a verb with no operand, when the text starts with a dot
that is not the last character of the format (`i+1 < end`; a dot that ends the
format is left to be read as the verb): a possible index, then a star, which is
reported as a bad precision, or the digits of a precision.  The result is as
for `fmtWidth`. -/
def fmtPrecision (cs : List Char) (afterIndex good : Bool) :
    List Char × List Char × Bool × Bool :=
  match cs with
  | '.' :: c :: rest1 =>
    let rest := c :: rest1
    let a := fmtArgNumber rest (good && !afterIndex)
    match a.1 with
    | '*' :: r2 => ("%!(BADPREC)".data, r2, false, a.2.2)
    | _ =>
      match fmtParsenum a.1 0 false with
      | none => ([], [], a.2.1, a.2.2)
      | some (_, r2) => ([], r2, a.2.1, a.2.2)
  | _ => ([], cs, afterIndex, good)

/-- One verb of the format, from the character after the percent sign: the text
written for it, and the rest of the format (`none` when the format ends
without a verb).  The flags are skipped, then come a possible index, the
width, the precision, and a possible index when none was just read.  With no
operand every verb other than a percent sign is reported as having a bad index
or a missing operand. -/
def fmtVerb (cs : List Char) : List Char × Option (List Char) :=
  let a := fmtArgNumber (fmtSkipFlags cs) true
  let w := fmtWidth a.1 a.2.1 a.2.2
  let p := fmtPrecision w.2.1 w.2.2.1 w.2.2.2
  let n : List Char × Bool :=
    if p.2.2.1 then (p.2.1, p.2.2.2)
    else ((fmtArgNumber p.2.1 p.2.2.2).1, (fmtArgNumber p.2.1 p.2.2.2).2.2)
  match n.1 with
  | [] => (w.1 ++ p.1 ++ "%!(NOVERB)".data, none)
  | verb :: rest =>
    if verb = '%' then (w.1 ++ p.1 ++ ['%'], some rest)
    else if !n.2 then (w.1 ++ p.1 ++ "%!".data ++ [verb] ++ "(BADINDEX)".data, some rest)
    else (w.1 ++ p.1 ++ "%!".data ++ [verb] ++ "(MISSING)".data, some rest)

/-- The loop of `doPrintf` with no operand: text up to a percent sign is copied,
then one verb is processed.  The first argument bounds the number of rounds;
every round consumes a character, so a bound above the length of the format
is never reached (`fmtDoPrintf_fuel`). -/
def fmtDoPrintf : Nat → List Char → List Char
  | 0, _ => []
  | _ + 1, [] => []
  | fuel + 1, c :: cs =>
    if c = '%' then
      match fmtVerb cs with
      | (out, none) => out
      | (out, some rest) => out ++ fmtDoPrintf fuel rest
    else c :: fmtDoPrintf fuel cs

/-- The text of the error made by `fmt.Errorf(format)` with no operand. -/
def Errorf0 (format : String) : String :=
  String.mk (fmtDoPrintf (format.length + 1) format.data)

/-- Go library functions used to build error texts, which this development
does not define: `quote` is `strconv.Quote` (the verb `%q` on a string), whose
result is a text, and `rfc3339` is `Time.Format(time.RFC3339)`. -/
structure GoText where
  quote : GoString → String
  rfc3339 : Time → String

/-! ## The transport (`client.go`) -/

/-- Constant `http.StatusNotFound`. -/
def StatusNotFound : Int := 404

/-- Struct `ErrorResponse`. -/
structure ErrorResponse where
  Message : GoString
  AuthenticateURL : GoString
  deriving DecidableEq, Repr

/-- One object member stored into an `ErrorResponse`. -/
def ErrorResponse.setField (r : ErrorResponse) (key : String) (v : Json) :
    Except String ErrorResponse :=
  match matchField ["message", "authenticateUrl"] key with
  | some "message" => (unmarshalString r.Message v).map (fun s => { r with Message := s })
  | some "authenticateUrl" =>
    (unmarshalString r.AuthenticateURL v).map (fun s => { r with AuthenticateURL := s })
  | _ => .ok r

/-- A response body: its bytes as text, and the JSON value they spell when they
are a JSON text. -/
structure Body where
  text : String
  json : Option Json

/-- The function `json.Unmarshal(body, target)` on the bytes of a body: bytes that are
not a JSON text are a syntax error. -/
def unmarshalBody {α : Type} (unmarshal : α → Json → Run (Except String α)) (target : α)
    (body : Body) : Run (Except String α) :=
  match body.json with
  | none => .ret (.error "invalid character looking for beginning of value")
  | some j => unmarshal target j

/-- What the HTTP round trip of one API request comes to: no response at all
(the URL could not be built, the request body could not be marshalled, or
`HTTPClient.Do` failed), a response whose body could not be read, or a
response with its status code and body. -/
inductive Exchange where
  | failed (err : String)
  | unread (status : Int) (err : String)
  | response (status : Int) (body : Body)

/-- The text `msg` that `doApiRequest` makes from the body of a response whose
status is 400 or more: the message of the body when it decodes as an
`ErrorResponse`, otherwise `Arpio API error: ` followed by the body. -/
def apiErrorMessage (body : Body) : String :=
  match unmarshalBody (fun r j => Run.ret (unmarshalStruct ErrorResponse.setField r j))
      { Message := [], AuthenticateURL := [] } body with
  | .ret (.ok errorResponse) => GoString.text errorResponse.Message
  | _ => "Arpio API error: " ++ body.text

/-- Method `doApiRequest`, from the outcome of the HTTP round trip on: the
results are the status, the error, and the response target after the call
(`responseBody` is nil or points to a target).  For a status of 400 or more
the error is `fmt.Errorf(msg)`.  When `json.Unmarshal` into the target fails,
the target is given as it was before the call: what a failed decoding has
stored in it is not given (the callers in this package drop the target when
there is an error). -/
def doApiRequest {α : Type} (ex : Exchange) (responseBody : Option α)
    (unmarshal : α → Json → Run (Except String α)) : Run (Int × Option String × Option α) :=
  match ex with
  | .failed err => .ret (0, some err, responseBody)
  | .unread status err => .ret (status, some err, responseBody)
  | .response status body =>
    if status ≥ 400 then .ret (status, some (Errorf0 (apiErrorMessage body)), responseBody)
    else
      match responseBody with
      | none => .ret (status, none, none)
      | some target =>
        match unmarshalBody unmarshal target body with
        | .panic m => .panic m
        | .ret (.error e) => .ret (status, some e, some target)
        | .ret (.ok t) => .ret (status, none, some t)

/-! ## Applications (`client_app.go`) -/

/-- Constant `AppPollPeriod`: five seconds, in nanoseconds. -/
def AppPollPeriod : Int := 5 * 1000000000

/-- Methods `apiGet` and `apiDelete`: `doApiRequest` with the method `GET` or
`DELETE` and no request body. -/
def apiGet {α : Type} (ex : Exchange) (responseBody : Option α)
    (unmarshal : α → Json → Run (Except String α)) : Run (Int × Option String × Option α) :=
  doApiRequest ex responseBody unmarshal

@[inherit_doc apiGet]
def apiDelete {α : Type} (ex : Exchange) (responseBody : Option α)
    (unmarshal : α → Json → Run (Except String α)) : Run (Int × Option String × Option α) :=
  doApiRequest ex responseBody unmarshal

/-- Method `GetApp`; `apiGet` is the call `c.apiGet(u, &a)`, from the response
target to the status, the error and the target after the call. -/
def GetApp (apiGet : Option App → Run (Int × Option String × Option App)) :
    Run (Option App × Option String) :=
  match apiGet (some App.zero) with
  | .panic m => .panic m
  | .ret (status, err, a) =>
    if status = StatusNotFound then .ret (none, none)
    else if err.isSome then .ret (none, err)
    else .ret (a, none)

/-- Method `DeleteApp`; `apiDelete` is the call `c.apiDelete(u, nil)`. -/
def DeleteApp (apiDelete : Option Unit → Run (Int × Option String × Option Unit)) :
    Run (Option String) :=
  match apiDelete none with
  | .panic m => .panic m
  | .ret (status, err, _) =>
    if status = StatusNotFound then .ret none
    else if err.isSome then .ret err
    else .ret none

/-- A pointer to an element of a slice: the index of the element, and the
element. -/
structure Ptr (α : Type) where
  index : Nat
  val : α
  deriving DecidableEq, Repr

/-- The loop of `GetAppByName` from index `i` on, with the current value of
`app`: a second app with the name ends the call with an error. -/
def GetAppByName.scan (gt : GoText) (name : GoString) :
    List App → Nat → Option (Ptr App) → Option (Ptr App) × Option String
  | [], _, app => (app, none)
  | a :: rest, i, app =>
    if a.Name = name then
      if app.isSome then
        (none, some ("more than one Arpio app exists with the name " ++ gt.quote name ++
          "; use the Arpio web interface to rename the unrelated apps, then retry"))
      else GetAppByName.scan gt name rest (i + 1) (some { index := i, val := a })
    else GetAppByName.scan gt name rest (i + 1) app

/-- Method `GetAppByName`, from the results of `ListApps` on. -/
def GetAppByName (gt : GoText) (listApps : Slice App × Option String) (name : GoString) :
    Option (Ptr App) × Option String :=
  match listApps.2 with
  | some err => (none, some err)
  | none => GetAppByName.scan gt name (Slice.elems listApps.1) 0 none

/-! ## Recovery points (`client_recovery_points.go`) -/

/-- Constant `RecoveryPointPollPeriod`: five seconds, in nanoseconds. -/
def RecoveryPointPollPeriod : Int := 5 * 1000000000

/-- Method `GetRecoveryPoint`; `apiGet` is the call `c.apiGet(u, &r)`. -/
def GetRecoveryPoint
    (apiGet : Option RecoveryPoint → Run (Int × Option String × Option RecoveryPoint)) :
    Run (Option RecoveryPoint × Option String) :=
  match apiGet (some RecoveryPoint.zero) with
  | .panic m => .panic m
  | .ret (status, err, r) =>
    if status = StatusNotFound then .ret (none, none)
    else if err.isSome then .ret (none, err)
    else .ret (r, none)

/-- The function `json.Unmarshal` into a `RecoveryPoint`, which has no method
`UnmarshalJSON` of its own. -/
def RecoveryPoint.unmarshal (tc : TimeCodec) (r : RecoveryPoint) (j : Json) :
    Run (Except String RecoveryPoint) :=
  .ret (unmarshalStruct (RecoveryPoint.setField tc) r j)

/-- The loop of `FindLatestRecoveryPoint` from index `i` on, with the current
value of `rp`. -/
def FindLatestRecoveryPoint.scan :
    List RecoveryPoint → Nat → Option (Ptr RecoveryPoint) → Option (Ptr RecoveryPoint)
  | [], _, rp => rp
  | r :: rest, i, rp =>
    match rp with
    | none => FindLatestRecoveryPoint.scan rest (i + 1) (some { index := i, val := r })
    | some cur =>
      if r.Timestamp.After cur.val.Timestamp then
        FindLatestRecoveryPoint.scan rest (i + 1) (some { index := i, val := r })
      else FindLatestRecoveryPoint.scan rest (i + 1) (some cur)

/-- Method `FindLatestRecoveryPoint`, from the results of `ListRecoveryPoints`
on. -/
def FindLatestRecoveryPoint (listRecoveryPoints : Slice RecoveryPoint × Option String) :
    Option (Ptr RecoveryPoint) × Option String :=
  match listRecoveryPoints.2 with
  | some err => (none, some err)
  | none => (FindLatestRecoveryPoint.scan (Slice.elems listRecoveryPoints.1) 0 none, none)

/-! ## The poll loops of `MustGetAppByName` and `MustFindLatestRecoveryPoint` -/

/-- What a polling call does that can be seen from outside, in order: a reading
of the clock (`time.Now()`, with the time read), a call of the lookup, a sleep
(`time.Sleep`, with its duration). -/
inductive Event where
  | now (t : Time)
  | lookup
  | sleep (d : Int)
  deriving DecidableEq, Repr

/-- The surroundings of a polling call: what `time.Now()` reads and what the
listing request of the lookup returns, each as a function of everything the
call has done so far. -/
structure PollEnv (ρ : Type) where
  clock : List Event → Time
  list : List Event → ρ

/-- How the `for` statement of a polling call ends: by the `return` inside the
loop, or by leaving the loop (the condition is false, or `break`), each with
the values of the two named results at that point. -/
inductive LoopEnd (α : Type) where
  | returned (res : Option α) (err : Option String)
  | left (res : Option α) (err : Option String)

/-- The `for` statement of `MustGetAppByName` and `MustFindLatestRecoveryPoint`
(the two are the same text but for the lookup and the poll period), entered
with the named results `res` and `err` and the history `hist`:

    for timeoutAt := ...; timeout == zeroDuration || time.Now().Before(timeoutAt); {
        res, err = lookup()
        if err != nil { return res, err }
        if res != nil || timeout == zeroDuration { break }
        time.Sleep(period)
    }

The first argument bounds the number of rounds; `none` means the bound was
reached. -/
def pollLoop {α : Type} (clock : List Event → Time)
    (lookup : List Event → Option α × Option String) (period timeout : Int)
    (timeoutAt : Time) :
    Nat → Option α → Option String → List Event → Option (LoopEnd α × List Event)
  | 0, _, _, _ => none
  | fuel + 1, res, err, hist =>
    let cond : Bool × List Event :=
      if timeout = 0 then (true, hist)
      else ((clock hist).Before timeoutAt, hist ++ [Event.now (clock hist)])
    if cond.1 then
      let r := lookup cond.2
      let hist2 := cond.2 ++ [Event.lookup]
      if r.2.isSome then some (.returned r.1 r.2, hist2)
      else if r.1.isSome || timeout = 0 then some (.left r.1 r.2, hist2)
      else pollLoop clock lookup period timeout timeoutAt fuel r.1 r.2
        (hist2 ++ [Event.sleep period])
    else some (.left res err, cond.2)

/-- Method `MustGetAppByName`: the results and the history of the call, or `none`
when the bound on the number of rounds was reached. -/
def MustGetAppByName (gt : GoText) (env : PollEnv (Slice App × Option String))
    (name : GoString) (timeout : Int) (fuel : Nat) :
    Option ((Option (Ptr App) × Option String) × List Event) :=
  let timeoutAt := (env.clock []).Add timeout
  match pollLoop env.clock (fun h => GetAppByName gt (env.list h) name) AppPollPeriod timeout
      timeoutAt fuel none none [Event.now (env.clock [])] with
  | none => none
  | some (.returned app err, hist) => some ((app, err), hist)
  | some (.left app err, hist) =>
    if app.isNone then
      some ((app, some ("there is no Arpio application named " ++ gt.quote name)), hist)
    else some ((app, err), hist)

/-- The error that `MustFindLatestRecoveryPoint` prepares when it found no
recovery point, by the bounds that are set. -/
def noRecoveryPointError (gt : GoText) (timestampMin timestampMax : Option Time) : String :=
  match timestampMin, timestampMax with
  | some tmin, some tmax =>
    "there are no recovery points between " ++ gt.quote (gt.rfc3339 tmin) ++ " and " ++
      gt.quote (gt.rfc3339 tmax) ++ "; change timestamp_min to an earlier time or " ++
      "remove it from your config to use an older recovery point, " ++
      "or remove timestamp from your config to use the most recent " ++
      "recovery point"
  | some tmin, none =>
    "there are no recovery points on or " ++ "after " ++ gt.quote (gt.rfc3339 tmin) ++
      "; change timestamp_min to an earlier time or remove " ++
      "it from your config to use an older recovery point"
  | none, some tmax =>
    "there are no recovery points on or " ++ "before " ++ gt.quote (gt.rfc3339 tmax) ++
      "; change timestamp to a later time or remove " ++
      "it from your config to use a newer recovery point"
  | none, none =>
    "no recovery points exist for this " ++
      "application yet; please wait for the first recovery point " ++
      "to be created"

/-- Method `MustFindLatestRecoveryPoint`: the results and the history of the
call, or `none` when the bound on the number of rounds was reached. -/
def MustFindLatestRecoveryPoint (gt : GoText)
    (env : PollEnv (Slice RecoveryPoint × Option String))
    (timestampMin timestampMax : Option Time) (timeout : Int) (fuel : Nat) :
    Option ((Option (Ptr RecoveryPoint) × Option String) × List Event) :=
  let timeoutAt := (env.clock []).Add timeout
  match pollLoop env.clock (fun h => FindLatestRecoveryPoint (env.list h))
      RecoveryPointPollPeriod timeout timeoutAt fuel none none [Event.now (env.clock [])] with
  | none => none
  | some (.returned rp err, hist) => some ((rp, err), hist)
  | some (.left rp err, hist) =>
    if rp.isNone then some ((rp, some (noRecoveryPointError gt timestampMin timestampMax)), hist)
    else some ((rp, err), hist)

/-! ## Predicates and sample values used in the statements -/

/-- The start of the year 0, in nanoseconds since the zero time: the zero time
is the start of the year 1, and the year 0 has 366 days. -/
def yearZeroStart : Int := -(366 * 86400 * 1000000000)

/-- The start of the year 10000, in nanoseconds since the zero time: the years
1 to 9999 have 3652059 days. -/
def yearTenThousandStart : Int := 3652059 * 86400 * 1000000000

/-- The last nanosecond of the year -1. -/
def timeBeforeYearZero : Time := ⟨yearZeroStart - 1⟩

/-- The fragment of the RFC 3339 codec on the zero time, which `TestAppJSON`
uses (`time.Time{}` is written `0001-01-01T00:00:00Z`), and on the times whose
year is outside 0 to 9999, which `Time.MarshalJSON` refuses. -/
def zeroTimeCodec : TimeCodec :=
  { format := fun t =>
      if t.nanos < yearZeroStart ∨ yearTenThousandStart ≤ t.nanos then none
      else some "0001-01-01T00:00:00Z"
    parse := fun s => if s = "0001-01-01T00:00:00Z" then some ⟨0⟩ else none }

/-- A JSON object for a staged resource whose `extras` array holds one element
of an unknown type followed by two elements of known types. -/
def stagedResourceJsonMixed : Json :=
  .obj [("arn", .str "arn:r"), ("tags", .obj [("k", .str "v")]), ("type", .str "t"),
    ("extras", .arr [
      .obj [("type", .str "mystery"), ("environment", .str "source")],
      .obj [("type", .str "kmsKey"), ("environment", .str "source"), ("kmsKeyArn", .str "arn:k")],
      .obj [("type", .str "ec2Snapshot"), ("environment", .str "target"),
        ("snapshotArn", .str "arn:s")]])]

/-- A rule made by `NewArnRule` or `NewTagRule`. -/
def SelectionRule.Built (r : SelectionRule) : Prop :=
  (∃ arns, r = .arnRule (NewArnRule arns)) ∨ (∃ n v, r = .tagRule (NewTagRule n v))

/-- The JSON value that `json.Marshal` writes for a rule (`null` stands in when
it writes none). -/
def selectionRuleJson (r : SelectionRule) : Json :=
  match marshalSelectionRule r with
  | .ok j => j
  | .error _ => .null

/-- Every string of a slice is well-formed UTF-8. -/
def validStrings (ss : Slice GoString) : Prop :=
  ∀ s ∈ Slice.elems ss, utf8ValidString s = true

/-- Every key and value of a map is well-formed UTF-8. -/
def StrMap.ValidUTF8 (m : StrMap) : Prop :=
  ∀ kv ∈ Slice.elems m, utf8ValidString kv.1 = true ∧ utf8ValidString kv.2 = true

/-- Every string of a rule of one of the types of the package is well-formed
UTF-8. -/
def SelectionRule.ValidUTF8 : SelectionRule → Prop
  | .nil => True
  | .baseRule r => utf8ValidString r.RuleType = true
  | .arnRule r => utf8ValidString r.base.RuleType = true ∧ validStrings r.Arns
  | .tagRule r =>
    utf8ValidString r.base.RuleType = true ∧ utf8ValidString r.Name = true ∧
      utf8ValidString r.Value = true
  | .other _ => True

/-- Every string of an App is well-formed UTF-8: its string fields, its
notification emails, and the strings of its selection rules. -/
def App.ValidUTF8 (a : App) : Prop :=
  utf8ValidString a.AccountID = true ∧ utf8ValidString a.AppID = true ∧
  utf8ValidString a.AppType = true ∧ utf8ValidString a.Name = true ∧
  validStrings a.NotificationEmails ∧
  utf8ValidString a.SourceAwsAccountID = true ∧ utf8ValidString a.SourceRegion = true ∧
  utf8ValidString a.SyncPhase = true ∧ utf8ValidString a.TargetAwsAccountID = true ∧
  utf8ValidString a.TargetRegion = true ∧
  ∀ r ∈ Slice.elems a.SelectionRules, r.ValidUTF8

/-- The time is one that `Time.MarshalJSON` accepts and that `Time.UnmarshalJSON`
reads back from the text written for it. -/
def TimeCodec.GivesBack (tc : TimeCodec) (t : Time) : Prop :=
  ∃ s, tc.format t = some s ∧ tc.parse s = some t

/-- An App whose `CreatedAt` is in the year -1. -/
def appBeforeYearZero : App := { App.zero with CreatedAt := timeBeforeYearZero }

/-- An App whose only selection rule is of a type of the caller for which
`json.Marshal` returns an error. -/
def appFailingRule : App :=
  { App.zero with
    SelectionRules := some [.other (.error "json: error calling MarshalJSON for type main.Rule")] }

/-- An App whose name is the one byte `0xff`, which is not well-formed UTF-8,
and whose `SelectionRules` is the empty slice. -/
def appBadName : App := { App.zero with Name := [0xff], SelectionRules := some [] }

/-- The fields of an App that the round trip test compares: the helper
field `RawSelectionRules` is cleared (`decoded.RawSelectionRules = nil`). -/
def App.clearRaw (a : App) : App := { a with RawSelectionRules := none }

/-- What decoding makes of the slices of an App that was encoded: a nil
`SelectionRules` comes back as the empty slice, and an empty
`NotificationEmails`, which is left out of the JSON object, comes back nil. -/
def App.afterRoundTrip (a : App) : App :=
  { a with
    SelectionRules := some (Slice.elems a.SelectionRules)
    NotificationEmails :=
      if (Slice.elems a.NotificationEmails).length = 0 then none else a.NotificationEmails }

/-- The App of `TestAppJSON`: one ARN rule followed by two tag rules. -/
def testApp : App :=
  { AccountID := "a", AppID := "b", AppType := "c", CreatedAt := ⟨0⟩, Name := "d",
    NotificationEmails := some ["a@example.com", "b@example.com"], RPO := 0,
    SelectionRules := some [
      .arnRule (NewArnRule (some ["arn:a", "arn:b"])),
      .tagRule (NewTagRule "foo" "bar"),
      .tagRule (NewTagRule "foo2" "bar2")],
    SourceAwsAccountID := "e", SourceRegion := "f", SyncPhase := "g",
    TargetAwsAccountID := "h", TargetRegion := "i", RawSelectionRules := none }

/-- The entries of a map are in increasing key order, one entry for each key
(the form in which this development keeps a Go map). -/
def StrMap.Valid : StrMap → Prop
  | none => True
  | some m => (m.map Prod.fst).Pairwise (fun k1 k2 => GoString.lt k1 k2 = true)

/-- A staged extra of one of the eight known variants that carries the type
discriminator of its own variant. -/
def StagedExtra.Known : StagedExtra → Prop
  | .backupRecoveryPoint e =>
    e.base.Type_ = BackupRecoveryPointExtraType ∧ StrMap.Valid e.RestoreMetadata
  | .backupVault e => e.base.Type_ = BackupVaultExtraType
  | .ec2Image e => e.base.Type_ = EC2ImageExtraType
  | .ec2Snapshot e => e.base.Type_ = EC2SnapshotExtraType
  | .kmsKey e => e.base.Type_ = KMSKeyExtraType
  | .rdsDbClusterSnapshot e => e.base.Type_ = RDSDBClusterSnapshotExtraType
  | .rdsDbSnapshot e => e.base.Type_ = RDSDBSnapshotExtraType
  | .rdsOptionGroup e => e.base.Type_ = RDSOptionGroupExtraType
  | .nil => False
  | .baseExtra _ => False
  | .other _ => False

/-- The JSON value that `json.Marshal` writes for a staged extra (`null` stands
in when it writes none). -/
def stagedExtraJson (e : StagedExtra) : Json :=
  match marshalStagedExtra e with
  | .ok j => j
  | .error _ => .null

/-- Every string of a staged extra of one of the types of the package is
well-formed UTF-8. -/
def StagedExtra.ValidUTF8 : StagedExtra → Prop
  | .nil => True
  | .baseExtra e => utf8ValidString e.Type_ = true ∧ utf8ValidString e.Environment = true
  | .backupRecoveryPoint e =>
    utf8ValidString e.base.Environment = true ∧ utf8ValidString e.BackupVaultName = true ∧
      utf8ValidString e.RecoveryPointARN = true ∧ StrMap.ValidUTF8 e.RestoreMetadata
  | .backupVault e =>
    utf8ValidString e.base.Environment = true ∧ utf8ValidString e.BackupVaultName = true
  | .ec2Image e =>
    utf8ValidString e.base.Environment = true ∧ utf8ValidString e.ImageARN = true ∧
      validStrings e.SnapshotARNs
  | .ec2Snapshot e =>
    utf8ValidString e.base.Environment = true ∧ utf8ValidString e.SnapshotARN = true
  | .kmsKey e => utf8ValidString e.base.Environment = true ∧ utf8ValidString e.KMSKeyARN = true
  | .rdsDbClusterSnapshot e =>
    utf8ValidString e.base.Environment = true ∧ utf8ValidString e.DBClusterSnapshotARN = true
  | .rdsDbSnapshot e =>
    utf8ValidString e.base.Environment = true ∧ utf8ValidString e.DBSnapshotARN = true
  | .rdsOptionGroup e =>
    utf8ValidString e.base.Environment = true ∧ utf8ValidString e.OptionGroupARN = true
  | .other _ => True

/-- Every string of a staged resource is well-formed UTF-8: its arn and type,
the keys and values of its tags, and the strings of its extras. -/
def StagedResource.ValidUTF8 (sr : StagedResource) : Prop :=
  utf8ValidString sr.ARN = true ∧ utf8ValidString sr.Type_ = true ∧
  StrMap.ValidUTF8 sr.Tags ∧ ∀ e ∈ Slice.elems sr.Extras, e.ValidUTF8

/-- A staged resource whose arn is the one byte `0xff`, which is not well-formed
UTF-8, and whose `Extras` is the empty slice. -/
def stagedResourceBadArn : StagedResource :=
  { StagedResource.zero with ARN := [0xff], Extras := some [] }

/-- The fields of a staged resource that a round trip compares: the helper
field `RawExtras` is cleared. -/
def StagedResource.clearRaw (sr : StagedResource) : StagedResource :=
  { sr with RawExtras := none }

/-- What decoding makes of the extras of a staged resource that was encoded: a
nil `Extras` comes back as the empty slice. -/
def StagedResource.afterRoundTrip (sr : StagedResource) : StagedResource :=
  { sr with Extras := some (Slice.elems sr.Extras) }

/-- A staged resource with one extra of each of the eight known variants. -/
def testStagedResource : StagedResource :=
  { ARN := "arn:r", Tags := some [("env", "prod"), ("team", "")], Type_ := "ec2Instance",
    Extras := some [
      .backupRecoveryPoint ⟨⟨"backupRecoveryPoint", "source"⟩, "vault", "arn:rp",
        some [("a", "1"), ("b", "2")]⟩,
      .backupVault ⟨⟨"backupVault", "target"⟩, "vault"⟩,
      .ec2Image ⟨⟨"ec2Image", "source"⟩, "arn:i", some ["arn:s1", "arn:s2"]⟩,
      .ec2Snapshot ⟨⟨"ec2Snapshot", "target"⟩, "arn:s"⟩,
      .kmsKey ⟨⟨"kmsKey", "source"⟩, "arn:k"⟩,
      .rdsDbClusterSnapshot ⟨⟨"rdsDbClusterSnapshot", "target"⟩, "arn:cs"⟩,
      .rdsDbSnapshot ⟨⟨"rdsDbSnapshot", "source"⟩, "arn:ds"⟩,
      .rdsOptionGroup ⟨⟨"rdsOptionGroup", "target"⟩, "arn:og"⟩],
    RawExtras := none }

/-- The number of apps of a list whose `Name` is exactly `name`. -/
def nameCount (apps : Slice App) (name : GoString) : Nat :=
  (Slice.elems apps).countP (fun a => decide (a.Name = name))

/-- The error text of `GetAppByName` for a name that more than one app has. -/
def ambiguousNameError (gt : GoText) (name : GoString) : String :=
  "more than one Arpio app exists with the name " ++ gt.quote name ++
    "; use the Arpio web interface to rename the unrelated apps, then retry"

/-- The library texts on plain input: `strconv.Quote` of a text of letters and
digits is the text between double quotes, and the zero time is written
`0001-01-01T00:00:00Z`. -/
def plainText : GoText :=
  { quote := fun s => "\"" ++ GoString.text s ++ "\""
    rfc3339 := fun _ => "0001-01-01T00:00:00Z" }

/-- An app with the given name, and nothing else set. -/
def appNamed (name : GoString) : App := { App.zero with Name := name }

/-- Apps named `x`, `y`, `x`, in this order. -/
def appsXYX : Slice App := some [appNamed "x", appNamed "y", appNamed "x"]

/-- A recovery point with the given identifier and timestamp. -/
def rpAt (id : GoString) (t : Int) : RecoveryPoint :=
  { RecoveryPoint.zero with RecoveryPointID := id, Timestamp := ⟨t⟩ }

/-- Recovery points with the timestamps 1, 3, 2, in this order. -/
def rps132 : Slice RecoveryPoint := some [rpAt "p1" 1, rpAt "p3" 3, rpAt "p2" 2]

/-- The status that `doApiRequest` reports for an exchange (zero when there was
no response). -/
def Exchange.status : Exchange → Int
  | .failed _ => 0
  | .unread status _ => status
  | .response status _ => status

/-- A response with status 500 whose body is the standard error shape with a
message that ends in a percent sign. -/
def percentErrorResponse : Exchange :=
  .response 500
    { text := "\x7b\"message\":\"disk usage is at 100%\"\x7d"
      json := some (.obj [("message", .str "disk usage is at 100%")]) }

/-- A response with status 500 whose body is the standard error shape. -/
def plainErrorResponse : Exchange :=
  .response 500
    { text := "\x7b\"message\":\"internal error\"\x7d"
      json := some (.obj [("message", .str "internal error")]) }

/-- A response with status 404 and an empty body. -/
def notFoundResponse : Exchange :=
  .response 404 { text := "", json := none }

/-- An environment whose clock stands still and whose listing request always
returns the empty list. -/
def stillEnv (ρ : Type) (r : ρ) : PollEnv ρ :=
  { clock := fun _ => ⟨0⟩, list := fun _ => r }

/-! ## Predicates on the runs of the poll loops (claims C11 to C15) -/

/-- The runs of the `for` statement of the polling calls, round by round:
`PollRun … hist e suffix` says that the statement, entered with the history
`hist` and nil results, ends as `e` after adding `suffix` to the history.
A run is one of: the only round of a call with timeout zero (`once`); a round
whose clock reading has reached the deadline (`expired`); a round whose lookup
returns an error (`failed`) or a result (`found`); a round whose lookup finds
nothing, followed by the sleep and by the run of the rest (`retried`). -/
inductive PollRun {α : Type} (clock : List Event → Time)
    (lookup : List Event → Option α × Option String) (period timeout : Int)
    (timeoutAt : Time) : List Event → LoopEnd α → List Event → Prop where
  | once (hist : List Event) (hzero : timeout = 0) :
    PollRun clock lookup period timeout timeoutAt hist
      (if (lookup hist).2.isSome then LoopEnd.returned (lookup hist).1 (lookup hist).2
        else LoopEnd.left (lookup hist).1 (lookup hist).2)
      [Event.lookup]
  | expired (hist : List Event) (hto : timeout ≠ 0)
      (hclock : (clock hist).Before timeoutAt = false) :
    PollRun clock lookup period timeout timeoutAt hist (LoopEnd.left none none)
      [Event.now (clock hist)]
  | failed (hist : List Event) (hto : timeout ≠ 0)
      (hclock : (clock hist).Before timeoutAt = true)
      (herr : (lookup (hist ++ [Event.now (clock hist)])).2.isSome = true) :
    PollRun clock lookup period timeout timeoutAt hist
      (LoopEnd.returned (lookup (hist ++ [Event.now (clock hist)])).1
        (lookup (hist ++ [Event.now (clock hist)])).2)
      [Event.now (clock hist), Event.lookup]
  | found (hist : List Event) (hto : timeout ≠ 0)
      (hclock : (clock hist).Before timeoutAt = true)
      (hnoerr : (lookup (hist ++ [Event.now (clock hist)])).2 = none)
      (hres : (lookup (hist ++ [Event.now (clock hist)])).1.isSome = true) :
    PollRun clock lookup period timeout timeoutAt hist
      (LoopEnd.left (lookup (hist ++ [Event.now (clock hist)])).1 none)
      [Event.now (clock hist), Event.lookup]
  | retried (hist : List Event) (e : LoopEnd α) (suffix : List Event) (hto : timeout ≠ 0)
      (hclock : (clock hist).Before timeoutAt = true)
      (hnothing : lookup (hist ++ [Event.now (clock hist)]) = (none, none))
      (hrest : PollRun clock lookup period timeout timeoutAt
        (hist ++ [Event.now (clock hist), Event.lookup, Event.sleep period]) e suffix) :
    PollRun clock lookup period timeout timeoutAt hist e
      ([Event.now (clock hist), Event.lookup, Event.sleep period] ++ suffix)

/-- The history after `k` rounds that each read the clock, look up and sleep,
from the history `hist` on. -/
def afterIdleRounds (clock : List Event → Time) (period : Int) : Nat → List Event → List Event
  | 0, hist => hist
  | k + 1, hist =>
    afterIdleRounds clock period k
      (hist ++ [Event.now (clock hist), Event.lookup, Event.sleep period])

/-- A round entered with the history `hist` finds nothing and goes on to
sleep: the timeout is not zero, the clock reads a time before the deadline,
and the lookup returns a nil result and a nil error. -/
def IdleRound {α : Type} (clock : List Event → Time)
    (lookup : List Event → Option α × Option String) (timeout : Int) (timeoutAt : Time)
    (hist : List Event) : Prop :=
  timeout ≠ 0 ∧ (clock hist).Before timeoutAt = true ∧
    lookup (hist ++ [Event.now (clock hist)]) = (none, none)

/-- The time spent sleeping in a history. -/
def sleptTime : List Event → Int
  | [] => 0
  | Event.sleep d :: rest => d + sleptTime rest
  | _ :: rest => sleptTime rest

/-- The two results of a polling call, from the way its `for` statement ended:
the results of the `return` inside the loop, or, after the loop, the result
with the error `msg` prepared when the result is nil. -/
def LoopEnd.results {α : Type} (msg : String) : LoopEnd α → Option α × Option String
  | .returned res err => (res, err)
  | .left res err => if res.isNone then (res, some msg) else (res, err)

/-- The history at the lookup of a round that is entered with the history
`hist`: with a timeout that is not zero the condition of the loop has read
the clock. -/
def lookupHistory (clock : List Event → Time) (timeout : Int) (hist : List Event) :
    List Event :=
  if timeout = 0 then hist else hist ++ [Event.now (clock hist)]

/-- The error text of `MustGetAppByName` when no app was found. -/
def noAppError (gt : GoText) (name : GoString) : String :=
  "there is no Arpio application named " ++ gt.quote name

/-- An environment whose clock stands still and whose listing request fails. -/
def failingEnv (ρ : Type) (r : ρ) : PollEnv (ρ × Option String) :=
  { clock := fun _ => ⟨0⟩, list := fun _ => (r, some "connection refused") }

/-- An environment whose lookups are slow: the clock reads zero until the
first lookup and a hundred seconds from then on; the listing request returns
no app. -/
def slowLookupEnv : PollEnv (Slice App × Option String) :=
  { clock := fun hist => if Event.lookup ∈ hist then ⟨100000000000⟩ else ⟨0⟩
    list := fun _ => (some [], none) }

/-- An environment whose clock is moved by the sleeps only, and whose listing
request returns no app until seven seconds have been slept and the app `x`
from then on. -/
def sleepClockEnv : PollEnv (Slice App × Option String) :=
  { clock := fun hist => ⟨sleptTime hist⟩
    list := fun hist =>
      if sleptTime hist < 7000000000 then (some [], none) else (some [appNamed "x"], none) }

/-- An environment whose clock is moved by the sleeps only, and whose listing
request returns no recovery point until seven seconds have been slept and
three recovery points from then on. -/
def sleepClockRpEnv : PollEnv (Slice RecoveryPoint × Option String) :=
  { clock := fun hist => ⟨sleptTime hist⟩
    list := fun hist => if sleptTime hist < 7000000000 then (some [], none) else (rps132, none) }

/-- The lookup of `MustGetAppByName`: `GetAppByName` on what the listing request
returns at the given history. -/
def appLookup (gt : GoText) (env : PollEnv (Slice App × Option String)) (name : GoString)
    (hist : List Event) : Option (Ptr App) × Option String :=
  GetAppByName gt (env.list hist) name

/-- The lookup of `MustFindLatestRecoveryPoint`: `FindLatestRecoveryPoint` on what
the listing request returns at the given history. -/
def rpLookup (env : PollEnv (Slice RecoveryPoint × Option String)) (hist : List Event) :
    Option (Ptr RecoveryPoint) × Option String :=
  FindLatestRecoveryPoint (env.list hist)

/-- The history of a polling call when its loop is entered: the clock has been
read once, for the deadline. -/
def startHistory {ρ : Type} (env : PollEnv ρ) : List Event := [Event.now (env.clock [])]

/-- The deadline `timeoutAt` of a polling call. -/
def deadline {ρ : Type} (env : PollEnv ρ) (timeout : Int) : Time := (env.clock []).Add timeout

/-- The time elapsed since the call started, as the clock reads it at the
given history. -/
def elapsed {ρ : Type} (env : PollEnv ρ) (hist : List Event) : Int :=
  (env.clock hist).nanos - (env.clock []).nanos

/-! # Theorems -/

/-! ## Go strings: UTF-8 codes and texts -/

theorem toNat_ofNat_of_valid (n : Nat) (h : n.isValidChar) : (Char.ofNat n).toNat = n := by
  simp [Char.ofNat, h, Char.ofNatAux, Char.toNat, UInt32.toNat]

theorem utf8Lo_cases (b0 : Nat) :
    (b0 = 0xE0 ∧ utf8Lo b0 = 0xA0) ∨ (b0 = 0xF0 ∧ utf8Lo b0 = 0x90) ∨
      (b0 ≠ 0xE0 ∧ b0 ≠ 0xF0 ∧ utf8Lo b0 = 0x80) := by
  unfold utf8Lo
  by_cases h1 : b0 = 0xE0
  · exact Or.inl ⟨h1, by rw [if_pos h1]⟩
  · by_cases h2 : b0 = 0xF0
    · exact Or.inr (Or.inl ⟨h2, by rw [if_neg h1, if_pos h2]⟩)
    · exact Or.inr (Or.inr ⟨h1, h2, by rw [if_neg h1, if_neg h2]⟩)

theorem utf8Hi_cases (b0 : Nat) :
    (b0 = 0xED ∧ utf8Hi b0 = 0x9F) ∨ (b0 = 0xF4 ∧ utf8Hi b0 = 0x8F) ∨
      (b0 ≠ 0xED ∧ b0 ≠ 0xF4 ∧ utf8Hi b0 = 0xBF) := by
  unfold utf8Hi
  by_cases h1 : b0 = 0xED
  · exact Or.inl ⟨h1, by rw [if_pos h1]⟩
  · by_cases h2 : b0 = 0xF4
    · exact Or.inr (Or.inl ⟨h2, by rw [if_neg h1, if_pos h2]⟩)
    · exact Or.inr (Or.inr ⟨h1, h2, by rw [if_neg h1, if_neg h2]⟩)

theorem utf8DecodeRune_sound (bs : GoString) (n : Nat) (rest : GoString)
    (h : utf8DecodeRune bs = some (n, rest)) :
    n.isValidChar ∧ bs = utf8EncodeRune n ++ rest ∧ rest.length < bs.length := by
  cases bs with
  | nil => simp [utf8DecodeRune] at h
  | cons b0 tl =>
    by_cases h1 : b0.val < 0x80
    · simp only [utf8DecodeRune, if_pos h1, Option.some.injEq, Prod.mk.injEq] at h
      obtain ⟨rfl, rfl⟩ := h
      refine ⟨Or.inl (by omega), ?_, by simp⟩
      simp only [utf8EncodeRune, if_pos h1, List.singleton_append, List.cons.injEq, and_true]
      apply Fin.ext
      simp only [Fin.ofNat, Fin.val_mk]
      omega
    · by_cases h2 : b0.val < 0xC2
      · simp [utf8DecodeRune, if_neg h1, if_pos h2] at h
      · by_cases h3 : b0.val < 0xE0
        · cases tl with
          | nil => simp [utf8DecodeRune, if_neg h1, if_neg h2, if_pos h3] at h
          | cons b1 r =>
            by_cases hb : 0x80 ≤ b1.val ∧ b1.val ≤ 0xBF
            · simp only [utf8DecodeRune, if_neg h1, if_neg h2, if_pos h3, if_pos hb,
                Option.some.injEq, Prod.mk.injEq] at h
              obtain ⟨rfl, rfl⟩ := h
              have hn1 : ¬ (b0.val - 0xC0) * 64 + (b1.val - 0x80) < 0x80 := by omega
              have hn2 : (b0.val - 0xC0) * 64 + (b1.val - 0x80) < 0x800 := by omega
              refine ⟨Or.inl (by omega), ?_, by simp; omega⟩
              simp only [utf8EncodeRune, if_neg hn1, if_pos hn2, List.cons_append,
                List.nil_append, List.cons.injEq, and_true]
              constructor <;>
              · apply Fin.ext
                simp only [Fin.ofNat, Fin.val_mk]
                omega
            · simp [utf8DecodeRune, if_neg h1, if_neg h2, if_pos h3, if_neg hb] at h
        · by_cases h4 : b0.val < 0xF0
          · rcases tl with _ | ⟨b1, _ | ⟨b2, r⟩⟩
            · simp [utf8DecodeRune, if_neg h1, if_neg h2, if_neg h3, if_pos h4] at h
            · simp [utf8DecodeRune, if_neg h1, if_neg h2, if_neg h3, if_pos h4] at h
            · by_cases hb : utf8Lo b0.val ≤ b1.val ∧ b1.val ≤ utf8Hi b0.val ∧
                  0x80 ≤ b2.val ∧ b2.val ≤ 0xBF
              · simp only [utf8DecodeRune, if_neg h1, if_neg h2, if_neg h3, if_pos h4, if_pos hb,
                  Option.some.injEq, Prod.mk.injEq] at h
                obtain ⟨rfl, rfl⟩ := h
                obtain ⟨hb1, hb2, hb3, hb4⟩ := hb
                have hlo := utf8Lo_cases b0.val
                have hhi := utf8Hi_cases b0.val
                have hn2 : ¬ (b0.val - 0xE0) * 4096 + (b1.val - 0x80) * 64 + (b2.val - 0x80)
                    < 0x800 := by omega
                have hn1 : ¬ (b0.val - 0xE0) * 4096 + (b1.val - 0x80) * 64 + (b2.val - 0x80)
                    < 0x80 := by omega
                have hn3 : (b0.val - 0xE0) * 4096 + (b1.val - 0x80) * 64 + (b2.val - 0x80)
                    < 0x10000 := by omega
                refine ⟨?_, ?_, by simp; omega⟩
                · unfold Nat.isValidChar
                  omega
                · simp only [utf8EncodeRune, if_neg hn1, if_neg hn2, if_pos hn3, List.cons_append,
                    List.nil_append, List.cons.injEq, and_true]
                  refine ⟨?_, ?_, ?_⟩ <;>
                  · apply Fin.ext
                    simp only [Fin.ofNat, Fin.val_mk]
                    omega
              · simp [utf8DecodeRune, if_neg h1, if_neg h2, if_neg h3, if_pos h4, if_neg hb] at h
          · by_cases h5 : b0.val < 0xF5
            · rcases tl with _ | ⟨b1, _ | ⟨b2, _ | ⟨b3, r⟩⟩⟩
              · simp [utf8DecodeRune, if_neg h1, if_neg h2, if_neg h3, if_neg h4, if_pos h5] at h
              · simp [utf8DecodeRune, if_neg h1, if_neg h2, if_neg h3, if_neg h4, if_pos h5] at h
              · simp [utf8DecodeRune, if_neg h1, if_neg h2, if_neg h3, if_neg h4, if_pos h5] at h
              · by_cases hb : utf8Lo b0.val ≤ b1.val ∧ b1.val ≤ utf8Hi b0.val ∧
                    0x80 ≤ b2.val ∧ b2.val ≤ 0xBF ∧ 0x80 ≤ b3.val ∧ b3.val ≤ 0xBF
                · simp only [utf8DecodeRune, if_neg h1, if_neg h2, if_neg h3, if_neg h4,
                    if_pos h5, if_pos hb, Option.some.injEq, Prod.mk.injEq] at h
                  obtain ⟨rfl, rfl⟩ := h
                  obtain ⟨hb1, hb2, hb3, hb4, hb5, hb6⟩ := hb
                  have hlo := utf8Lo_cases b0.val
                  have hhi := utf8Hi_cases b0.val
                  have hn3 : ¬ (b0.val - 0xF0) * 262144 + (b1.val - 0x80) * 4096 +
                      (b2.val - 0x80) * 64 + (b3.val - 0x80) < 0x10000 := by omega
                  have hn1 : ¬ (b0.val - 0xF0) * 262144 + (b1.val - 0x80) * 4096 +
                      (b2.val - 0x80) * 64 + (b3.val - 0x80) < 0x80 := by omega
                  have hn2 : ¬ (b0.val - 0xF0) * 262144 + (b1.val - 0x80) * 4096 +
                      (b2.val - 0x80) * 64 + (b3.val - 0x80) < 0x800 := by omega
                  refine ⟨?_, ?_, by simp; omega⟩
                  · unfold Nat.isValidChar
                    omega
                  · simp only [utf8EncodeRune, if_neg hn1, if_neg hn2, if_neg hn3,
                      List.cons_append, List.nil_append, List.cons.injEq, and_true]
                    refine ⟨?_, ?_, ?_, ?_⟩ <;>
                    · apply Fin.ext
                      simp only [Fin.ofNat, Fin.val_mk]
                      omega
                · simp [utf8DecodeRune, if_neg h1, if_neg h2, if_neg h3, if_neg h4, if_pos h5,
                    if_neg hb] at h
            · simp [utf8DecodeRune, if_neg h1, if_neg h2, if_neg h3, if_neg h4, if_neg h5] at h

theorem utf8DecodeRune_encode (c : Char) (rest : GoString) :
    utf8DecodeRune (utf8EncodeRune c.toNat ++ rest) = some (c.toNat, rest) := by
  have hv : c.toNat.isValidChar := c.valid
  generalize c.toNat = n at hv
  unfold Nat.isValidChar at hv
  by_cases h1 : n < 0x80
  · have e1 : (Fin.ofNat n : Fin 256).val = n := by
      simp only [Fin.ofNat, Fin.val_mk]; omega
    simp only [utf8EncodeRune, if_pos h1, List.singleton_append, utf8DecodeRune, e1, if_pos h1]
  · by_cases h2 : n < 0x800
    · have e1 : (Fin.ofNat (0xC0 + n / 64) : Fin 256).val = 0xC0 + n / 64 := by
        simp only [Fin.ofNat, Fin.val_mk]; omega
      have e2 : (Fin.ofNat (0x80 + n % 64) : Fin 256).val = 0x80 + n % 64 := by
        simp only [Fin.ofNat, Fin.val_mk]; omega
      have c1 : ¬ 0xC0 + n / 64 < 0x80 := by omega
      have c2 : ¬ 0xC0 + n / 64 < 0xC2 := by omega
      have c3 : 0xC0 + n / 64 < 0xE0 := by omega
      have c4 : 0x80 ≤ 0x80 + n % 64 ∧ 0x80 + n % 64 ≤ 0xBF := by omega
      simp only [utf8EncodeRune, if_neg h1, if_pos h2, List.cons_append, List.nil_append,
        utf8DecodeRune, e1, e2, if_neg c1, if_neg c2, if_pos c3, if_pos c4, Option.some.injEq,
        Prod.mk.injEq, and_true]
      omega
    · by_cases h3 : n < 0x10000
      · have e1 : (Fin.ofNat (0xE0 + n / 4096) : Fin 256).val = 0xE0 + n / 4096 := by
          simp only [Fin.ofNat, Fin.val_mk]; omega
        have e2 : (Fin.ofNat (0x80 + n / 64 % 64) : Fin 256).val = 0x80 + n / 64 % 64 := by
          simp only [Fin.ofNat, Fin.val_mk]; omega
        have e3 : (Fin.ofNat (0x80 + n % 64) : Fin 256).val = 0x80 + n % 64 := by
          simp only [Fin.ofNat, Fin.val_mk]; omega
        have c1 : ¬ 0xE0 + n / 4096 < 0x80 := by omega
        have c2 : ¬ 0xE0 + n / 4096 < 0xC2 := by omega
        have c3 : ¬ 0xE0 + n / 4096 < 0xE0 := by omega
        have c4 : 0xE0 + n / 4096 < 0xF0 := by omega
        have hlo := utf8Lo_cases (0xE0 + n / 4096)
        have hhi := utf8Hi_cases (0xE0 + n / 4096)
        have c5 : utf8Lo (0xE0 + n / 4096) ≤ 0x80 + n / 64 % 64 ∧
            0x80 + n / 64 % 64 ≤ utf8Hi (0xE0 + n / 4096) ∧
            0x80 ≤ 0x80 + n % 64 ∧ 0x80 + n % 64 ≤ 0xBF := by omega
        simp only [utf8EncodeRune, if_neg h1, if_neg h2, if_pos h3, List.cons_append,
          List.nil_append, utf8DecodeRune, e1, e2, e3, if_neg c1, if_neg c2, if_neg c3,
          if_pos c4, if_pos c5, Option.some.injEq, Prod.mk.injEq, and_true]
        omega
      · have e1 : (Fin.ofNat (0xF0 + n / 262144) : Fin 256).val = 0xF0 + n / 262144 := by
          simp only [Fin.ofNat, Fin.val_mk]; omega
        have e2 : (Fin.ofNat (0x80 + n / 4096 % 64) : Fin 256).val = 0x80 + n / 4096 % 64 := by
          simp only [Fin.ofNat, Fin.val_mk]; omega
        have e3 : (Fin.ofNat (0x80 + n / 64 % 64) : Fin 256).val = 0x80 + n / 64 % 64 := by
          simp only [Fin.ofNat, Fin.val_mk]; omega
        have e4 : (Fin.ofNat (0x80 + n % 64) : Fin 256).val = 0x80 + n % 64 := by
          simp only [Fin.ofNat, Fin.val_mk]; omega
        have c1 : ¬ 0xF0 + n / 262144 < 0x80 := by omega
        have c2 : ¬ 0xF0 + n / 262144 < 0xC2 := by omega
        have c3 : ¬ 0xF0 + n / 262144 < 0xE0 := by omega
        have c4 : ¬ 0xF0 + n / 262144 < 0xF0 := by omega
        have c5 : 0xF0 + n / 262144 < 0xF5 := by omega
        have hlo := utf8Lo_cases (0xF0 + n / 262144)
        have hhi := utf8Hi_cases (0xF0 + n / 262144)
        have c6 : utf8Lo (0xF0 + n / 262144) ≤ 0x80 + n / 4096 % 64 ∧
            0x80 + n / 4096 % 64 ≤ utf8Hi (0xF0 + n / 262144) ∧
            0x80 ≤ 0x80 + n / 64 % 64 ∧ 0x80 + n / 64 % 64 ≤ 0xBF ∧
            0x80 ≤ 0x80 + n % 64 ∧ 0x80 + n % 64 ≤ 0xBF := by omega
        simp only [utf8EncodeRune, if_neg h1, if_neg h2, if_neg h3, List.cons_append,
          List.nil_append, utf8DecodeRune, e1, e2, e3, e4, if_neg c1, if_neg c2, if_neg c3,
          if_neg c4, if_pos c5, if_pos c6, Option.some.injEq, Prod.mk.injEq, and_true]
        omega

theorem utf8EncodeRune_ne_nil (n : Nat) : utf8EncodeRune n ≠ [] := by
  unfold utf8EncodeRune
  split
  · simp
  · split
    · simp
    · split <;> simp

theorem GoString.ofTextChars_textChars (fuel : Nat) (s : GoString)
    (hfuel : s.length ≤ fuel) (h : utf8ValidScan fuel s = true) :
    (GoString.textChars fuel s).flatMap (fun c => utf8EncodeRune c.toNat) = s := by
  induction fuel generalizing s with
  | zero =>
    cases s with
    | nil => rfl
    | cons b bs => simp at hfuel
  | succ fuel ih =>
    cases s with
    | nil => rfl
    | cons b bs =>
      cases hd : utf8DecodeRune (b :: bs) with
      | none => simp [utf8ValidScan, hd] at h
      | some p =>
        obtain ⟨n, rest⟩ := p
        obtain ⟨hvalid, heq, hlen⟩ := utf8DecodeRune_sound _ _ _ hd
        simp only [utf8ValidScan, hd] at h
        simp only [GoString.textChars, hd, List.flatMap_cons,
          toNat_ofNat_of_valid n hvalid]
        rw [ih rest (by simp only [List.length_cons] at hfuel hlen; omega) h]
        exact heq.symm

/-- A Go string that is well-formed UTF-8 is the Go string of its text. -/
theorem GoString.ofText_text (s : GoString) (h : utf8ValidString s = true) :
    GoString.ofText s.text = s :=
  GoString.ofTextChars_textChars s.length s (le_refl _) h

theorem GoString.textChars_ofChars (cs : List Char) (fuel : Nat)
    (hfuel : (cs.flatMap (fun c => utf8EncodeRune c.toNat)).length ≤ fuel) :
    GoString.textChars fuel (cs.flatMap (fun c => utf8EncodeRune c.toNat)) = cs ∧
      utf8ValidScan fuel (cs.flatMap (fun c => utf8EncodeRune c.toNat)) = true := by
  induction cs generalizing fuel with
  | nil => cases fuel <;> exact ⟨rfl, rfl⟩
  | cons c cs ih =>
    have hd := utf8DecodeRune_encode c (cs.flatMap (fun c => utf8EncodeRune c.toNat))
    have hne := utf8EncodeRune_ne_nil c.toNat
    simp only [List.flatMap_cons] at hfuel ⊢
    cases he : utf8EncodeRune c.toNat with
    | nil => exact absurd he hne
    | cons b bs =>
      rw [he] at hd hfuel
      cases fuel with
      | zero => simp at hfuel
      | succ fuel =>
        simp only [List.cons_append] at hd hfuel ⊢
        have hlen : (cs.flatMap (fun c => utf8EncodeRune c.toNat)).length ≤ fuel := by
          simp only [List.length_cons, List.length_append] at hfuel
          omega
        simp only [GoString.textChars, utf8ValidScan, hd, Char.ofNat_toNat, (ih fuel hlen).1,
          (ih fuel hlen).2, and_self]

/-- The text of the Go string of a text is that text. -/
theorem GoString.text_ofText (t : String) : (GoString.ofText t).text = t := by
  unfold GoString.text GoString.ofText
  rw [(GoString.textChars_ofChars t.data _ (le_refl _)).1]

/-- The Go string of a text is well-formed UTF-8. -/
theorem utf8ValidString_ofText (t : String) : utf8ValidString (GoString.ofText t) = true :=
  (GoString.textChars_ofChars t.data _ (le_refl _)).2

theorem GoString.lt_irrefl (a : GoString) : GoString.lt a a = false := by
  induction a with
  | nil => rfl
  | cons x xs ih => simp [GoString.lt, ih]

theorem GoString.lt_asymm (a b : GoString) (h : GoString.lt a b = true) :
    GoString.lt b a = false := by
  induction a generalizing b with
  | nil => cases b <;> simp [GoString.lt] at h ⊢
  | cons x xs ih =>
    cases b with
    | nil => simp [GoString.lt] at h
    | cons y ys =>
      unfold GoString.lt at h ⊢
      by_cases h1 : x.val < y.val
      · have h2 : ¬ y.val < x.val := by omega
        have h3 : ¬ y = x := by omega
        simp [h2, h3]
      · by_cases h2 : x = y
        · subst h2
          simp only [h1, if_false, if_true] at h ⊢
          exact ih _ h
        · simp [h1, h2] at h

theorem GoString.ne_of_lt (a b : GoString) (h : GoString.lt a b = true) : a ≠ b := by
  intro hab
  subst hab
  rw [GoString.lt_irrefl] at h
  cases h

/-! ## Selection rules: unknown discriminators (claim C2) -/

theorem unmarshalStagedExtra_unknown (rawExtra : Json) (baseExtra : stagedExtra)
    (hbase : unmarshalStruct stagedExtra.setField stagedExtra.zero rawExtra = .ok baseExtra)
    (hunknown : baseExtra.Type_ ∉ [BackupRecoveryPointExtraType, BackupVaultExtraType,
      EC2ImageExtraType, EC2SnapshotExtraType, KMSKeyExtraType,
      RDSDBClusterSnapshotExtraType, RDSDBSnapshotExtraType, RDSOptionGroupExtraType]) :
    unmarshalStagedExtra rawExtra = .ok StagedExtra.nil := by
  simp only [List.mem_cons, List.mem_singleton, List.not_mem_nil, or_false, not_or]
    at hunknown
  obtain ⟨h1, h2, h3, h4, h5, h6, h7, h8⟩ := hunknown
  simp only [unmarshalStagedExtra, hbase, if_neg h1, if_neg h2, if_neg h3, if_neg h4,
    if_neg h5, if_neg h6, if_neg h7, if_neg h8]

theorem unmarshalExtrasLoop_length (raws : List Json) (sr d : StagedResource)
    (h : unmarshalExtrasLoop raws sr = .ok d) :
    (Slice.elems d.Extras).length = (Slice.elems sr.Extras).length + raws.length := by
  induction raws generalizing sr with
  | nil =>
    simp only [unmarshalExtrasLoop, Except.ok.injEq] at h
    simp [h]
  | cons y ys ih =>
    unfold unmarshalExtrasLoop at h
    cases hy : unmarshalStagedExtra y with
    | error e => simp [hy] at h
    | ok extra =>
      simp only [hy] at h
      have := ih _ h
      simp only [Slice.elems, List.length_append, List.length_cons, List.length_nil] at this ⊢
      omega

/-- Claim C1, at the failing input: decoding a staged resource whose `extras`
array holds one element of unknown type and two of known types succeeds, but
the decoded `Extras` has three elements: a nil interface value stands where the
unknown element was, before the two known ones. -/
theorem C1_unknown_extra_kept_as_nil :
    (StagedResource.UnmarshalJSON StagedResource.zero stagedResourceJsonMixed).map
        (fun sr => sr.Extras)
      = .ok (some [StagedExtra.nil, .kmsKey ⟨⟨"kmsKey", "source"⟩, "arn:k"⟩,
          .ec2Snapshot ⟨⟨"ec2Snapshot", "target"⟩, "arn:s"⟩]) :=
  rfl

/-! ## Applications: round trip (claim C3) -/

theorem unmarshalString_marshal (cur s : GoString) (h : utf8ValidString s = true) :
    unmarshalString cur (marshalString s) = .ok s := by
  simp only [marshalString, unmarshalString, GoString.ofText_text s h]

theorem unmarshalStrings_marshal (ss : List GoString)
    (h : ∀ s ∈ ss, utf8ValidString s = true) :
    unmarshalStrings (ss.map marshalString) = .ok ss := by
  induction ss with
  | nil => rfl
  | cons s ss ih =>
    simp only [List.map_cons, unmarshalStrings,
      unmarshalString_marshal [] s (h s (List.mem_cons_self _ _)),
      ih (fun x hx => h x (List.mem_cons_of_mem _ hx))]

theorem unmarshalStringSlice_marshal (ss : Slice GoString) (h : validStrings ss) :
    unmarshalStringSlice (marshalStringSlice ss) = .ok ss := by
  cases ss with
  | none => rfl
  | some l =>
    simp only [marshalStringSlice, unmarshalStringSlice, unmarshalStrings_marshal l h]

theorem unmarshalInt_num (cur n : Int) (h : -(2 ^ 63 : Int) ≤ n ∧ n < (2 ^ 63 : Int)) :
    unmarshalInt cur (.num n) = .ok n :=
  if_pos h

theorem unmarshalRawSlice_marshal (xs : Slice Json) :
    unmarshalRawSlice (marshalRawSlice xs) = .ok xs := by
  cases xs <;> rfl

theorem unmarshalSelectionRule_arn (arns : Slice GoString) (h : validStrings arns) :
    unmarshalSelectionRule (selectionRuleJson (.arnRule (NewArnRule arns)))
      = .ret (.ok (.arnRule (NewArnRule arns))) := by
  simp +decide [unmarshalSelectionRule, selectionRuleJson, marshalSelectionRule, NewArnRule,
    unmarshalStruct, decodeFields, selectionRule.setField, ArnRule.setField, matchField,
    unmarshalString, marshalString, ArnRuleType, GoString.text_ofText,
    unmarshalStringSlice_marshal arns h, Except.map]

theorem unmarshalSelectionRule_tag (n v : GoString) (hn : utf8ValidString n = true)
    (hv : utf8ValidString v = true) :
    unmarshalSelectionRule (selectionRuleJson (.tagRule (NewTagRule n v)))
      = .ret (.ok (.tagRule (NewTagRule n v))) := by
  simp +decide [unmarshalSelectionRule, selectionRuleJson, marshalSelectionRule, NewTagRule,
    unmarshalStruct, decodeFields, selectionRule.setField, TagRule.setField, matchField,
    unmarshalString, marshalString, ArnRuleType, TagRuleType, GoString.text_ofText,
    GoString.ofText_text n hn, GoString.ofText_text v hv, Except.map]

theorem marshalSelectionRule_json (r : SelectionRule) (j : Json)
    (h : marshalSelectionRule r = .ok j) : selectionRuleJson r = j := by
  simp only [selectionRuleJson, h]

theorem marshalRulesLoop_eq (rs : List SelectionRule) (raw : List Json)
    (h : ∀ r ∈ rs, ∃ j, marshalSelectionRule r = .ok j) :
    marshalRulesLoop rs raw = .ok (raw ++ rs.map selectionRuleJson) := by
  induction rs generalizing raw with
  | nil => simp [marshalRulesLoop]
  | cons r rs ih =>
    obtain ⟨j, hj⟩ := h r (List.mem_cons_self _ _)
    simp only [marshalRulesLoop, hj, List.map_cons, marshalSelectionRule_json r j hj]
    rw [ih _ (fun x hx => h x (List.mem_cons_of_mem _ hx))]
    simp

theorem marshalRulesLoop_error (rs : List SelectionRule) (raw : List Json) (r : SelectionRule)
    (e : String) (hr : r ∈ rs) (he : marshalSelectionRule r = .error e) :
    ∃ e1, marshalRulesLoop rs raw = .error e1 := by
  induction rs generalizing raw with
  | nil => exact absurd hr (List.not_mem_nil r)
  | cons x xs ih =>
    cases hx : marshalSelectionRule x with
    | error e1 => exact ⟨e1, by simp only [marshalRulesLoop, hx]⟩
    | ok j =>
      simp only [marshalRulesLoop, hx]
      rcases List.mem_cons.mp hr with rfl | hmem
      · rw [hx] at he
        cases he
      · exact ih _ hmem

theorem builtRule_marshal_ok (r : SelectionRule) (h : r.Built) :
    ∃ j, marshalSelectionRule r = .ok j := by
  rcases h with ⟨arns, rfl⟩ | ⟨n, v, rfl⟩
  · exact ⟨_, rfl⟩
  · exact ⟨_, rfl⟩

theorem unmarshalRulesLoop_built (rs : List SelectionRule) (a : App) (l : List SelectionRule)
    (h : ∀ r ∈ rs, r.Built) (hv : ∀ r ∈ rs, r.ValidUTF8) :
    unmarshalRulesLoop (rs.map selectionRuleJson) { a with SelectionRules := some l }
      = .ret (.ok { a with SelectionRules := some (l ++ rs) }) := by
  induction rs generalizing l with
  | nil => simp [unmarshalRulesLoop]
  | cons r rs ih =>
    have hr := h r (List.mem_cons_self _ _)
    have hvr := hv r (List.mem_cons_self _ _)
    have ih2 := fun l => ih l (fun x hx => h x (List.mem_cons_of_mem _ hx))
      (fun x hx => hv x (List.mem_cons_of_mem _ hx))
    rcases hr with ⟨arns, rfl⟩ | ⟨n, v, rfl⟩
    · simp [unmarshalRulesLoop, unmarshalSelectionRule_arn arns hvr.2, ih2, Slice.elems]
    · simp [unmarshalRulesLoop, unmarshalSelectionRule_tag n v hvr.2.1 hvr.2.2, ih2,
        Slice.elems]

theorem App_MarshalJSON_eq (tc : TimeCodec) (a : App) (s : String)
    (hrules : ∀ r ∈ Slice.elems a.SelectionRules, ∃ j, marshalSelectionRule r = .ok j)
    (htime : tc.format a.CreatedAt = some s) :
    App.MarshalJSON tc a = .ok (.obj (appDTOMembers
      { a with RawSelectionRules := some ((Slice.elems a.SelectionRules).map selectionRuleJson) }
      (.str s))) := by
  obtain ⟨f1, f2, f3, f4, f5, f6, f7, f8, f9, f10, f11, f12, f13, f14⟩ := a
  simp only at htime
  cases f8 with
  | none => simp [App.MarshalJSON, Slice.elems, marshalAppDTO, marshalTime, htime]
  | some rs =>
    simp only [Slice.elems] at hrules
    simp [App.MarshalJSON, Slice.elems, marshalRulesLoop_eq rs [] hrules, marshalAppDTO,
      marshalTime, htime]

theorem App.setField_accountId (tc : TimeCodec) (a : App) (v : Json) :
    App.setField tc a "accountId" v = (unmarshalString a.AccountID v).map (fun x => { a with AccountID := x }) :=
  rfl

theorem App.setField_appId (tc : TimeCodec) (a : App) (v : Json) :
    App.setField tc a "appId" v = (unmarshalString a.AppID v).map (fun x => { a with AppID := x }) :=
  rfl

theorem App.setField_type (tc : TimeCodec) (a : App) (v : Json) :
    App.setField tc a "type" v = (unmarshalString a.AppType v).map (fun x => { a with AppType := x }) :=
  rfl

theorem App.setField_createdAt (tc : TimeCodec) (a : App) (v : Json) :
    App.setField tc a "createdAt" v = (unmarshalTime tc a.CreatedAt v).map (fun x => { a with CreatedAt := x }) :=
  rfl

theorem App.setField_name (tc : TimeCodec) (a : App) (v : Json) :
    App.setField tc a "name" v = (unmarshalString a.Name v).map (fun x => { a with Name := x }) :=
  rfl

theorem App.setField_notificationEmails (tc : TimeCodec) (a : App) (v : Json) :
    App.setField tc a "notificationEmails" v = (unmarshalStringSlice v).map (fun x => { a with NotificationEmails := x }) :=
  rfl

theorem App.setField_rpo (tc : TimeCodec) (a : App) (v : Json) :
    App.setField tc a "rpo" v = (unmarshalInt a.RPO v).map (fun x => { a with RPO := x }) :=
  rfl

theorem App.setField_sourceAwsAccountId (tc : TimeCodec) (a : App) (v : Json) :
    App.setField tc a "sourceAwsAccountId" v = (unmarshalString a.SourceAwsAccountID v).map (fun x => { a with SourceAwsAccountID := x }) :=
  rfl

theorem App.setField_sourceRegion (tc : TimeCodec) (a : App) (v : Json) :
    App.setField tc a "sourceRegion" v = (unmarshalString a.SourceRegion v).map (fun x => { a with SourceRegion := x }) :=
  rfl

theorem App.setField_syncPhase (tc : TimeCodec) (a : App) (v : Json) :
    App.setField tc a "syncPhase" v = (unmarshalString a.SyncPhase v).map (fun x => { a with SyncPhase := x }) :=
  rfl

theorem App.setField_targetAwsAccountId (tc : TimeCodec) (a : App) (v : Json) :
    App.setField tc a "targetAwsAccountId" v = (unmarshalString a.TargetAwsAccountID v).map (fun x => { a with TargetAwsAccountID := x }) :=
  rfl

theorem App.setField_targetRegion (tc : TimeCodec) (a : App) (v : Json) :
    App.setField tc a "targetRegion" v = (unmarshalString a.TargetRegion v).map (fun x => { a with TargetRegion := x }) :=
  rfl

theorem App.setField_selectionRules (tc : TimeCodec) (a : App) (v : Json) :
    App.setField tc a "selectionRules" v = (unmarshalRawSlice v).map (fun x => { a with RawSelectionRules := x }) :=
  rfl

theorem unmarshalAppDTO_marshal (tc : TimeCodec) (a : App) (s : String)
    (hrpo : -(2 ^ 63 : Int) ≤ a.RPO ∧ a.RPO < (2 ^ 63 : Int))
    (hparse : tc.parse s = some a.CreatedAt) (hvalid : a.ValidUTF8) :
    unmarshalStruct (App.setField tc) App.zero (.obj (appDTOMembers a (.str s)))
      = .ok { a with
          SelectionRules := none
          NotificationEmails :=
            if (Slice.elems a.NotificationEmails).length = 0 then none
            else a.NotificationEmails } := by
  obtain ⟨f1, f2, f3, f4, f5, f6, f7, f8, f9, f10, f11, f12, f13, f14⟩ := a
  obtain ⟨v1, v2, v3, v5, v6, v9, v10, v11, v12, v13, _⟩ := hvalid
  simp only at hrpo hparse v1 v2 v3 v5 v6 v9 v10 v11 v12 v13
  by_cases h2 : f2 = [] <;> by_cases h6 : (Slice.elems f6).length = 0 <;>
    by_cases h11 : f11 = [] <;>
  simp [appDTOMembers, unmarshalStruct, decodeFields,
    App.setField_accountId, App.setField_appId, App.setField_type,
    App.setField_createdAt, App.setField_name, App.setField_notificationEmails,
    App.setField_rpo, App.setField_sourceAwsAccountId, App.setField_sourceRegion,
    App.setField_syncPhase, App.setField_targetAwsAccountId, App.setField_targetRegion,
    App.setField_selectionRules,
    unmarshalString_marshal _ f1 v1, unmarshalString_marshal _ f2 v2,
    unmarshalString_marshal _ f3 v3, unmarshalString_marshal _ f5 v5,
    unmarshalString_marshal _ f9 v9, unmarshalString_marshal _ f10 v10,
    unmarshalString_marshal _ f11 v11, unmarshalString_marshal _ f12 v12,
    unmarshalString_marshal _ f13 v13,
    unmarshalInt_num _ _ hrpo, unmarshalTime, unmarshalRawSlice_marshal,
    App.zero, Except.map, unmarshalStringSlice_marshal f6 v6, h2, h6, h11, hparse]

/-- Claim C3 (amended): for every App whose rules are made by `NewArnRule` and
`NewTagRule`, whose strings are all well-formed UTF-8 (with `RPO` a Go `int`),
and whose `CreatedAt` is a time that `Time.MarshalJSON` accepts and that its
RFC 3339 text gives back, `App.MarshalJSON` succeeds and `App.UnmarshalJSON` of
its output into a fresh App succeeds; leaving `RawSelectionRules` aside, the
decoded App is the original one, except that a nil `SelectionRules` comes back
as the empty slice and an empty non-nil `NotificationEmails` comes back nil.
So when `SelectionRules` is not nil and `NotificationEmails` is nil or not
empty, the decoded App equals the original field for field. -/
theorem C3_app_round_trip (tc : TimeCodec) (a : App)
    (hrpo : -(2 ^ 63 : Int) ≤ a.RPO ∧ a.RPO < (2 ^ 63 : Int))
    (htime : tc.GivesBack a.CreatedAt)
    (hrules : ∀ r ∈ Slice.elems a.SelectionRules, r.Built)
    (hvalid : a.ValidUTF8) :
    ∃ j d, App.MarshalJSON tc a = .ok j ∧
      App.UnmarshalJSON tc App.zero j = .ret (.ok d) ∧
      d.clearRaw = a.afterRoundTrip.clearRaw ∧
      (a.SelectionRules ≠ none → a.NotificationEmails ≠ some [] →
        d.clearRaw = a.clearRaw) := by
  obtain ⟨s, hfmt, hparse⟩ := htime
  refine ⟨_, { a with
      SelectionRules := some (Slice.elems a.SelectionRules)
      NotificationEmails :=
        if (Slice.elems a.NotificationEmails).length = 0 then none else a.NotificationEmails
      RawSelectionRules := some ((Slice.elems a.SelectionRules).map selectionRuleJson) },
    App_MarshalJSON_eq tc a s (fun r hr => builtRule_marshal_ok r (hrules r hr)) hfmt,
    ?_, ?_, ?_⟩
  · unfold App.UnmarshalJSON
    rw [unmarshalAppDTO_marshal tc
      { a with RawSelectionRules := some ((Slice.elems a.SelectionRules).map selectionRuleJson) }
      s hrpo hparse hvalid]
    exact unmarshalRulesLoop_built (Slice.elems a.SelectionRules) _ [] hrules hvalid.2.2.2.2.2.2.2.2.2.2
  · simp [App.clearRaw, App.afterRoundTrip]
  · intro h1 h2
    obtain ⟨f1, f2, f3, f4, f5, f6, f7, f8, f9, f10, f11, f12, f13, f14⟩ := a
    cases f8 with
    | none => exact absurd rfl h1
    | some rs =>
      cases f6 with
      | none => simp [App.clearRaw, Slice.elems]
      | some es =>
        cases es with
        | nil => exact absurd rfl h2
        | cons e es => simp [App.clearRaw, Slice.elems]

/-- Claim C3, counterexample: the zero App, whose `SelectionRules` is nil, is
encoded and decoded without error, and the decoded `SelectionRules` is the
empty non-nil slice: the two Apps differ in that field.  And an App whose
`SelectionRules` is the empty slice and whose name is the byte `0xff`, which is
not well-formed UTF-8, is encoded and decoded without error, and the decoded
name is the three bytes of U+FFFD: the two Apps differ in their names. -/
theorem C3_counterexample :
    (∃ j d, App.MarshalJSON zeroTimeCodec App.zero = .ok j ∧
      App.UnmarshalJSON zeroTimeCodec App.zero j = .ret (.ok d) ∧
      d.SelectionRules = some [] ∧ App.zero.SelectionRules = none ∧
      d.clearRaw ≠ App.zero.clearRaw) ∧
    (∃ j d, App.MarshalJSON zeroTimeCodec appBadName = .ok j ∧
      App.UnmarshalJSON zeroTimeCodec App.zero j = .ret (.ok d) ∧
      d.Name = [0xef, 0xbf, 0xbd] ∧ appBadName.Name = [0xff] ∧
      d.clearRaw ≠ appBadName.clearRaw) :=
  ⟨⟨_, _, rfl, rfl, rfl, rfl, fun h => by
      have h2 := congrArg App.SelectionRules h
      simp [App.clearRaw, App.zero] at h2⟩,
   ⟨_, _, rfl, rfl, rfl, rfl, fun h => by
      have h2 := congrArg App.Name h
      revert h2
      decide⟩⟩

/-- Claim C3 (amended), witness: the App of `TestAppJSON`, with one ARN rule
followed by two tag rules, is decoded from its encoding field for field. -/
theorem C3_app_round_trip_witness :
    ∃ j d, App.MarshalJSON zeroTimeCodec testApp = .ok j ∧
      App.UnmarshalJSON zeroTimeCodec App.zero j = .ret (.ok d) ∧
      d.clearRaw = testApp.clearRaw := by
  obtain ⟨j, d, h1, h2, _, h4⟩ := C3_app_round_trip zeroTimeCodec testApp
    (by decide) ⟨"0001-01-01T00:00:00Z", rfl, rfl⟩ (by
      intro r hr
      simp only [testApp, Slice.elems, List.mem_cons, List.mem_singleton, List.not_mem_nil,
        or_false] at hr
      rcases hr with rfl | rfl | rfl
      · exact Or.inl ⟨_, rfl⟩
      · exact Or.inr ⟨_, _, rfl⟩
      · exact Or.inr ⟨_, _, rfl⟩)
    (by
      refine ⟨by decide, by decide, by decide, by decide, by unfold validStrings; decide,
        by decide, by decide, by decide, by decide, by decide, ?_⟩
      intro r hr
      simp only [testApp, Slice.elems, List.mem_cons, List.mem_singleton, List.not_mem_nil,
        or_false] at hr
      rcases hr with rfl | rfl | rfl
      · exact ⟨by decide, by unfold validStrings; decide⟩
      · exact ⟨by decide, by decide, by decide⟩
      · exact ⟨by decide, by decide, by decide⟩)
  exact ⟨j, d, h1, h2, h4 (by simp [testApp]) (by simp [testApp])⟩

/-! ## Staged resources: round trip (claim C4) -/

theorem mapInsert_append (k v : GoString) (m : List (GoString × GoString))
    (h : ∀ kv ∈ m, GoString.lt kv.1 k = true) : mapInsert k v m = m ++ [(k, v)] := by
  induction m with
  | nil => rfl
  | cons kv m ih =>
    obtain ⟨k1, v1⟩ := kv
    have h1 : GoString.lt k1 k = true := h (k1, v1) (List.mem_cons_self _ _)
    have h2 : ¬ GoString.lt k k1 = true := by
      rw [GoString.lt_asymm k1 k h1]
      exact Bool.false_ne_true
    have h3 : ¬ k = k1 := fun hk => GoString.ne_of_lt k1 k h1 hk.symm
    simp only [mapInsert, if_neg h2, if_neg h3, List.cons_append, List.cons.injEq, true_and]
    exact ih (fun x hx => h x (List.mem_cons_of_mem _ hx))

theorem unmarshalEntries_sorted (acc rest : List (GoString × GoString))
    (h : ((acc ++ rest).map Prod.fst).Pairwise (fun k1 k2 => GoString.lt k1 k2 = true))
    (hv : ∀ kv ∈ rest, utf8ValidString kv.1 = true ∧ utf8ValidString kv.2 = true) :
    unmarshalEntries acc (rest.map (fun kv => (GoString.text kv.1, marshalString kv.2)))
      = .ok (acc ++ rest) := by
  induction rest generalizing acc with
  | nil => simp [unmarshalEntries]
  | cons kv rest ih =>
    obtain ⟨k, v⟩ := kv
    have hk : ∀ x ∈ acc, GoString.lt x.1 k = true := by
      intro x hx
      rw [List.map_append, List.pairwise_append] at h
      exact h.2.2 x.1 (List.mem_map_of_mem _ hx) k (by simp)
    obtain ⟨hvk, hvv⟩ := hv (k, v) (List.mem_cons_self _ _)
    simp only at hvk hvv
    simp only [List.map_cons, unmarshalEntries, unmarshalString_marshal [] v hvv,
      GoString.ofText_text k hvk, mapInsert_append k v acc hk]
    rw [ih (acc ++ [(k, v)]) (by simpa using h)
      (fun x hx => hv x (List.mem_cons_of_mem _ hx))]
    simp

theorem unmarshalStrMap_marshal (m : StrMap) (h : m.Valid) (hv : m.ValidUTF8) :
    unmarshalStrMap none (marshalStrMap m) = .ok m := by
  cases m with
  | none => rfl
  | some l =>
    simp only [marshalStrMap, unmarshalStrMap, Slice.elems]
    rw [unmarshalEntries_sorted [] l (by simpa [StrMap.Valid] using h) hv]
    simp

theorem unmarshalStagedExtra_known (e : StagedExtra) (h : e.Known) (hv : e.ValidUTF8) :
    unmarshalStagedExtra (stagedExtraJson e) = .ok e := by
  cases e with
  | nil => exact absurd h id
  | baseExtra e => exact absurd h id
  | other m => exact absurd h id
  | backupRecoveryPoint e =>
    obtain ⟨⟨t, env⟩, f1, f2, f3⟩ := e
    obtain ⟨h1, h2⟩ := h
    obtain ⟨v0, v1, v2, v3⟩ := hv
    simp only at h1 h2 v0 v1 v2 v3
    subst h1
    simp +decide [unmarshalStagedExtra, stagedExtraJson, marshalStagedExtra, marshalStagedBase,
      unmarshalStruct, decodeFields, stagedExtra.setField, BackupRecoveryPointExtra.setField,
      matchField, unmarshalString, marshalString, stagedExtra.zero, Except.map,
      BackupRecoveryPointExtraType, GoString.text_ofText, GoString.ofText_text env v0,
      GoString.ofText_text f1 v1, GoString.ofText_text f2 v2,
      unmarshalStrMap_marshal f3 h2 v3]
  | backupVault e =>
    obtain ⟨⟨t, env⟩, f1⟩ := e
    obtain ⟨v0, v1⟩ := hv
    simp only [StagedExtra.Known] at h
    simp only at v0 v1
    subst h
    simp +decide [unmarshalStagedExtra, stagedExtraJson, marshalStagedExtra, marshalStagedBase,
      unmarshalStruct, decodeFields, stagedExtra.setField, BackupVaultExtra.setField,
      matchField, unmarshalString, marshalString, stagedExtra.zero, Except.map,
      BackupRecoveryPointExtraType, BackupVaultExtraType, GoString.text_ofText,
      GoString.ofText_text env v0, GoString.ofText_text f1 v1]
  | ec2Image e =>
    obtain ⟨⟨t, env⟩, f1, f2⟩ := e
    obtain ⟨v0, v1, v2⟩ := hv
    simp only [StagedExtra.Known] at h
    simp only at v0 v1 v2
    subst h
    simp +decide [unmarshalStagedExtra, stagedExtraJson, marshalStagedExtra, marshalStagedBase,
      unmarshalStruct, decodeFields, stagedExtra.setField, EC2ImageExtra.setField,
      matchField, unmarshalString, marshalString, stagedExtra.zero, Except.map,
      BackupRecoveryPointExtraType, BackupVaultExtraType, EC2ImageExtraType,
      GoString.text_ofText, GoString.ofText_text env v0, GoString.ofText_text f1 v1,
      unmarshalStringSlice_marshal f2 v2]
  | ec2Snapshot e =>
    obtain ⟨⟨t, env⟩, f1⟩ := e
    obtain ⟨v0, v1⟩ := hv
    simp only [StagedExtra.Known] at h
    simp only at v0 v1
    subst h
    simp +decide [unmarshalStagedExtra, stagedExtraJson, marshalStagedExtra, marshalStagedBase,
      unmarshalStruct, decodeFields, stagedExtra.setField, EC2SnapshotExtra.setField,
      matchField, unmarshalString, marshalString, stagedExtra.zero, Except.map,
      BackupRecoveryPointExtraType, BackupVaultExtraType, EC2ImageExtraType,
      EC2SnapshotExtraType, GoString.text_ofText, GoString.ofText_text env v0,
      GoString.ofText_text f1 v1]
  | kmsKey e =>
    obtain ⟨⟨t, env⟩, f1⟩ := e
    obtain ⟨v0, v1⟩ := hv
    simp only [StagedExtra.Known] at h
    simp only at v0 v1
    subst h
    simp +decide [unmarshalStagedExtra, stagedExtraJson, marshalStagedExtra, marshalStagedBase,
      unmarshalStruct, decodeFields, stagedExtra.setField, KMSKeyExtra.setField,
      matchField, unmarshalString, marshalString, stagedExtra.zero, Except.map,
      BackupRecoveryPointExtraType, BackupVaultExtraType, EC2ImageExtraType,
      EC2SnapshotExtraType, KMSKeyExtraType, GoString.text_ofText,
      GoString.ofText_text env v0, GoString.ofText_text f1 v1]
  | rdsDbClusterSnapshot e =>
    obtain ⟨⟨t, env⟩, f1⟩ := e
    obtain ⟨v0, v1⟩ := hv
    simp only [StagedExtra.Known] at h
    simp only at v0 v1
    subst h
    simp +decide [unmarshalStagedExtra, stagedExtraJson, marshalStagedExtra, marshalStagedBase,
      unmarshalStruct, decodeFields, stagedExtra.setField,
      RDSDBClusterSnapshotExtra.setField, matchField, unmarshalString, marshalString,
      stagedExtra.zero, Except.map, BackupRecoveryPointExtraType, BackupVaultExtraType,
      EC2ImageExtraType, EC2SnapshotExtraType, KMSKeyExtraType,
      RDSDBClusterSnapshotExtraType, GoString.text_ofText, GoString.ofText_text env v0,
      GoString.ofText_text f1 v1]
  | rdsDbSnapshot e =>
    obtain ⟨⟨t, env⟩, f1⟩ := e
    obtain ⟨v0, v1⟩ := hv
    simp only [StagedExtra.Known] at h
    simp only at v0 v1
    subst h
    simp +decide [unmarshalStagedExtra, stagedExtraJson, marshalStagedExtra, marshalStagedBase,
      unmarshalStruct, decodeFields, stagedExtra.setField, RDSDBSnapshotExtra.setField,
      matchField, unmarshalString, marshalString, stagedExtra.zero, Except.map,
      BackupRecoveryPointExtraType, BackupVaultExtraType, EC2ImageExtraType,
      EC2SnapshotExtraType, KMSKeyExtraType, RDSDBClusterSnapshotExtraType,
      RDSDBSnapshotExtraType, GoString.text_ofText, GoString.ofText_text env v0,
      GoString.ofText_text f1 v1]
  | rdsOptionGroup e =>
    obtain ⟨⟨t, env⟩, f1⟩ := e
    obtain ⟨v0, v1⟩ := hv
    simp only [StagedExtra.Known] at h
    simp only at v0 v1
    subst h
    simp +decide [unmarshalStagedExtra, stagedExtraJson, marshalStagedExtra, marshalStagedBase,
      unmarshalStruct, decodeFields, stagedExtra.setField, RDSOptionGroupExtra.setField,
      matchField, unmarshalString, marshalString, stagedExtra.zero, Except.map,
      BackupRecoveryPointExtraType, BackupVaultExtraType, EC2ImageExtraType,
      EC2SnapshotExtraType, KMSKeyExtraType, RDSDBClusterSnapshotExtraType,
      RDSDBSnapshotExtraType, RDSOptionGroupExtraType, GoString.text_ofText,
      GoString.ofText_text env v0, GoString.ofText_text f1 v1]

theorem marshalStagedExtra_json (e : StagedExtra) (j : Json)
    (h : marshalStagedExtra e = .ok j) : stagedExtraJson e = j := by
  simp only [stagedExtraJson, h]

theorem knownExtra_marshal_ok (e : StagedExtra) (h : e.Known) :
    ∃ j, marshalStagedExtra e = .ok j := by
  cases e with
  | nil => exact absurd h id
  | baseExtra e => exact absurd h id
  | other m => exact absurd h id
  | _ => exact ⟨_, rfl⟩

theorem marshalExtrasLoop_eq (es : List StagedExtra) (raw : List Json)
    (h : ∀ e ∈ es, ∃ j, marshalStagedExtra e = .ok j) :
    marshalExtrasLoop es raw = .ok (raw ++ es.map stagedExtraJson) := by
  induction es generalizing raw with
  | nil => simp [marshalExtrasLoop]
  | cons e es ih =>
    obtain ⟨j, hj⟩ := h e (List.mem_cons_self _ _)
    simp only [marshalExtrasLoop, hj, List.map_cons, marshalStagedExtra_json e j hj]
    rw [ih _ (fun x hx => h x (List.mem_cons_of_mem _ hx))]
    simp

theorem unmarshalExtrasLoop_known (es : List StagedExtra) (sr : StagedResource)
    (l : List StagedExtra) (h : ∀ e ∈ es, e.Known) (hv : ∀ e ∈ es, e.ValidUTF8) :
    unmarshalExtrasLoop (es.map stagedExtraJson) { sr with Extras := some l }
      = .ok { sr with Extras := some (l ++ es) } := by
  induction es generalizing l with
  | nil => simp [unmarshalExtrasLoop]
  | cons e es ih =>
    have he := h e (List.mem_cons_self _ _)
    have hve := hv e (List.mem_cons_self _ _)
    have ih2 := fun l => ih l (fun x hx => h x (List.mem_cons_of_mem _ hx))
      (fun x hx => hv x (List.mem_cons_of_mem _ hx))
    simp [unmarshalExtrasLoop, unmarshalStagedExtra_known e he hve, ih2, Slice.elems]

theorem StagedResource_MarshalJSON_eq (sr : StagedResource)
    (h : ∀ e ∈ Slice.elems sr.Extras, ∃ j, marshalStagedExtra e = .ok j) :
    StagedResource.MarshalJSON sr = .ok (marshalStagedResourceDTO
      { sr with RawExtras := some ((Slice.elems sr.Extras).map stagedExtraJson) }) := by
  obtain ⟨f1, f2, f3, f4, f5⟩ := sr
  cases f4 with
  | none => simp [StagedResource.MarshalJSON, Slice.elems]
  | some es =>
    simp only [Slice.elems] at h
    simp [StagedResource.MarshalJSON, Slice.elems, marshalExtrasLoop_eq es [] h]

theorem unmarshalStagedResourceDTO_marshal (sr : StagedResource) (h : sr.Tags.Valid)
    (hv : sr.ValidUTF8) :
    unmarshalStruct StagedResource.setField StagedResource.zero (marshalStagedResourceDTO sr)
      = .ok { sr with Extras := none } := by
  obtain ⟨f1, f2, f3, f4, f5⟩ := sr
  obtain ⟨v1, v3, v2, _⟩ := hv
  simp only at h v1 v2 v3
  simp +decide [marshalStagedResourceDTO, unmarshalStruct, decodeFields,
    StagedResource.setField, matchField, unmarshalString_marshal _ f1 v1,
    unmarshalString_marshal _ f3 v3, StagedResource.zero, Except.map,
    unmarshalStrMap_marshal f2 h v2, unmarshalRawSlice_marshal]

/-- Claim C4 (amended): for every staged resource whose extras are values of
the eight known variants, each with the type discriminator of its variant, and
whose strings are all well-formed UTF-8, `StagedResource.MarshalJSON` succeeds
and `StagedResource.UnmarshalJSON` of its output into a fresh staged resource
succeeds; leaving `RawExtras` aside, the decoded value has the same arn, tags,
type and extras (same variants, fields and order), except that a nil `Extras`
comes back as the empty slice.  So when `Extras` is not nil the decoded value
equals the original field for field. -/
theorem C4_staged_resource_round_trip (sr : StagedResource) (htags : sr.Tags.Valid)
    (hextras : ∀ e ∈ Slice.elems sr.Extras, e.Known) (hvalid : sr.ValidUTF8) :
    ∃ j d, StagedResource.MarshalJSON sr = .ok j ∧
      StagedResource.UnmarshalJSON StagedResource.zero j = .ok d ∧
      d.clearRaw = sr.afterRoundTrip.clearRaw ∧
      (sr.Extras ≠ none → d.clearRaw = sr.clearRaw) := by
  refine ⟨_, { sr with
      Extras := some (Slice.elems sr.Extras)
      RawExtras := some ((Slice.elems sr.Extras).map stagedExtraJson) },
    StagedResource_MarshalJSON_eq sr
      (fun e he => knownExtra_marshal_ok e (hextras e he)), ?_, ?_, ?_⟩
  · unfold StagedResource.UnmarshalJSON
    rw [unmarshalStagedResourceDTO_marshal
      { sr with RawExtras := some ((Slice.elems sr.Extras).map stagedExtraJson) } htags hvalid]
    exact unmarshalExtrasLoop_known (Slice.elems sr.Extras) _ [] hextras hvalid.2.2.2
  · simp [StagedResource.clearRaw, StagedResource.afterRoundTrip]
  · intro h1
    obtain ⟨f1, f2, f3, f4, f5⟩ := sr
    cases f4 with
    | none => exact absurd rfl h1
    | some es => simp [StagedResource.clearRaw, Slice.elems]

/-- Claim C4, counterexample: the zero staged resource, whose `Extras` is nil,
is encoded and decoded without error, and the decoded `Extras` is the empty
non-nil slice: the two values differ in that field.  And a staged resource
whose `Extras` is the empty slice and whose arn is the byte `0xff`, which is
not well-formed UTF-8, is encoded and decoded without error, and the decoded
arn is the three bytes of U+FFFD: the two values differ in their arns. -/
theorem C4_counterexample :
    (∃ j d, StagedResource.MarshalJSON StagedResource.zero = .ok j ∧
      StagedResource.UnmarshalJSON StagedResource.zero j = .ok d ∧
      d.Extras = some [] ∧ StagedResource.zero.Extras = none ∧
      d.clearRaw ≠ StagedResource.zero.clearRaw) ∧
    (∃ j d, StagedResource.MarshalJSON stagedResourceBadArn = .ok j ∧
      StagedResource.UnmarshalJSON StagedResource.zero j = .ok d ∧
      d.ARN = [0xef, 0xbf, 0xbd] ∧ stagedResourceBadArn.ARN = [0xff] ∧
      d.clearRaw ≠ stagedResourceBadArn.clearRaw) :=
  ⟨⟨_, _, rfl, rfl, rfl, rfl, fun h => by
      have h2 := congrArg StagedResource.Extras h
      simp [StagedResource.clearRaw, StagedResource.zero] at h2⟩,
   ⟨_, _, rfl, rfl, rfl, rfl, fun h => by
      have h2 := congrArg StagedResource.ARN h
      revert h2
      decide⟩⟩

/-- Claim C4 (amended), witness: a staged resource with one extra of each of the
eight known variants is decoded from its encoding field for field. -/
theorem C4_staged_resource_round_trip_witness :
    ∃ j d, StagedResource.MarshalJSON testStagedResource = .ok j ∧
      StagedResource.UnmarshalJSON StagedResource.zero j = .ok d ∧
      d.clearRaw = testStagedResource.clearRaw := by
  obtain ⟨j, d, h1, h2, _, h4⟩ := C4_staged_resource_round_trip testStagedResource
    (by simp +decide [testStagedResource, StrMap.Valid]) (by
      intro e he
      simp only [testStagedResource, Slice.elems, List.mem_cons, List.mem_singleton,
        List.not_mem_nil, or_false] at he
      rcases he with rfl | rfl | rfl | rfl | rfl | rfl | rfl | rfl
      · exact ⟨rfl, by simp +decide [StrMap.Valid]⟩
      all_goals exact rfl)
    (by
      refine ⟨by decide, by decide, by unfold StrMap.ValidUTF8; decide, ?_⟩
      intro e he
      simp only [testStagedResource, Slice.elems, List.mem_cons, List.mem_singleton,
        List.not_mem_nil, or_false] at he
      rcases he with rfl | rfl | rfl | rfl | rfl | rfl | rfl | rfl
      · exact ⟨by decide, by decide, by decide, by unfold StrMap.ValidUTF8; decide⟩
      · exact ⟨by decide, by decide⟩
      · exact ⟨by decide, by decide, by unfold validStrings; decide⟩
      all_goals exact ⟨by decide, by decide⟩)
  exact ⟨j, d, h1, h2, h4 (by simp [testStagedResource])⟩

/-! ## Applications: the encoded selection rules (claim C5) -/

theorem marshalRulesLoop_ok (rs : List SelectionRule) (raw out : List Json)
    (h : marshalRulesLoop rs raw = .ok out) :
    ∃ rules, out = raw ++ rules ∧
      List.Forall₂ (fun r x => marshalSelectionRule r = .ok x) rs rules := by
  induction rs generalizing raw with
  | nil =>
    simp only [marshalRulesLoop, Except.ok.injEq] at h
    exact ⟨[], by simp [h], List.Forall₂.nil⟩
  | cons r rs ih =>
    cases hr : marshalSelectionRule r with
    | error e => simp [marshalRulesLoop, hr] at h
    | ok x =>
      simp only [marshalRulesLoop, hr] at h
      obtain ⟨rules, hout, hall⟩ := ih _ h
      exact ⟨x :: rules, by simp [hout], List.Forall₂.cons hr hall⟩

theorem forall2_left_exists {α β : Type} (R : α → β → Prop) (l1 : List α) (l2 : List β)
    (h : List.Forall₂ R l1 l2) : ∀ r ∈ l1, ∃ x, R r x := by
  induction h with
  | nil => intro r hr; exact absurd hr (List.not_mem_nil r)
  | cons hab _ ih =>
    intro r hr
    rcases List.mem_cons.mp hr with rfl | hmem
    · exact ⟨_, hab⟩
    · exact ih r hmem

theorem marshalAppDTO_ok (tc : TimeCodec) (a : App) (j : Json)
    (h : marshalAppDTO tc a = .ok j) :
    ∃ s, tc.format a.CreatedAt = some s ∧ j = .obj (appDTOMembers a (.str s)) := by
  unfold marshalAppDTO marshalTime at h
  cases hf : tc.format a.CreatedAt with
  | none => simp [hf] at h
  | some s =>
    simp only [hf, Except.ok.injEq] at h
    exact ⟨s, rfl, h.symm⟩

theorem appDTOMembers_front (a : App) (createdAt : Json) :
    ∃ front, appDTOMembers a createdAt
        = front ++ [("selectionRules", marshalRawSlice a.RawSelectionRules)] ∧
      ∀ kv ∈ front, kv.1 ≠ "selectionRules" := by
  obtain ⟨f1, f2, f3, f4, f5, f6, f7, f8, f9, f10, f11, f12, f13, f14⟩ := a
  refine ⟨[("accountId", marshalString f1)] ++
      (if f2 = [] then [] else [("appId", marshalString f2)]) ++
      [("type", marshalString f3), ("createdAt", createdAt), ("name", marshalString f5)] ++
      (if (Slice.elems f6).length = 0 then []
       else [("notificationEmails", marshalStringSlice f6)]) ++
      [("rpo", .num f7), ("sourceAwsAccountId", marshalString f9),
       ("sourceRegion", marshalString f10)] ++
      (if f11 = [] then [] else [("syncPhase", marshalString f11)]) ++
      [("targetAwsAccountId", marshalString f12), ("targetRegion", marshalString f13)],
    ?_, ?_⟩
  · simp [appDTOMembers]
  · intro kv hkv heq
    have hmem := List.mem_map_of_mem Prod.fst hkv
    rw [heq] at hmem
    by_cases h2 : f2 = [] <;> by_cases h6 : (Slice.elems f6).length = 0 <;>
      by_cases h11 : f11 = [] <;>
    simp +decide [h2, h6, h11] at hmem

theorem App.MarshalJSON_raw (tc : TimeCodec) (a : App) (raw : Slice Json) :
    App.MarshalJSON tc { a with RawSelectionRules := raw } = App.MarshalJSON tc a := by
  obtain ⟨f1, f2, f3, f4, f5, f6, f7, f8, f9, f10, f11, f12, f13, f14⟩ := a
  rfl

/-- Claim C5 (amended): for every App, whatever `RawSelectionRules` held before
the call: when `App.MarshalJSON` returns an output, the output is a JSON object
whose last member is `selectionRules` and whose other members have other keys,
and the value of that member is an array with one element for each selection
rule, in their order, each being what `json.Marshal` returns for the rule (the
empty array when `SelectionRules` is nil or empty, never `null`).
`App.MarshalJSON` returns an output exactly when `json.Marshal` returns one
for every selection rule and `Time.MarshalJSON` accepts `CreatedAt`; otherwise
it returns an error and no output.  The result does not depend on what
`RawSelectionRules` held. -/
theorem C5_selection_rules_always_array (tc : TimeCodec) (a : App) :
    (∀ j, App.MarshalJSON tc a = .ok j →
      ∃ front rules, j = .obj (front ++ [("selectionRules", .arr rules)]) ∧
        (∀ kv ∈ front, kv.1 ≠ "selectionRules") ∧
        List.Forall₂ (fun r x => marshalSelectionRule r = .ok x)
          (Slice.elems a.SelectionRules) rules ∧
        rules.length = (Slice.elems a.SelectionRules).length ∧
        (a.SelectionRules = none ∨ a.SelectionRules = some [] → rules = [])) ∧
    ((∃ j, App.MarshalJSON tc a = .ok j) ↔
      (∀ r ∈ Slice.elems a.SelectionRules, ∃ x, marshalSelectionRule r = .ok x) ∧
        ∃ s, tc.format a.CreatedAt = some s) ∧
    (∀ raw, App.MarshalJSON tc { a with RawSelectionRules := raw }
      = App.MarshalJSON tc a) := by
  have key : ∀ j, App.MarshalJSON tc a = .ok j →
      ∃ rules s, List.Forall₂ (fun r x => marshalSelectionRule r = .ok x)
          (Slice.elems a.SelectionRules) rules ∧
        tc.format a.CreatedAt = some s ∧
        j = .obj (appDTOMembers { a with RawSelectionRules := some rules } (.str s)) := by
    intro j hj
    unfold App.MarshalJSON at hj
    simp only at hj
    cases hrs : a.SelectionRules with
    | none =>
      simp only [hrs] at hj
      obtain ⟨s, hs, hjs⟩ := marshalAppDTO_ok tc _ j hj
      exact ⟨[], s, by simp [Slice.elems], hs, hjs⟩
    | some rs =>
      simp only [hrs] at hj
      cases hloop : marshalRulesLoop rs (Slice.elems (some [])) with
      | error e => simp [hloop] at hj
      | ok out =>
        simp only [hloop] at hj
        obtain ⟨rules, hout, hall⟩ := marshalRulesLoop_ok rs _ out hloop
        obtain ⟨s, hs, hjs⟩ := marshalAppDTO_ok tc _ j hj
        simp only [Slice.elems, List.nil_append] at hout
        rw [hout] at hjs
        exact ⟨rules, s, by simpa [Slice.elems] using hall, hs, hjs⟩
  refine ⟨?_, ⟨?_, ?_⟩, fun raw => App.MarshalJSON_raw tc a raw⟩
  · intro j hj
    obtain ⟨rules, s, hall, _, hjs⟩ := key j hj
    obtain ⟨front, hfront, hkeys⟩ :=
      appDTOMembers_front { a with RawSelectionRules := some rules } (.str s)
    refine ⟨front, rules, ?_, hkeys, hall, hall.length_eq.symm, ?_⟩
    · rw [hjs, hfront]
      rfl
    · intro hnil
      have hlen := hall.length_eq
      rcases hnil with h | h <;> rw [h] at hlen <;>
        exact List.length_eq_zero.mp hlen.symm
  · rintro ⟨j, hj⟩
    obtain ⟨rules, s, hall, hs, _⟩ := key j hj
    refine ⟨?_, s, hs⟩
    intro r hr
    exact forall2_left_exists _ _ _ hall r hr
  · rintro ⟨hrules, s, hs⟩
    exact ⟨_, App_MarshalJSON_eq tc a s hrules hs⟩

/-- Claim C5, counterexample: for an App whose `CreatedAt` is in the year -1,
and for an App with a selection rule for which `json.Marshal` returns an error,
`App.MarshalJSON` returns an error: there is no output, and so no
`selectionRules` member. -/
theorem C5_counterexample :
    (∃ e, App.MarshalJSON zeroTimeCodec appBeforeYearZero = .error e) ∧
    (∃ e, App.MarshalJSON zeroTimeCodec appFailingRule = .error e) :=
  ⟨⟨_, rfl⟩, ⟨_, rfl⟩⟩

/-- Claim C5 (amended), witness: the zero App, whose `SelectionRules` is nil, is
encoded with the member `selectionRules` holding the empty array. -/
theorem C5_selection_rules_always_array_witness :
    ∃ j front, App.MarshalJSON zeroTimeCodec App.zero = .ok j ∧
      j = .obj (front ++ [("selectionRules", .arr [])]) := by
  obtain ⟨front, rules, h1, _, _, _, h5⟩ :=
    (C5_selection_rules_always_array zeroTimeCodec App.zero).1 _ rfl
  rw [h5 (Or.inl rfl)] at h1
  exact ⟨_, front, rfl, h1⟩

/-! ## Find an app by name (claim C6) -/

theorem GetAppByName.scan_some (gt : GoText) (name : GoString) (l : List App) (i : Nat)
    (p : Ptr App) :
    GetAppByName.scan gt name l i (some p)
      = if l.countP (fun a => decide (a.Name = name)) = 0 then (some p, none)
        else (none, some (ambiguousNameError gt name)) := by
  induction l generalizing i with
  | nil => simp [GetAppByName.scan]
  | cons a l ih =>
    by_cases h : a.Name = name
    · simp [GetAppByName.scan, h, List.countP_cons, ambiguousNameError]
    · simp [GetAppByName.scan, h, List.countP_cons, ih]

theorem GetAppByName.scan_none (gt : GoText) (name : GoString) (l : List App) (i : Nat) :
    (l.countP (fun a => decide (a.Name = name)) = 0 →
      GetAppByName.scan gt name l i none = (none, none)) ∧
    (l.countP (fun a => decide (a.Name = name)) = 1 →
      ∃ j a, l[j]? = some a ∧ a.Name = name ∧
        GetAppByName.scan gt name l i none = (some { index := i + j, val := a }, none)) ∧
    (2 ≤ l.countP (fun a => decide (a.Name = name)) →
      GetAppByName.scan gt name l i none = (none, some (ambiguousNameError gt name))) := by
  induction l generalizing i with
  | nil => simp [GetAppByName.scan]
  | cons a l ih =>
    obtain ⟨ih0, ih1, ih2⟩ := ih (i + 1)
    by_cases h : a.Name = name
    · simp only [GetAppByName.scan, h, if_true, Option.isSome_none, Bool.false_eq_true,
        if_false, List.countP_cons, decide_True, GetAppByName.scan_some]
      refine ⟨by omega, ?_, ?_⟩
      · intro hc
        have hc0 : l.countP (fun a => decide (a.Name = name)) = 0 := by omega
        exact ⟨0, a, by simp, h, by simp [hc0]⟩
      · intro hc
        have hc0 : l.countP (fun a => decide (a.Name = name)) ≠ 0 := by omega
        simp [hc0]
    · simp only [GetAppByName.scan, h, if_false, List.countP_cons, decide_False,
        Bool.false_eq_true, Nat.add_zero]
      refine ⟨ih0, ?_, ih2⟩
      intro hc
      obtain ⟨j, b, hj, hb, hs⟩ := ih1 hc
      exact ⟨j + 1, b, by simpa using hj, hb, by rw [hs, Nat.add_assoc, Nat.add_comm 1 j]⟩

/-- Claim C6: for every list of apps that `ListApps` returned without error and
every name, with `k` the number of apps whose `Name` is exactly the name:
`k = 0` gives a nil app and a nil error, `k = 1` gives a pointer to the element
of the list that has the name and a nil error, and `k ≥ 2` gives a nil app and
an error whose text quotes the name. -/
theorem C6_get_app_by_name (gt : GoText) (apps : Slice App) (name : GoString) :
    (nameCount apps name = 0 → GetAppByName gt (apps, none) name = (none, none)) ∧
    (nameCount apps name = 1 →
      ∃ i a, (Slice.elems apps)[i]? = some a ∧ a.Name = name ∧
        GetAppByName gt (apps, none) name = (some { index := i, val := a }, none)) ∧
    (2 ≤ nameCount apps name →
      GetAppByName gt (apps, none) name = (none, some (ambiguousNameError gt name))) := by
  obtain ⟨h0, h1, h2⟩ := GetAppByName.scan_none gt name (Slice.elems apps) 0
  refine ⟨h0, ?_, h2⟩
  intro hc
  obtain ⟨j, a, hj, ha, hs⟩ := h1 hc
  exact ⟨j, a, hj, ha, by simpa using hs⟩

/-- Claim C6, witness: with apps named `x`, `y`, `x`, the name `x` gives the
ambiguous name error, the name `z` gives nil without error, and the name `y`
gives the second app. -/
theorem C6_get_app_by_name_witness :
    GetAppByName plainText (appsXYX, none) "x"
      = (none, some ("more than one Arpio app exists with the name \"x\"; " ++
          "use the Arpio web interface to rename the unrelated apps, then retry")) ∧
    GetAppByName plainText (appsXYX, none) "z" = (none, none) ∧
    ∃ i a, (Slice.elems appsXYX)[i]? = some a ∧ a.Name = ("y" : GoString) ∧
      GetAppByName plainText (appsXYX, none) "y" = (some { index := i, val := a }, none) :=
  ⟨(C6_get_app_by_name plainText appsXYX "x").2.2 (by decide),
   (C6_get_app_by_name plainText appsXYX "z").1 (by decide),
   (C6_get_app_by_name plainText appsXYX "y").2.1 (by decide)⟩

/-! ## Find the latest recovery point (claim C7) -/

theorem FindLatestRecoveryPoint.scan_spec (l pre : List RecoveryPoint) (k : Nat)
    (c : RecoveryPoint) (hk : pre[k]? = some c)
    (hmax : ∀ x ∈ pre, x.Timestamp.nanos ≤ c.Timestamp.nanos)
    (hfirst : ∀ j x, j < k → pre[j]? = some x → x.Timestamp.nanos < c.Timestamp.nanos) :
    ∃ i r, FindLatestRecoveryPoint.scan l pre.length (some { index := k, val := c })
        = some { index := i, val := r } ∧
      (pre ++ l)[i]? = some r ∧
      (∀ x ∈ pre ++ l, x.Timestamp.nanos ≤ r.Timestamp.nanos) ∧
      (∀ j x, j < i → (pre ++ l)[j]? = some x → x.Timestamp.nanos < r.Timestamp.nanos) := by
  induction l generalizing pre k c with
  | nil =>
    refine ⟨k, c, rfl, by simpa using hk, by simpa using hmax, ?_⟩
    simpa using hfirst
  | cons y l ih =>
    have hklt : k < pre.length := by
      by_contra hge
      rw [List.getElem?_eq_none (by omega)] at hk
      cases hk
    have hlen : (pre ++ [y]).length = pre.length + 1 := by simp
    have happ : pre ++ [y] ++ l = pre ++ y :: l := by simp
    by_cases hafter : c.Timestamp.nanos < y.Timestamp.nanos
    · have h := ih (pre ++ [y]) pre.length y (by simp)
        (by
          intro x hx
          rcases List.mem_append.mp hx with hx | hx
          · exact le_of_lt (lt_of_le_of_lt (hmax x hx) hafter)
          · rw [List.mem_singleton] at hx; subst hx; exact le_refl _)
        (by
          intro j x hj hx
          rw [List.getElem?_append_left hj] at hx
          exact lt_of_le_of_lt (hmax x (List.getElem?_mem hx)) hafter)
      rw [hlen, happ] at h
      simpa [FindLatestRecoveryPoint.scan, Time.After, hafter] using h
    · have h := ih (pre ++ [y]) k c
        (by rw [List.getElem?_append_left hklt]; exact hk)
        (by
          intro x hx
          rcases List.mem_append.mp hx with hx | hx
          · exact hmax x hx
          · rw [List.mem_singleton] at hx; subst hx; exact not_lt.mp hafter)
        (by
          intro j x hj hx
          rw [List.getElem?_append_left (by omega)] at hx
          exact hfirst j x hj hx)
      rw [hlen, happ] at h
      simpa [FindLatestRecoveryPoint.scan, Time.After, hafter] using h

/-- Claim C7: for every list of recovery points that `ListRecoveryPoints`
returned without error, `FindLatestRecoveryPoint` returns nil and a nil error
when the list is empty, and otherwise a pointer to the element at an index `i`
such that no element of the list has a timestamp after that of element `i`,
while every element at a smaller index has some element after it: the result
has the maximum timestamp and is the first such element in list order. -/
theorem C7_find_latest_recovery_point (rps : Slice RecoveryPoint) :
    (Slice.elems rps = [] → FindLatestRecoveryPoint (rps, none) = (none, none)) ∧
    (Slice.elems rps ≠ [] →
      ∃ i r, FindLatestRecoveryPoint (rps, none) = (some { index := i, val := r }, none) ∧
        (Slice.elems rps)[i]? = some r ∧
        (∀ x ∈ Slice.elems rps, x.Timestamp.After r.Timestamp = false) ∧
        (∀ j x, j < i → (Slice.elems rps)[j]? = some x →
          ∃ y ∈ Slice.elems rps, y.Timestamp.After x.Timestamp = true)) := by
  constructor
  · intro h
    simp [FindLatestRecoveryPoint, h, FindLatestRecoveryPoint.scan]
  · intro h
    cases hl : Slice.elems rps with
    | nil => exact absurd hl h
    | cons r0 l =>
      obtain ⟨i, r, hs, hi, hmax, hfirst⟩ :=
        FindLatestRecoveryPoint.scan_spec l [r0] 0 r0 rfl (by simp) (by simp)
      refine ⟨i, r, ?_, hi, ?_, ?_⟩
      · simp only [FindLatestRecoveryPoint, hl, FindLatestRecoveryPoint.scan]
        simpa using hs
      · intro x hx
        simpa [Time.After] using hmax x hx
      · intro j x hj hx
        exact ⟨r, List.getElem?_mem hi, by simpa [Time.After] using hfirst j x hj hx⟩

/-- Claim C7, witness: recovery points with the timestamps 1, 3, 2 in list
order yield the second element, the one with the timestamp 3. -/
theorem C7_find_latest_recovery_point_witness :
    ∃ i r, FindLatestRecoveryPoint (rps132, none) = (some { index := i, val := r }, none) ∧
      (Slice.elems rps132)[i]? = some r ∧
      FindLatestRecoveryPoint (rps132, none) = (some { index := 1, val := rpAt "p3" 3 }, none) := by
  obtain ⟨i, r, h1, h2, _, _⟩ := (C7_find_latest_recovery_point rps132).2 (by decide)
  exact ⟨i, r, h1, h2, rfl⟩

/-! ## The transport and the operations on one resource (claims C8 and C9) -/

theorem doApiRequest_error_status (ex : Exchange) (h : ex.status ≥ 400) :
    ∃ e, ∀ (α : Type) (t : Option α) (u : α → Json → Run (Except String α)),
      doApiRequest ex t u = .ret (ex.status, some e, t) := by
  cases ex with
  | failed err => simp [Exchange.status] at h
  | unread status err => exact ⟨err, fun _ _ _ => rfl⟩
  | response status body =>
    simp only [Exchange.status] at h
    refine ⟨Errorf0 (apiErrorMessage body), fun α t u => ?_⟩
    simp only [doApiRequest, if_pos h, Exchange.status]

/-- Claim C8: whenever the transport reports the status 404, with an error or
without, `GetApp` and `GetRecoveryPoint` return a nil entity and a nil error
and `DeleteApp` returns a nil error; and for every exchange whose status is at
least 400 and not 404, the transport (`doApiRequest`) returns an error that is
not nil, leaves the response target as it was, and `GetApp`,
`GetRecoveryPoint` and `DeleteApp` return that error (with a nil entity). -/
theorem C8_not_found_and_error_status (tc : TimeCodec) :
    (∀ apiGet err a, apiGet (some App.zero) = .ret (StatusNotFound, err, a) →
      GetApp apiGet = .ret (none, none)) ∧
    (∀ apiGet err r, apiGet (some RecoveryPoint.zero) = .ret (StatusNotFound, err, r) →
      GetRecoveryPoint apiGet = .ret (none, none)) ∧
    (∀ apiDelete err u, apiDelete none = .ret (StatusNotFound, err, u) →
      DeleteApp apiDelete = .ret none) ∧
    (∀ ex : Exchange, ex.status ≥ 400 → ex.status ≠ StatusNotFound →
      ∃ e,
        (∀ (α : Type) (t : Option α) (u : α → Json → Run (Except String α)),
          doApiRequest ex t u = .ret (ex.status, some e, t)) ∧
        GetApp (fun t => apiGet ex t (App.UnmarshalJSON tc)) = .ret (none, some e) ∧
        GetRecoveryPoint (fun t => apiGet ex t (RecoveryPoint.unmarshal tc))
          = .ret (none, some e) ∧
        DeleteApp (fun t => apiDelete ex t (fun u _ => Run.ret (.ok u))) = .ret (some e)) := by
  refine ⟨?_, ?_, ?_, ?_⟩
  · intro apiGet err a h
    simp [GetApp, h]
  · intro apiGet err r h
    simp [GetRecoveryPoint, h]
  · intro apiDelete err u h
    simp [DeleteApp, h]
  · intro ex h400 h404
    obtain ⟨e, hall⟩ := doApiRequest_error_status ex h400
    refine ⟨e, hall, ?_, ?_, ?_⟩
    · simp [GetApp, apiGet, hall, h404]
    · simp [GetRecoveryPoint, apiGet, hall, h404]
    · simp [DeleteApp, apiDelete, hall, h404]

/-- Claim C8, witness: a response with status 404 makes the three operations
return nil results, and a response with status 500 makes them return the
error of the transport. -/
theorem C8_not_found_and_error_status_witness :
    GetApp (fun t => apiGet notFoundResponse t (App.UnmarshalJSON zeroTimeCodec))
      = .ret (none, none) ∧
    DeleteApp (fun t => apiDelete notFoundResponse t (fun u _ => Run.ret (.ok u)))
      = .ret none ∧
    ∃ e, GetApp (fun t => apiGet plainErrorResponse t (App.UnmarshalJSON zeroTimeCodec))
      = .ret (none, some e) :=
  ⟨(C8_not_found_and_error_status zeroTimeCodec).1 _ _ _ rfl,
   (C8_not_found_and_error_status zeroTimeCodec).2.2.1 _ _ _ rfl,
   ((C8_not_found_and_error_status zeroTimeCodec).2.2.2 plainErrorResponse
      (by decide) (by decide)).imp (fun _ h => h.2.1)⟩

theorem fmtSkipFlags_length (cs : List Char) : (fmtSkipFlags cs).length ≤ cs.length := by
  induction cs with
  | nil => simp [fmtSkipFlags]
  | cons c cs ih =>
    unfold fmtSkipFlags
    split
    · exact Nat.le_succ_of_le ih
    · exact le_refl _

theorem fmtParsenum_length (cs : List Char) (num : Nat) (isnum b : Bool) (rest : List Char)
    (h : fmtParsenum cs num isnum = some (b, rest)) : rest.length ≤ cs.length := by
  induction cs generalizing num isnum with
  | nil =>
    simp only [fmtParsenum, Option.some.injEq, Prod.mk.injEq] at h
    rw [← h.2]
  | cons c cs ih =>
    unfold fmtParsenum at h
    split at h
    · split at h
      · cases h
      · exact Nat.le_succ_of_le (ih _ _ h)
    · simp only [Option.some.injEq, Prod.mk.injEq] at h
      rw [← h.2]

theorem fmtSplitBracket_length (cs inside after : List Char)
    (h : fmtSplitBracket cs = some (inside, after)) : after.length < cs.length := by
  induction cs generalizing inside with
  | nil => simp [fmtSplitBracket] at h
  | cons c cs ih =>
    unfold fmtSplitBracket at h
    split at h
    · simp only [Option.some.injEq, Prod.mk.injEq] at h
      rw [← h.2]
      exact Nat.lt_succ_self _
    · cases hs : fmtSplitBracket cs with
      | none => simp [hs] at h
      | some p =>
        obtain ⟨i2, a2⟩ := p
        simp only [hs, Option.some.injEq, Prod.mk.injEq] at h
        obtain ⟨_, rfl⟩ := h
        exact Nat.lt_succ_of_lt (ih i2 hs)

theorem fmtArgNumber_length (cs : List Char) (good : Bool) :
    (fmtArgNumber cs good).1.length ≤ cs.length := by
  unfold fmtArgNumber
  split
  · rename_i rest
    split
    · exact Nat.le_succ _
    · cases hs : fmtSplitBracket rest with
      | none => exact Nat.le_succ _
      | some p =>
        obtain ⟨inside, after⟩ := p
        have hlt := fmtSplitBracket_length rest inside after hs
        simp only
        split <;> exact Nat.le_succ_of_le (le_of_lt hlt)
  · exact le_refl _

theorem fmtWidth_length (cs : List Char) (afterIndex good : Bool) :
    (fmtWidth cs afterIndex good).2.1.length ≤ cs.length := by
  unfold fmtWidth
  split
  · exact Nat.le_succ _
  · cases hp : fmtParsenum cs 0 false with
    | none => simp
    | some p =>
      obtain ⟨b, rest⟩ := p
      exact fmtParsenum_length cs 0 false b rest hp

theorem fmtPrecision_length (cs : List Char) (afterIndex good : Bool) :
    (fmtPrecision cs afterIndex good).2.1.length ≤ cs.length := by
  unfold fmtPrecision
  split
  · rename_i c rest1
    have ha := fmtArgNumber_length (c :: rest1) (good && !afterIndex)
    simp only
    split
    · rename_i r2 hr
      rw [hr] at ha
      exact Nat.le_succ_of_le (le_trans (Nat.le_succ _) ha)
    · cases hp : fmtParsenum (fmtArgNumber (c :: rest1) (good && !afterIndex)).1 0 false with
      | none => simp
      | some p =>
        obtain ⟨b, r2⟩ := p
        exact Nat.le_succ_of_le (le_trans (fmtParsenum_length _ 0 false b r2 hp) ha)
  · exact le_refl _

theorem fmtVerb_length (cs out rest : List Char) (h : fmtVerb cs = (out, some rest)) :
    rest.length < cs.length := by
  have h1 := fmtSkipFlags_length cs
  have h2 := fmtArgNumber_length (fmtSkipFlags cs) true
  have h3 := fmtWidth_length (fmtArgNumber (fmtSkipFlags cs) true).1
    (fmtArgNumber (fmtSkipFlags cs) true).2.1 (fmtArgNumber (fmtSkipFlags cs) true).2.2
  unfold fmtVerb at h
  simp only at h
  generalize fmtWidth (fmtArgNumber (fmtSkipFlags cs) true).1
    (fmtArgNumber (fmtSkipFlags cs) true).2.1 (fmtArgNumber (fmtSkipFlags cs) true).2.2 = w
    at h h3
  have h4 := fmtPrecision_length w.2.1 w.2.2.1 w.2.2.2
  generalize fmtPrecision w.2.1 w.2.2.1 w.2.2.2 = p at h h4
  have h5 := fmtArgNumber_length p.2.1 p.2.2.2
  have hn : (if p.2.2.1 = true then (p.2.1, p.2.2.2)
      else ((fmtArgNumber p.2.1 p.2.2.2).1, (fmtArgNumber p.2.1 p.2.2.2).2.2)).1.length
      ≤ cs.length := by
    split
    · exact le_trans h4 (le_trans h3 (le_trans h2 h1))
    · exact le_trans h5 (le_trans h4 (le_trans h3 (le_trans h2 h1)))
  generalize (if p.2.2.1 = true then (p.2.1, p.2.2.2)
      else ((fmtArgNumber p.2.1 p.2.2.2).1, (fmtArgNumber p.2.1 p.2.2.2).2.2)) = n at h hn
  obtain ⟨n1, n2⟩ := n
  cases n1 with
  | nil => simp at h
  | cons verb r =>
    simp only at h hn
    have hr : rest = r := by
      split at h
      · simp only [Prod.mk.injEq, Option.some.injEq] at h
        exact h.2.symm
      · split at h <;>
        · simp only [Prod.mk.injEq, Option.some.injEq] at h
          exact h.2.symm
    rw [hr]
    exact hn

theorem fmtDoPrintf_fuel (n : Nat) (cs : List Char) (fuel1 fuel2 : Nat)
    (hn : cs.length < n) (h1 : cs.length < fuel1) (h2 : cs.length < fuel2) :
    fmtDoPrintf fuel1 cs = fmtDoPrintf fuel2 cs := by
  induction n generalizing cs fuel1 fuel2 with
  | zero => exact absurd hn (Nat.not_lt_zero _)
  | succ n ih =>
    cases fuel1 with
    | zero => exact absurd h1 (Nat.not_lt_zero _)
    | succ f1 =>
      cases fuel2 with
      | zero => exact absurd h2 (Nat.not_lt_zero _)
      | succ f2 =>
        cases cs with
        | nil => rfl
        | cons c cs =>
          simp only [List.length_cons, Nat.succ_lt_succ_iff] at hn h1 h2
          unfold fmtDoPrintf
          split
          · cases hv : fmtVerb cs with
            | mk out r =>
              cases r with
              | none => rfl
              | some rest =>
                have hlt := fmtVerb_length cs out rest hv
                simp only
                rw [ih rest f1 f2 (by omega) (by omega) (by omega)]
          · rw [ih cs f1 f2 hn h1 h2]

theorem fmtDoPrintf_no_percent (cs : List Char) (fuel : Nat) (h : '%' ∉ cs)
    (hf : cs.length < fuel) : fmtDoPrintf fuel cs = cs := by
  induction cs generalizing fuel with
  | nil => cases fuel <;> simp [fmtDoPrintf] at hf ⊢
  | cons c cs ih =>
    cases fuel with
    | zero => simp at hf
    | succ fuel =>
      have hc : c ≠ '%' := fun hc => h (hc ▸ List.mem_cons_self _ _)
      have hcs : '%' ∉ cs := fun hcs => h (List.mem_cons_of_mem _ hcs)
      simp only [fmtDoPrintf, if_neg hc, List.cons.injEq, true_and]
      exact ih fuel hcs (by simpa using hf)

theorem Errorf0_no_percent (format : String) (h : '%' ∉ format.data) :
    Errorf0 format = format := by
  have hlen : format.data.length < format.length + 1 := Nat.lt_succ_self format.data.length
  unfold Errorf0
  rw [fmtDoPrintf_no_percent format.data _ h hlen]

theorem doApiRequest_message_without_percent {α : Type} (status : Int) (body : Body)
    (j : Json) (r : ErrorResponse) (t : Option α)
    (u : α → Json → Run (Except String α)) (h400 : status ≥ 400)
    (hjson : body.json = some j)
    (hshape : unmarshalStruct ErrorResponse.setField
      { Message := [], AuthenticateURL := [] } j = .ok r)
    (hplain : '%' ∉ (GoString.text r.Message).data) :
    doApiRequest (.response status body) t u
      = .ret (status, some (GoString.text r.Message), t) := by
  simp only [doApiRequest, if_pos h400, apiErrorMessage, unmarshalBody, hjson, hshape,
    Errorf0_no_percent _ hplain]

/-- Claim C9, at the failing input: for a response with status 500 whose body
decodes as the standard error shape with the message `disk usage is at 100%`,
`doApiRequest` returns an error whose text is not the message: the message is
used as a format string, and its percent sign is replaced by a report of a
missing verb. -/
theorem C9_message_used_as_format :
    doApiRequest percentErrorResponse (none : Option Unit) (fun u _ => Run.ret (.ok u))
      = .ret (500, some "disk usage is at 100%!(NOVERB)", none) :=
  rfl

/-! ## The poll loops with a timeout of zero (claim C10) -/

theorem pollLoop_zero_timeout {α : Type} (clock : List Event → Time)
    (lookup : List Event → Option α × Option String) (period : Int) (timeoutAt : Time)
    (fuel : Nat) (hist : List Event) :
    pollLoop clock lookup period 0 timeoutAt (fuel + 1) none none hist
      = some (if (lookup hist).2.isSome then LoopEnd.returned (lookup hist).1 (lookup hist).2
          else LoopEnd.left (lookup hist).1 (lookup hist).2, hist ++ [Event.lookup]) := by
  simp only [pollLoop, if_true]
  by_cases h : (lookup hist).2.isSome = true
  · simp [h]
  · simp [h]

theorem one_lookup_no_sleep (t : Time) :
    List.count Event.lookup [Event.now t, Event.lookup] = 1 ∧
      ∀ d, Event.sleep d ∉ [Event.now t, Event.lookup] := by
  constructor
  · simp [List.count_cons]
  · intro d hd
    simp at hd

/-- Claim C10: with a timeout of exactly zero, `MustGetAppByName` and
`MustFindLatestRecoveryPoint` end within one round whatever the clock reads and
whatever the listing request returns, and the history of the call is one
reading of the clock (for the deadline) followed by one call of the lookup:
the lookup is invoked exactly once and there is no sleep. -/
theorem C10_zero_timeout_one_lookup (gt : GoText) (fuel : Nat) :
    (∀ (env : PollEnv (Slice App × Option String)) (name : GoString),
      ∃ r hist, MustGetAppByName gt env name 0 (fuel + 1) = some (r, hist) ∧
        hist = [Event.now (env.clock []), Event.lookup] ∧
        hist.count Event.lookup = 1 ∧ ∀ d, Event.sleep d ∉ hist) ∧
    (∀ (env : PollEnv (Slice RecoveryPoint × Option String))
        (timestampMin timestampMax : Option Time),
      ∃ r hist, MustFindLatestRecoveryPoint gt env timestampMin timestampMax 0 (fuel + 1)
          = some (r, hist) ∧
        hist = [Event.now (env.clock []), Event.lookup] ∧
        hist.count Event.lookup = 1 ∧ ∀ d, Event.sleep d ∉ hist) := by
  constructor
  · intro env name
    have key : ∃ r, MustGetAppByName gt env name 0 (fuel + 1)
        = some (r, [Event.now (env.clock []), Event.lookup]) := by
      rcases hl : GetAppByName gt (env.list [Event.now (env.clock [])]) name
        with ⟨_ | p, _ | e⟩
      · exact ⟨(none, some ("there is no Arpio application named " ++ gt.quote name)),
          by simp [MustGetAppByName, pollLoop_zero_timeout, hl]⟩
      · exact ⟨(none, some e), by simp [MustGetAppByName, pollLoop_zero_timeout, hl]⟩
      · exact ⟨(some p, none), by simp [MustGetAppByName, pollLoop_zero_timeout, hl]⟩
      · exact ⟨(some p, some e), by simp [MustGetAppByName, pollLoop_zero_timeout, hl]⟩
    obtain ⟨r, hr⟩ := key
    exact ⟨r, _, hr, rfl, (one_lookup_no_sleep _).1, (one_lookup_no_sleep _).2⟩
  · intro env timestampMin timestampMax
    have key : ∃ r, MustFindLatestRecoveryPoint gt env timestampMin timestampMax 0 (fuel + 1)
        = some (r, [Event.now (env.clock []), Event.lookup]) := by
      rcases hl : FindLatestRecoveryPoint (env.list [Event.now (env.clock [])])
        with ⟨_ | p, _ | e⟩
      · exact ⟨(none, some (noRecoveryPointError gt timestampMin timestampMax)),
          by simp [MustFindLatestRecoveryPoint, pollLoop_zero_timeout, hl]⟩
      · exact ⟨(none, some e), by simp [MustFindLatestRecoveryPoint, pollLoop_zero_timeout, hl]⟩
      · exact ⟨(some p, none), by simp [MustFindLatestRecoveryPoint, pollLoop_zero_timeout, hl]⟩
      · exact ⟨(some p, some e),
          by simp [MustFindLatestRecoveryPoint, pollLoop_zero_timeout, hl]⟩
    obtain ⟨r, hr⟩ := key
    exact ⟨r, _, hr, rfl, (one_lookup_no_sleep _).1, (one_lookup_no_sleep _).2⟩

/-! ## The runs of the poll loops (claims C11 to C15) -/

theorem pollLoop_round {α : Type} (clock : List Event → Time)
    (lookup : List Event → Option α × Option String) (period timeout : Int)
    (timeoutAt : Time) (fuel : Nat) (res : Option α) (err : Option String)
    (hist : List Event) (hto : timeout ≠ 0) :
    pollLoop clock lookup period timeout timeoutAt (fuel + 1) res err hist
      = if (clock hist).Before timeoutAt = true then
          if (lookup (hist ++ [Event.now (clock hist)])).2.isSome = true then
            some (LoopEnd.returned (lookup (hist ++ [Event.now (clock hist)])).1
              (lookup (hist ++ [Event.now (clock hist)])).2,
              hist ++ [Event.now (clock hist), Event.lookup])
          else if (lookup (hist ++ [Event.now (clock hist)])).1.isSome = true then
            some (LoopEnd.left (lookup (hist ++ [Event.now (clock hist)])).1
              (lookup (hist ++ [Event.now (clock hist)])).2,
              hist ++ [Event.now (clock hist), Event.lookup])
          else pollLoop clock lookup period timeout timeoutAt fuel
            (lookup (hist ++ [Event.now (clock hist)])).1
            (lookup (hist ++ [Event.now (clock hist)])).2
            (hist ++ [Event.now (clock hist), Event.lookup, Event.sleep period])
        else some (LoopEnd.left res err, hist ++ [Event.now (clock hist)]) := by
  simp [pollLoop, hto]

theorem pollLoop_sound {α : Type} (clock : List Event → Time)
    (lookup : List Event → Option α × Option String) (period timeout : Int)
    (timeoutAt : Time) (fuel : Nat) (hist : List Event) (e : LoopEnd α) (hist2 : List Event)
    (h : pollLoop clock lookup period timeout timeoutAt fuel none none hist = some (e, hist2)) :
    ∃ suffix, hist2 = hist ++ suffix ∧
      PollRun clock lookup period timeout timeoutAt hist e suffix := by
  induction fuel generalizing hist with
  | zero => simp [pollLoop] at h
  | succ fuel ih =>
    by_cases hto : timeout = 0
    · subst hto
      rw [pollLoop_zero_timeout] at h
      simp only [Option.some.injEq, Prod.mk.injEq] at h
      obtain ⟨h1, h2⟩ := h
      subst h1 h2
      exact ⟨[Event.lookup], rfl, PollRun.once hist rfl⟩
    · rw [pollLoop_round _ _ _ _ _ _ _ _ _ hto] at h
      by_cases hc : (clock hist).Before timeoutAt = true
      · rw [if_pos hc] at h
        by_cases herr : (lookup (hist ++ [Event.now (clock hist)])).2.isSome = true
        · rw [if_pos herr] at h
          simp only [Option.some.injEq, Prod.mk.injEq] at h
          obtain ⟨h1, h2⟩ := h
          subst h1 h2
          exact ⟨_, rfl, PollRun.failed hist hto hc herr⟩
        · rw [if_neg herr] at h
          have hnoerr : (lookup (hist ++ [Event.now (clock hist)])).2 = none := by
            simpa using herr
          by_cases hres : (lookup (hist ++ [Event.now (clock hist)])).1.isSome = true
          · rw [if_pos hres] at h
            simp only [Option.some.injEq, Prod.mk.injEq] at h
            obtain ⟨h1, h2⟩ := h
            subst h1 h2
            rw [hnoerr]
            exact ⟨_, rfl, PollRun.found hist hto hc hnoerr hres⟩
          · rw [if_neg hres] at h
            have hnores : (lookup (hist ++ [Event.now (clock hist)])).1 = none := by
              simpa using hres
            rw [hnoerr, hnores] at h
            obtain ⟨suffix, hs, hrun⟩ := ih _ h
            refine ⟨[Event.now (clock hist), Event.lookup, Event.sleep period] ++ suffix,
              by rw [hs, List.append_assoc], ?_⟩
            exact PollRun.retried hist e suffix hto hc
              (Prod.ext hnores hnoerr) hrun
      · rw [if_neg hc] at h
        simp only [Option.some.injEq, Prod.mk.injEq] at h
        obtain ⟨h1, h2⟩ := h
        subst h1 h2
        exact ⟨_, rfl, PollRun.expired hist hto (by simpa using hc)⟩

theorem pollLoop_complete {α : Type} (clock : List Event → Time)
    (lookup : List Event → Option α × Option String) (period timeout : Int)
    (timeoutAt : Time) (hist : List Event) (e : LoopEnd α) (suffix : List Event)
    (h : PollRun clock lookup period timeout timeoutAt hist e suffix) :
    ∃ n, ∀ fuel, n < fuel →
      pollLoop clock lookup period timeout timeoutAt fuel none none hist
        = some (e, hist ++ suffix) := by
  induction h with
  | once hist hzero =>
    refine ⟨0, fun fuel hf => ?_⟩
    obtain ⟨f, rfl⟩ := Nat.exists_eq_succ_of_ne_zero (Nat.ne_of_gt hf)
    subst hzero
    rw [pollLoop_zero_timeout]
  | expired hist hto hclock =>
    refine ⟨0, fun fuel hf => ?_⟩
    obtain ⟨f, rfl⟩ := Nat.exists_eq_succ_of_ne_zero (Nat.ne_of_gt hf)
    rw [pollLoop_round _ _ _ _ _ _ _ _ _ hto]
    simp [hclock]
  | failed hist hto hclock herr =>
    refine ⟨0, fun fuel hf => ?_⟩
    obtain ⟨f, rfl⟩ := Nat.exists_eq_succ_of_ne_zero (Nat.ne_of_gt hf)
    rw [pollLoop_round _ _ _ _ _ _ _ _ _ hto]
    simp [hclock, herr]
  | found hist hto hclock hnoerr hres =>
    refine ⟨0, fun fuel hf => ?_⟩
    obtain ⟨f, rfl⟩ := Nat.exists_eq_succ_of_ne_zero (Nat.ne_of_gt hf)
    rw [pollLoop_round _ _ _ _ _ _ _ _ _ hto]
    simp [hclock, hnoerr, hres]
  | retried hist e suffix hto hclock hnothing hrest ih =>
    obtain ⟨n, hn⟩ := ih
    refine ⟨n + 1, fun fuel hf => ?_⟩
    obtain ⟨f, rfl⟩ := Nat.exists_eq_succ_of_ne_zero (Nat.ne_of_gt (Nat.lt_of_le_of_lt (Nat.zero_le _) hf))
    rw [pollLoop_round _ _ _ _ _ _ _ _ _ hto]
    simp only [hclock, hnothing, if_true, Option.isSome_none, Bool.false_eq_true, if_false]
    rw [hn f (by omega), List.append_assoc]

theorem PollRun.head {α : Type} {clock : List Event → Time}
    {lookup : List Event → Option α × Option String} {period timeout : Int}
    {timeoutAt : Time} {hist : List Event} {e : LoopEnd α} {suffix : List Event}
    (h : PollRun clock lookup period timeout timeoutAt hist e suffix) (hto : timeout ≠ 0) :
    ∃ rest, suffix = Event.now (clock hist) :: rest ∧
      ((clock hist).Before timeoutAt = false → rest = []) ∧
      ((clock hist).Before timeoutAt = true → ∃ rest2, rest = Event.lookup :: rest2) := by
  cases h with
  | once _ hzero => exact absurd hzero hto
  | expired _ _ hclock => exact ⟨[], rfl, fun _ => rfl, fun hc => by rw [hclock] at hc; cases hc⟩
  | failed _ _ hclock _ =>
    exact ⟨[Event.lookup], rfl, fun hc => (by rw [hclock] at hc; cases hc), fun _ => ⟨[], rfl⟩⟩
  | found _ _ hclock _ _ =>
    exact ⟨[Event.lookup], rfl, fun hc => (by rw [hclock] at hc; cases hc), fun _ => ⟨[], rfl⟩⟩
  | retried _ _ s _ hclock _ _ =>
    exact ⟨Event.lookup :: Event.sleep period :: s, rfl,
      fun hc => (by rw [hclock] at hc; cases hc), fun _ => ⟨_, rfl⟩⟩

theorem PollRun.error_is_last {α : Type} {clock : List Event → Time}
    {lookup : List Event → Option α × Option String} {period timeout : Int}
    {timeoutAt : Time} {hist : List Event} {e : LoopEnd α} {suffix : List Event}
    (h : PollRun clock lookup period timeout timeoutAt hist e suffix)
    (p post : List Event) (hs : suffix = p ++ Event.lookup :: post)
    (herr : (lookup (hist ++ p)).2.isSome = true) :
    post = [] ∧ e = LoopEnd.returned (lookup (hist ++ p)).1 (lookup (hist ++ p)).2 := by
  induction h generalizing p with
  | once hist hzero =>
    rcases p with _ | ⟨a, p⟩
    · simp only [List.nil_append, List.cons.injEq, true_and] at hs
      simp only [List.append_nil] at herr
      simp [← hs, herr]
    · simp at hs
  | expired hist hto hclock =>
    rcases p with _ | ⟨a, p⟩ <;> simp at hs
  | failed hist hto hclock herr2 =>
    rcases p with _ | ⟨a, _ | ⟨b, p⟩⟩
    · simp at hs
    · simp only [List.cons_append, List.nil_append, List.cons.injEq] at hs
      obtain ⟨ha, _, hpost⟩ := hs
      subst ha
      exact ⟨hpost.symm, rfl⟩
    · simp at hs
  | found hist hto hclock hnoerr hres =>
    rcases p with _ | ⟨a, _ | ⟨b, p⟩⟩
    · simp at hs
    · simp only [List.cons_append, List.nil_append, List.cons.injEq] at hs
      obtain ⟨ha, _, hpost⟩ := hs
      subst ha
      rw [hnoerr] at herr
      cases herr
    · simp at hs
  | retried hist e suffix hto hclock hnothing hrest ih =>
    rcases p with _ | ⟨a, _ | ⟨b, _ | ⟨c, p3⟩⟩⟩
    · simp at hs
    · simp only [List.cons_append, List.nil_append, List.cons.injEq] at hs
      obtain ⟨ha, _, _⟩ := hs
      subst ha
      rw [hnothing] at herr
      cases herr
    · simp at hs
    · simp only [List.cons_append, List.nil_append, List.cons.injEq] at hs
      obtain ⟨ha, hb, hc, hs3⟩ := hs
      subst ha hb hc
      have := ih p3 hs3 (by simpa using herr)
      simpa using this

theorem PollRun.followed_found_nothing {α : Type} {clock : List Event → Time}
    {lookup : List Event → Option α × Option String} {period timeout : Int}
    {timeoutAt : Time} {hist : List Event} {e : LoopEnd α} {suffix : List Event}
    (h : PollRun clock lookup period timeout timeoutAt hist e suffix)
    (p post : List Event) (hs : suffix = p ++ Event.lookup :: post) (hpost : post ≠ []) :
    lookup (hist ++ p) = (none, none) ∧ timeout ≠ 0 := by
  induction h generalizing p with
  | once hist hzero =>
    rcases p with _ | ⟨a, p⟩
    · simp only [List.nil_append, List.cons.injEq, true_and] at hs
      exact absurd hs.symm hpost
    · simp at hs
  | expired hist hto hclock =>
    rcases p with _ | ⟨a, p⟩ <;> simp at hs
  | failed hist hto hclock herr2 =>
    rcases p with _ | ⟨a, _ | ⟨b, p⟩⟩
    · simp at hs
    · simp only [List.cons_append, List.nil_append, List.cons.injEq] at hs
      exact absurd hs.2.2.symm hpost
    · simp at hs
  | found hist hto hclock hnoerr hres =>
    rcases p with _ | ⟨a, _ | ⟨b, p⟩⟩
    · simp at hs
    · simp only [List.cons_append, List.nil_append, List.cons.injEq] at hs
      exact absurd hs.2.2.symm hpost
    · simp at hs
  | retried hist e suffix hto hclock hnothing hrest ih =>
    rcases p with _ | ⟨a, _ | ⟨b, _ | ⟨c, p3⟩⟩⟩
    · simp at hs
    · simp only [List.cons_append, List.nil_append, List.cons.injEq] at hs
      obtain ⟨ha, _, _⟩ := hs
      subst ha
      exact ⟨hnothing, hto⟩
    · simp at hs
    · simp only [List.cons_append, List.nil_append, List.cons.injEq] at hs
      obtain ⟨ha, hb, hc, hs3⟩ := hs
      subst ha hb hc
      have := ih p3 hs3
      simpa using this

theorem PollRun.nothing_then_sleep_then_check {α : Type} {clock : List Event → Time}
    {lookup : List Event → Option α × Option String} {period timeout : Int}
    {timeoutAt : Time} {hist : List Event} {e : LoopEnd α} {suffix : List Event}
    (h : PollRun clock lookup period timeout timeoutAt hist e suffix)
    (p post : List Event) (hs : suffix = p ++ Event.lookup :: post) (hto : timeout ≠ 0)
    (hnothing : lookup (hist ++ p) = (none, none)) :
    ∃ rest, post = Event.sleep period ::
        Event.now (clock (hist ++ p ++ [Event.lookup, Event.sleep period])) :: rest ∧
      ((clock (hist ++ p ++ [Event.lookup, Event.sleep period])).Before timeoutAt = false →
        rest = []) ∧
      ((clock (hist ++ p ++ [Event.lookup, Event.sleep period])).Before timeoutAt = true →
        ∃ rest2, rest = Event.lookup :: rest2) := by
  induction h generalizing p with
  | once hist hzero => exact absurd hzero hto
  | expired hist _ hclock =>
    rcases p with _ | ⟨a, p⟩ <;> simp at hs
  | failed hist _ hclock herr2 =>
    rcases p with _ | ⟨a, _ | ⟨b, p⟩⟩
    · simp at hs
    · simp only [List.cons_append, List.nil_append, List.cons.injEq] at hs
      obtain ⟨ha, _, _⟩ := hs
      subst ha
      rw [hnothing] at herr2
      cases herr2
    · simp at hs
  | found hist _ hclock hnoerr hres =>
    rcases p with _ | ⟨a, _ | ⟨b, p⟩⟩
    · simp at hs
    · simp only [List.cons_append, List.nil_append, List.cons.injEq] at hs
      obtain ⟨ha, _, _⟩ := hs
      subst ha
      rw [hnothing] at hres
      cases hres
    · simp at hs
  | retried hist e suffix _ hclock hnothing2 hrest ih =>
    rcases p with _ | ⟨a, _ | ⟨b, _ | ⟨c, p3⟩⟩⟩
    · simp at hs
    · simp only [List.cons_append, List.nil_append, List.cons.injEq] at hs
      obtain ⟨ha, _, hpost⟩ := hs
      subst ha
      obtain ⟨rest, hrest1, hrest2, hrest3⟩ := hrest.head hto
      refine ⟨rest, ?_, ?_, ?_⟩
      · rw [← hpost, hrest1]
        simp
      · simpa using hrest2
      · simpa using hrest3
    · simp at hs
    · simp only [List.cons_append, List.nil_append, List.cons.injEq] at hs
      obtain ⟨ha, hb, hc, hs3⟩ := hs
      subst ha hb hc
      have := ih p3 hs3 (by simpa using hnothing)
      simpa using this

theorem PollRun.lookup_after_check {α : Type} {clock : List Event → Time}
    {lookup : List Event → Option α × Option String} {period timeout : Int}
    {timeoutAt : Time} {hist : List Event} {e : LoopEnd α} {suffix : List Event}
    (h : PollRun clock lookup period timeout timeoutAt hist e suffix)
    (p post : List Event) (hs : suffix = p ++ Event.lookup :: post) (hto : timeout ≠ 0) :
    ∃ p2, p = p2 ++ [Event.now (clock (hist ++ p2))] ∧
      (clock (hist ++ p2)).Before timeoutAt = true := by
  induction h generalizing p with
  | once hist hzero => exact absurd hzero hto
  | expired hist _ hclock =>
    rcases p with _ | ⟨a, p⟩ <;> simp at hs
  | failed hist _ hclock herr2 =>
    rcases p with _ | ⟨a, _ | ⟨b, p⟩⟩
    · simp at hs
    · simp only [List.cons_append, List.nil_append, List.cons.injEq] at hs
      obtain ⟨ha, _, _⟩ := hs
      subst ha
      exact ⟨[], by simp, by simpa using hclock⟩
    · simp at hs
  | found hist _ hclock hnoerr hres =>
    rcases p with _ | ⟨a, _ | ⟨b, p⟩⟩
    · simp at hs
    · simp only [List.cons_append, List.nil_append, List.cons.injEq] at hs
      obtain ⟨ha, _, _⟩ := hs
      subst ha
      exact ⟨[], by simp, by simpa using hclock⟩
    · simp at hs
  | retried hist e suffix _ hclock hnothing2 hrest ih =>
    rcases p with _ | ⟨a, _ | ⟨b, _ | ⟨c, p3⟩⟩⟩
    · simp at hs
    · simp only [List.cons_append, List.nil_append, List.cons.injEq] at hs
      obtain ⟨ha, _, _⟩ := hs
      subst ha
      exact ⟨[], by simp, by simpa using hclock⟩
    · simp at hs
    · simp only [List.cons_append, List.nil_append, List.cons.injEq] at hs
      obtain ⟨ha, hb, hc, hs3⟩ := hs
      subst ha hb hc
      obtain ⟨p2, hp2, hbefore⟩ := ih p3 hs3
      refine ⟨Event.now (clock hist) :: Event.lookup :: Event.sleep period :: p2, ?_, ?_⟩
      · rw [hp2]
        simp
      · simpa using hbefore

theorem PollRun.sleep_after_lookup {α : Type} {clock : List Event → Time}
    {lookup : List Event → Option α × Option String} {period timeout : Int}
    {timeoutAt : Time} {hist : List Event} {e : LoopEnd α} {suffix : List Event}
    (h : PollRun clock lookup period timeout timeoutAt hist e suffix)
    (p post : List Event) (d : Int) (hs : suffix = p ++ Event.sleep d :: post) :
    d = period ∧ timeout ≠ 0 ∧
      ∃ p2, p = p2 ++ [Event.now (clock (hist ++ p2)), Event.lookup] ∧
        (clock (hist ++ p2)).Before timeoutAt = true ∧
        lookup (hist ++ p2 ++ [Event.now (clock (hist ++ p2))]) = (none, none) := by
  induction h generalizing p with
  | once hist hzero =>
    rcases p with _ | ⟨a, p⟩ <;> simp at hs
  | expired hist _ hclock =>
    rcases p with _ | ⟨a, p⟩ <;> simp at hs
  | failed hist _ hclock herr2 =>
    rcases p with _ | ⟨a, _ | ⟨b, p⟩⟩ <;> simp at hs
  | found hist _ hclock hnoerr hres =>
    rcases p with _ | ⟨a, _ | ⟨b, p⟩⟩ <;> simp at hs
  | retried hist e suffix hto hclock hnothing2 hrest ih =>
    rcases p with _ | ⟨a, _ | ⟨b, _ | ⟨c, p3⟩⟩⟩
    · simp at hs
    · simp at hs
    · simp only [List.cons_append, List.nil_append, List.cons.injEq, Event.sleep.injEq] at hs
      obtain ⟨ha, hb, hd, _⟩ := hs
      subst ha hb
      exact ⟨hd.symm, hto, [], by simp, by simpa using hclock, by simpa using hnothing2⟩
    · simp only [List.cons_append, List.nil_append, List.cons.injEq] at hs
      obtain ⟨ha, hb, hc, hs3⟩ := hs
      subst ha hb hc
      obtain ⟨hd, _, p2, hp2, hbefore, hnothing3⟩ := ih p3 hs3
      refine ⟨hd, hto,
        Event.now (clock hist) :: Event.lookup :: Event.sleep period :: p2, ?_, ?_, ?_⟩
      · rw [hp2]
        simp
      · simpa using hbefore
      · simpa using hnothing3

theorem PollRun.end_state {α : Type} {clock : List Event → Time}
    {lookup : List Event → Option α × Option String} {period timeout : Int}
    {timeoutAt : Time} {hist : List Event} {e : LoopEnd α} {suffix : List Event}
    (h : PollRun clock lookup period timeout timeoutAt hist e suffix) :
    (∃ p a b, suffix = p ++ [Event.lookup] ∧ lookup (hist ++ p) = (a, b) ∧
      ((b.isSome = true ∧ e = LoopEnd.returned a b) ∨ (b = none ∧ e = LoopEnd.left a none ∧
        (a.isSome = true ∨ timeout = 0)))) ∨
    (∃ p, suffix = p ++ [Event.now (clock (hist ++ p))] ∧ timeout ≠ 0 ∧
      (clock (hist ++ p)).Before timeoutAt = false ∧ e = LoopEnd.left none none) := by
  induction h with
  | once hist hzero =>
    left
    refine ⟨[], (lookup hist).1, (lookup hist).2, rfl, by simp, ?_⟩
    by_cases hb : (lookup hist).2.isSome = true
    · exact Or.inl ⟨hb, by simp [hb]⟩
    · have hn : (lookup hist).2 = none := by simpa using hb
      exact Or.inr ⟨hn, by simp [hn], Or.inr hzero⟩
  | expired hist hto hclock =>
    right
    exact ⟨[], by simp, hto, by simpa using hclock, rfl⟩
  | failed hist hto hclock herr =>
    left
    exact ⟨[Event.now (clock hist)], _, _, rfl, rfl, Or.inl ⟨herr, rfl⟩⟩
  | found hist hto hclock hnoerr hres =>
    left
    exact ⟨[Event.now (clock hist)], (lookup (hist ++ [Event.now (clock hist)])).1, none, rfl,
      Prod.ext rfl hnoerr, Or.inr ⟨rfl, rfl, Or.inl hres⟩⟩
  | retried hist e suffix hto hclock hnothing hrest ih =>
    rcases ih with ⟨p, a, b, hs, hl, hcase⟩ | ⟨p, hs, hto2, hc, he⟩
    · left
      refine ⟨Event.now (clock hist) :: Event.lookup :: Event.sleep period :: p, a, b, ?_, ?_,
        hcase⟩
      · rw [hs]
        simp
      · simpa using hl
    · right
      refine ⟨Event.now (clock hist) :: Event.lookup :: Event.sleep period :: p, ?_, hto2, ?_,
        he⟩
      · rw [hs]
        simp
      · simpa using hc

theorem MustGetAppByName_eq (gt : GoText) (env : PollEnv (Slice App × Option String))
    (name : GoString) (timeout : Int) (fuel : Nat) :
    MustGetAppByName gt env name timeout fuel
      = (pollLoop env.clock (fun h => GetAppByName gt (env.list h) name) AppPollPeriod timeout
          ((env.clock []).Add timeout) fuel none none [Event.now (env.clock [])]).map
        (fun x => (x.1.results (noAppError gt name), x.2)) := by
  unfold MustGetAppByName
  simp only
  split
  · next h => rw [h]; rfl
  · next app err hist h =>
    rw [h]
    rfl
  · next app err hist h =>
    rw [h]
    simp only [Option.map_some', LoopEnd.results, noAppError]
    split <;> rfl

theorem MustFindLatestRecoveryPoint_eq (gt : GoText)
    (env : PollEnv (Slice RecoveryPoint × Option String))
    (timestampMin timestampMax : Option Time) (timeout : Int) (fuel : Nat) :
    MustFindLatestRecoveryPoint gt env timestampMin timestampMax timeout fuel
      = (pollLoop env.clock (fun h => FindLatestRecoveryPoint (env.list h))
          RecoveryPointPollPeriod timeout ((env.clock []).Add timeout) fuel none none
          [Event.now (env.clock [])]).map
        (fun x => (x.1.results (noRecoveryPointError gt timestampMin timestampMax), x.2)) := by
  unfold MustFindLatestRecoveryPoint
  simp only
  split
  · next h => rw [h]; rfl
  · next rp err hist h =>
    rw [h]
    rfl
  · next rp err hist h =>
    rw [h]
    simp only [Option.map_some', LoopEnd.results]
    split <;> rfl

theorem pollCall_sound {α : Type} (clock : List Event → Time)
    (lookup : List Event → Option α × Option String) (period timeout : Int)
    (timeoutAt : Time) (msg : String) (fuel : Nat) (t0 : Time)
    (r : Option α × Option String) (hist : List Event)
    (h : (pollLoop clock lookup period timeout timeoutAt fuel none none [Event.now t0]).map
        (fun x => (x.1.results msg, x.2)) = some (r, hist)) :
    ∃ e suffix, PollRun clock lookup period timeout timeoutAt [Event.now t0] e suffix ∧
      hist = Event.now t0 :: suffix ∧ r = e.results msg := by
  cases hp : pollLoop clock lookup period timeout timeoutAt fuel none none [Event.now t0] with
  | none => simp [hp] at h
  | some x =>
    obtain ⟨e, hist2⟩ := x
    simp only [hp, Option.map_some', Option.some.injEq, Prod.mk.injEq] at h
    obtain ⟨suffix, hs, hrun⟩ := pollLoop_sound _ _ _ _ _ _ _ _ _ hp
    exact ⟨e, suffix, hrun, by rw [← h.2, hs]; rfl, h.1.symm⟩

theorem pollCall_complete {α : Type} (clock : List Event → Time)
    (lookup : List Event → Option α × Option String) (period timeout : Int)
    (timeoutAt : Time) (msg : String) (t0 : Time) (e : LoopEnd α) (suffix : List Event)
    (h : PollRun clock lookup period timeout timeoutAt [Event.now t0] e suffix) :
    ∃ n, ∀ fuel, n < fuel →
      (pollLoop clock lookup period timeout timeoutAt fuel none none [Event.now t0]).map
        (fun x => (x.1.results msg, x.2)) = some (e.results msg, Event.now t0 :: suffix) := by
  obtain ⟨n, hn⟩ := pollLoop_complete _ _ _ _ _ _ _ _ h
  exact ⟨n, fun fuel hf => by rw [hn fuel hf]; rfl⟩

theorem split_after_head (x y : Event) (suffix pre post : List Event) (hxy : x ≠ y)
    (h : x :: suffix = pre ++ y :: post) :
    ∃ p, pre = x :: p ∧ suffix = p ++ y :: post := by
  rcases pre with _ | ⟨a, p⟩
  · simp only [List.nil_append, List.cons.injEq] at h
    exact absurd h.1 hxy
  · simp only [List.cons_append, List.cons.injEq] at h
    exact ⟨p, by rw [h.1], h.2⟩

theorem PollRun.after_idle {α : Type} {clock : List Event → Time}
    {lookup : List Event → Option α × Option String} {period timeout : Int}
    {timeoutAt : Time} (k : Nat) (hist : List Event) (e : LoopEnd α) (suffix : List Event)
    (hidle : ∀ j, j < k →
      IdleRound clock lookup timeout timeoutAt (afterIdleRounds clock period j hist))
    (h : PollRun clock lookup period timeout timeoutAt (afterIdleRounds clock period k hist)
      e suffix) :
    ∃ suffix2, PollRun clock lookup period timeout timeoutAt hist e suffix2 ∧
      hist ++ suffix2 = afterIdleRounds clock period k hist ++ suffix := by
  induction k generalizing hist with
  | zero => exact ⟨suffix, h, rfl⟩
  | succ k ih =>
    obtain ⟨hto, hclock, hnothing⟩ := hidle 0 (Nat.succ_pos k)
    obtain ⟨s2, hrun, hs2⟩ := ih
      (hist ++ [Event.now (clock hist), Event.lookup, Event.sleep period])
      (fun j hj => hidle (j + 1) (Nat.succ_lt_succ hj)) h
    refine ⟨[Event.now (clock hist), Event.lookup, Event.sleep period] ++ s2,
      PollRun.retried hist e s2 hto hclock hnothing hrun, ?_⟩
    rw [← List.append_assoc, hs2]
    rfl

theorem pollCall_error_ends {α : Type} (clock : List Event → Time)
    (lookup : List Event → Option α × Option String) (period timeout : Int)
    (timeoutAt : Time) (msg : String) (fuel : Nat) (t0 : Time)
    (r : Option α × Option String) (hist : List Event)
    (h : (pollLoop clock lookup period timeout timeoutAt fuel none none [Event.now t0]).map
        (fun x => (x.1.results msg, x.2)) = some (r, hist))
    (pre post : List Event) (hsplit : hist = pre ++ Event.lookup :: post) :
    ((lookup pre).2.isSome = true → post = [] ∧ r = lookup pre) ∧
      (post ≠ [] → lookup pre = (none, none)) := by
  obtain ⟨e, suffix, hrun, hhist, hr⟩ := pollCall_sound _ _ _ _ _ _ _ _ _ _ h
  rw [hhist] at hsplit
  obtain ⟨p, hp, hs⟩ := split_after_head _ _ _ _ _ (by simp) hsplit
  subst hp
  constructor
  · intro herr
    obtain ⟨hpost, he⟩ := hrun.error_is_last p post hs herr
    refine ⟨hpost, ?_⟩
    rw [hr, he]
    rfl
  · intro hpost
    exact (hrun.followed_found_nothing p post hs hpost).1

theorem pollCall_error_returns {α : Type} (clock : List Event → Time)
    (lookup : List Event → Option α × Option String) (period timeout : Int)
    (timeoutAt : Time) (msg : String) (t0 : Time) (k : Nat)
    (hidle : ∀ j, j < k → IdleRound clock lookup timeout timeoutAt
      (afterIdleRounds clock period j [Event.now t0]))
    (hentered : timeout = 0 ∨
      (clock (afterIdleRounds clock period k [Event.now t0])).Before timeoutAt = true)
    (herr : (lookup (lookupHistory clock timeout
      (afterIdleRounds clock period k [Event.now t0]))).2.isSome = true) :
    ∃ n, ∀ fuel, n < fuel →
      (pollLoop clock lookup period timeout timeoutAt fuel none none [Event.now t0]).map
        (fun x => (x.1.results msg, x.2))
      = some (lookup (lookupHistory clock timeout
            (afterIdleRounds clock period k [Event.now t0])),
          lookupHistory clock timeout (afterIdleRounds clock period k [Event.now t0])
            ++ [Event.lookup]) := by
  by_cases hto : timeout = 0
  · subst hto
    simp only [lookupHistory, if_true] at herr ⊢
    obtain ⟨s2, hrun, hs2⟩ := PollRun.after_idle k [Event.now t0] _ _ hidle
      (PollRun.once (afterIdleRounds clock period k [Event.now t0]) rfl)
    obtain ⟨n, hn⟩ := pollCall_complete _ _ _ _ _ msg _ _ _ hrun
    refine ⟨n, fun fuel hf => ?_⟩
    rw [hn fuel hf, if_pos herr]
    simp only [LoopEnd.results, Option.some.injEq, Prod.mk.injEq, true_and]
    exact hs2
  · have hclock : (clock (afterIdleRounds clock period k [Event.now t0])).Before timeoutAt
        = true := hentered.resolve_left hto
    simp only [lookupHistory, if_neg hto] at herr ⊢
    obtain ⟨s2, hrun, hs2⟩ := PollRun.after_idle k [Event.now t0] _ _ hidle
      (PollRun.failed (afterIdleRounds clock period k [Event.now t0]) hto hclock herr)
    obtain ⟨n, hn⟩ := pollCall_complete _ _ _ _ _ msg _ _ _ hrun
    refine ⟨n, fun fuel hf => ?_⟩
    rw [hn fuel hf]
    simp only [LoopEnd.results, Option.some.injEq, Prod.mk.injEq, true_and]
    rw [show Event.now t0 :: s2 = [Event.now t0] ++ s2 from rfl, hs2]
    simp

/-- Claim C11: in `MustGetAppByName` and `MustFindLatestRecoveryPoint`, for every
timeout, clock and listing behaviour: in the history of a call that has ended,
a lookup that returned an error is the last event (no lookup and no sleep
follow it) and its results are the results of the call, error unchanged; and a
lookup that is followed by anything returned a nil result and a nil error.
Moreover a lookup error does end the call: when the first `k` rounds find
nothing and the lookup of the next round returns an error, the call returns
the results of that lookup for every bound on the rounds that is large
enough. -/
theorem C11_lookup_error_ends_call (gt : GoText) (timeout : Int) :
    (∀ (env : PollEnv (Slice App × Option String)) (name : GoString),
      (∀ fuel r hist, MustGetAppByName gt env name timeout fuel = some (r, hist) →
        ∀ pre post, hist = pre ++ Event.lookup :: post →
          ((appLookup gt env name pre).2.isSome = true →
            post = [] ∧ r = appLookup gt env name pre) ∧
          (post ≠ [] → appLookup gt env name pre = (none, none))) ∧
      (∀ k,
        (∀ j, j < k → IdleRound env.clock (appLookup gt env name) timeout
          (deadline env timeout) (afterIdleRounds env.clock AppPollPeriod j (startHistory env))) →
        (timeout = 0 ∨ (env.clock (afterIdleRounds env.clock AppPollPeriod k
          (startHistory env))).Before (deadline env timeout) = true) →
        (appLookup gt env name (lookupHistory env.clock timeout
          (afterIdleRounds env.clock AppPollPeriod k (startHistory env)))).2.isSome = true →
        ∃ n, ∀ fuel, n < fuel → MustGetAppByName gt env name timeout fuel
          = some (appLookup gt env name (lookupHistory env.clock timeout
              (afterIdleRounds env.clock AppPollPeriod k (startHistory env))),
            lookupHistory env.clock timeout
              (afterIdleRounds env.clock AppPollPeriod k (startHistory env))
              ++ [Event.lookup]))) ∧
    (∀ (env : PollEnv (Slice RecoveryPoint × Option String))
        (timestampMin timestampMax : Option Time),
      (∀ fuel r hist,
        MustFindLatestRecoveryPoint gt env timestampMin timestampMax timeout fuel
          = some (r, hist) →
        ∀ pre post, hist = pre ++ Event.lookup :: post →
          ((rpLookup env pre).2.isSome = true → post = [] ∧ r = rpLookup env pre) ∧
          (post ≠ [] → rpLookup env pre = (none, none))) ∧
      (∀ k,
        (∀ j, j < k → IdleRound env.clock (rpLookup env) timeout (deadline env timeout)
          (afterIdleRounds env.clock RecoveryPointPollPeriod j (startHistory env))) →
        (timeout = 0 ∨ (env.clock (afterIdleRounds env.clock RecoveryPointPollPeriod k
          (startHistory env))).Before (deadline env timeout) = true) →
        (rpLookup env (lookupHistory env.clock timeout
          (afterIdleRounds env.clock RecoveryPointPollPeriod k
            (startHistory env)))).2.isSome = true →
        ∃ n, ∀ fuel, n < fuel →
          MustFindLatestRecoveryPoint gt env timestampMin timestampMax timeout fuel
          = some (rpLookup env (lookupHistory env.clock timeout
              (afterIdleRounds env.clock RecoveryPointPollPeriod k (startHistory env))),
            lookupHistory env.clock timeout
              (afterIdleRounds env.clock RecoveryPointPollPeriod k (startHistory env))
              ++ [Event.lookup]))) := by
  constructor
  · intro env name
    constructor
    · intro fuel r hist h pre post hsplit
      rw [MustGetAppByName_eq] at h
      exact pollCall_error_ends _ _ _ _ _ _ _ _ _ _ h pre post hsplit
    · intro k hidle hentered herr
      obtain ⟨n, hn⟩ := pollCall_error_returns env.clock (appLookup gt env name) AppPollPeriod
        timeout (deadline env timeout) (noAppError gt name) (env.clock []) k hidle hentered
        herr
      exact ⟨n, fun fuel hf => by rw [MustGetAppByName_eq]; exact hn fuel hf⟩
  · intro env timestampMin timestampMax
    constructor
    · intro fuel r hist h pre post hsplit
      rw [MustFindLatestRecoveryPoint_eq] at h
      exact pollCall_error_ends _ _ _ _ _ _ _ _ _ _ h pre post hsplit
    · intro k hidle hentered herr
      obtain ⟨n, hn⟩ := pollCall_error_returns env.clock (rpLookup env)
        RecoveryPointPollPeriod timeout (deadline env timeout)
        (noRecoveryPointError gt timestampMin timestampMax) (env.clock []) k hidle hentered
        herr
      exact ⟨n, fun fuel hf => by rw [MustFindLatestRecoveryPoint_eq]; exact hn fuel hf⟩

/-- Claim C11, witness: with a timeout of ten seconds and a listing request
that fails, `MustGetAppByName` returns the error of the first lookup, unchanged,
after one lookup and no sleep. -/
theorem C11_lookup_error_ends_call_witness :
    ∃ n, ∀ fuel, n < fuel →
      MustGetAppByName plainText (failingEnv (Slice App) none) "x" 10000000000 fuel
        = some ((none, some "connection refused"),
          [Event.now ⟨0⟩, Event.now ⟨0⟩, Event.lookup]) :=
  ((C11_lookup_error_ends_call plainText 10000000000).1
    (failingEnv (Slice App) none) "x").2 0 (fun _ hj => absurd hj (Nat.not_lt_zero _))
    (Or.inr rfl) rfl

/-! ## The results of the polling calls (claims C12 and C15) -/

theorem GetAppByName.scan_error_nil (gt : GoText) (name : GoString) (l : List App) (i : Nat)
    (app : Option (Ptr App)) (h : (GetAppByName.scan gt name l i app).2.isSome = true) :
    (GetAppByName.scan gt name l i app).1 = none := by
  induction l generalizing i app with
  | nil => simp [GetAppByName.scan] at h
  | cons a l ih =>
    unfold GetAppByName.scan at h ⊢
    split
    · split
      · rfl
      · rename_i h1 h2
        simp only [h1, h2, if_true, if_false] at h
        exact ih _ _ h
    · rename_i h1
      simp only [h1, if_false] at h
      exact ih _ _ h

theorem appLookup_error_nil (gt : GoText) (env : PollEnv (Slice App × Option String))
    (name : GoString) (hist : List Event) (h : (appLookup gt env name hist).2.isSome = true) :
    (appLookup gt env name hist).1 = none := by
  unfold appLookup GetAppByName at h ⊢
  cases herr : (env.list hist).2 with
  | some err => rfl
  | none =>
    simp only [herr] at h ⊢
    exact GetAppByName.scan_error_nil _ _ _ _ _ h

theorem rpLookup_error_nil (env : PollEnv (Slice RecoveryPoint × Option String))
    (hist : List Event) (h : (rpLookup env hist).2.isSome = true) :
    (rpLookup env hist).1 = none := by
  unfold rpLookup FindLatestRecoveryPoint at h ⊢
  cases herr : (env.list hist).2 with
  | some err => rfl
  | none => simp [herr] at h

theorem pollCall_exactly_one {α : Type} (clock : List Event → Time)
    (lookup : List Event → Option α × Option String) (period timeout : Int)
    (timeoutAt : Time) (msg : String) (fuel : Nat) (t0 : Time)
    (r : Option α × Option String) (hist : List Event)
    (hlookup : ∀ h, (lookup h).2.isSome = true → (lookup h).1 = none)
    (h : (pollLoop clock lookup period timeout timeoutAt fuel none none [Event.now t0]).map
        (fun x => (x.1.results msg, x.2)) = some (r, hist)) :
    (r.1.isSome = true ∧ r.2 = none) ∨ (r.1 = none ∧ r.2.isSome = true) := by
  obtain ⟨e, suffix, hrun, _, hr⟩ := pollCall_sound _ _ _ _ _ _ _ _ _ _ h
  rcases hrun.end_state with ⟨p, a, b, _, hl, hcase⟩ | ⟨p, _, _, _, he⟩
  · rcases hcase with ⟨hb, he⟩ | ⟨hb, he, _⟩
    · have ha : a = none := by
        have := hlookup ([Event.now t0] ++ p) (by rw [hl]; exact hb)
        rw [hl] at this
        exact this
      right
      rw [hr, he, ha]
      exact ⟨rfl, hb⟩
    · rw [hr, he]
      cases a with
      | none => right; exact ⟨rfl, rfl⟩
      | some x => left; exact ⟨rfl, rfl⟩
  · right
    rw [hr, he]
    exact ⟨rfl, rfl⟩

/-- Claim C15: for every timeout (zero, positive or negative), every clock and
every listing behaviour, whenever `MustGetAppByName` or
`MustFindLatestRecoveryPoint` ends, it returns either a result that is not nil
with a nil error, or a nil result with an error that is not nil: never both,
never neither. -/
theorem C15_exactly_one_of_result_and_error (gt : GoText) (timeout : Int) (fuel : Nat) :
    (∀ (env : PollEnv (Slice App × Option String)) (name : GoString) r hist,
      MustGetAppByName gt env name timeout fuel = some (r, hist) →
      (r.1.isSome = true ∧ r.2 = none) ∨ (r.1 = none ∧ r.2.isSome = true)) ∧
    (∀ (env : PollEnv (Slice RecoveryPoint × Option String))
        (timestampMin timestampMax : Option Time) r hist,
      MustFindLatestRecoveryPoint gt env timestampMin timestampMax timeout fuel
        = some (r, hist) →
      (r.1.isSome = true ∧ r.2 = none) ∨ (r.1 = none ∧ r.2.isSome = true)) := by
  constructor
  · intro env name r hist h
    rw [MustGetAppByName_eq] at h
    exact pollCall_exactly_one _ _ _ _ _ _ _ _ _ _ (appLookup_error_nil gt env name) h
  · intro env timestampMin timestampMax r hist h
    rw [MustFindLatestRecoveryPoint_eq] at h
    exact pollCall_exactly_one _ _ _ _ _ _ _ _ _ _ (rpLookup_error_nil env) h

/-- Claim C15, witness: with a negative timeout and a clock that stands still
the loop body runs zero times, and `MustGetAppByName` returns a nil app with a
prepared error. -/
theorem C15_exactly_one_of_result_and_error_witness :
    ∃ r hist, MustGetAppByName plainText (stillEnv _ (some [], none)) "x" (-1) 1
        = some (r, hist) ∧
      hist = [Event.now ⟨0⟩, Event.now ⟨0⟩] ∧
      ((r.1.isSome = true ∧ r.2 = none) ∨ (r.1 = none ∧ r.2.isSome = true)) :=
  ⟨(none, some "there is no Arpio application named \"x\""),
    [Event.now ⟨0⟩, Event.now ⟨0⟩], rfl, rfl,
    (C15_exactly_one_of_result_and_error plainText (-1) 1).1
      (stillEnv _ (some [], none)) "x" _ _
      (show MustGetAppByName plainText (stillEnv _ (some [], none)) "x" (-1) 1
        = some ((none, some "there is no Arpio application named \"x\""),
          [Event.now ⟨0⟩, Event.now ⟨0⟩]) from rfl)⟩

theorem pollCall_prepared_error {α : Type} (clock : List Event → Time)
    (lookup : List Event → Option α × Option String) (period timeout : Int)
    (timeoutAt : Time) (msg : String) (fuel : Nat) (t0 : Time)
    (r : Option α × Option String) (hist : List Event)
    (h : (pollLoop clock lookup period timeout timeoutAt fuel none none [Event.now t0]).map
        (fun x => (x.1.results msg, x.2)) = some (r, hist))
    (hnil : r.1 = none)
    (hnoerr : ∀ pre post, hist = pre ++ Event.lookup :: post → (lookup pre).2 = none) :
    r.2 = some msg := by
  obtain ⟨e, suffix, hrun, hhist, hr⟩ := pollCall_sound _ _ _ _ _ _ _ _ _ _ h
  rcases hrun.end_state with ⟨p, a, b, hs, hl, hcase⟩ | ⟨p, _, _, _, he⟩
  · rcases hcase with ⟨hb, he⟩ | ⟨hb, he, _⟩
    · have := hnoerr (Event.now t0 :: p) [] (by rw [hhist, hs]; rfl)
      rw [show Event.now t0 :: p = [Event.now t0] ++ p from rfl, hl] at this
      simp only at this
      rw [this] at hb
      cases hb
    · rw [hr, he] at hnil ⊢
      cases a with
      | none => rfl
      | some x => simp [LoopEnd.results] at hnil
  · rw [hr, he]
    rfl

theorem append_ne_of_prefix (l1 l2 r1 r2 : String) (n : Nat) (h1 : n ≤ l1.data.length)
    (h2 : n ≤ l2.data.length) (hne : l1.data.take n ≠ l2.data.take n) :
    l1 ++ r1 ≠ l2 ++ r2 := by
  intro h
  have hd := congrArg (fun s => s.data.take n) h
  simp only [String.data_append, List.take_append_of_le_length h1,
    List.take_append_of_le_length h2] at hd
  exact hne hd

/-- Claim C12: when `MustFindLatestRecoveryPoint` ends with a nil recovery point
and no lookup of the call returned an error, its error is the prepared text,
which depends on the two bounds only: both set gives the `between` text with
the RFC 3339 renderings of the minimum and the maximum (each quoted by `%q`),
only the minimum gives the `on or after` text with the minimum, only the
maximum gives the `on or before` text with the maximum, and neither gives the
text without a bound; and the four texts are pairwise different whatever the
bounds are. -/
theorem C12_error_by_bounds (gt : GoText) :
    (∀ (env : PollEnv (Slice RecoveryPoint × Option String))
        (timestampMin timestampMax : Option Time) (timeout : Int) (fuel : Nat) r hist,
      MustFindLatestRecoveryPoint gt env timestampMin timestampMax timeout fuel
        = some (r, hist) →
      r.1 = none →
      (∀ pre post, hist = pre ++ Event.lookup :: post → (rpLookup env pre).2 = none) →
      r.2 = some (noRecoveryPointError gt timestampMin timestampMax)) ∧
    (∀ tmin tmax, noRecoveryPointError gt (some tmin) (some tmax)
      = "there are no recovery points between " ++ (gt.quote (gt.rfc3339 tmin) ++
        (" and " ++ (gt.quote (gt.rfc3339 tmax) ++
        ("; change timestamp_min to an earlier time or remove it from your config to use " ++
         "an older recovery point, or remove timestamp from your config to use the most " ++
         "recent recovery point"))))) ∧
    (∀ tmin, noRecoveryPointError gt (some tmin) none
      = "there are no recovery points on or after " ++ (gt.quote (gt.rfc3339 tmin) ++
        ("; change timestamp_min to an earlier time or remove it from your config to use " ++
         "an older recovery point"))) ∧
    (∀ tmax, noRecoveryPointError gt none (some tmax)
      = "there are no recovery points on or before " ++ (gt.quote (gt.rfc3339 tmax) ++
        ("; change timestamp to a later time or remove it from your config to use " ++
         "a newer recovery point"))) ∧
    noRecoveryPointError gt none none
      = "no recovery points exist for this application yet; please wait for the first " ++
        "recovery point to be created" ∧
    (∀ a b c, noRecoveryPointError gt (some a) (some b)
      ≠ noRecoveryPointError gt (some c) none) ∧
    (∀ a b c, noRecoveryPointError gt (some a) (some b)
      ≠ noRecoveryPointError gt none (some c)) ∧
    (∀ a b, noRecoveryPointError gt (some a) (some b) ≠ noRecoveryPointError gt none none) ∧
    (∀ a c, noRecoveryPointError gt (some a) none ≠ noRecoveryPointError gt none (some c)) ∧
    (∀ a, noRecoveryPointError gt (some a) none ≠ noRecoveryPointError gt none none) ∧
    (∀ c, noRecoveryPointError gt none (some c) ≠ noRecoveryPointError gt none none) := by
  refine ⟨?_, ?_, ?_, ?_, ?_, ?_, ?_, ?_, ?_, ?_, ?_⟩
  · intro env timestampMin timestampMax timeout fuel r hist h hnil hnoerr
    rw [MustFindLatestRecoveryPoint_eq] at h
    exact pollCall_prepared_error _ _ _ _ _ _ _ _ _ _ h hnil hnoerr
  · intro tmin tmax
    simp only [noRecoveryPointError, String.append_assoc]
    rfl
  · intro tmin
    simp only [noRecoveryPointError, String.append_assoc]
    rfl
  · intro tmax
    simp only [noRecoveryPointError, String.append_assoc]
    rfl
  · rfl
  · intro a b c
    simp only [noRecoveryPointError, String.append_assoc]
    exact append_ne_of_prefix _ _ _ _ 30 (by decide) (by decide) (by decide)
  · intro a b c
    simp only [noRecoveryPointError, String.append_assoc]
    exact append_ne_of_prefix _ _ _ _ 30 (by decide) (by decide) (by decide)
  · intro a b
    simp only [noRecoveryPointError, String.append_assoc]
    exact append_ne_of_prefix _ _ _ _ 1 (by decide) (by decide) (by decide)
  · intro a c
    simp only [noRecoveryPointError, String.append_assoc]
    rw [← String.append_assoc,
      ← String.append_assoc "there are no recovery points on or " "before "]
    exact append_ne_of_prefix _ _ _ _ 36 (by decide) (by decide) (by decide)
  · intro a
    simp only [noRecoveryPointError, String.append_assoc]
    exact append_ne_of_prefix _ _ _ _ 1 (by decide) (by decide) (by decide)
  · intro c
    simp only [noRecoveryPointError, String.append_assoc]
    exact append_ne_of_prefix _ _ _ _ 1 (by decide) (by decide) (by decide)

/-- Claim C12, witness: with no bound set, a negative timeout and a clock that
stands still, `MustFindLatestRecoveryPoint` ends without a lookup, and its
error is the text for no bound. -/
theorem C12_error_by_bounds_witness :
    ∃ r hist, MustFindLatestRecoveryPoint plainText (stillEnv _ (some [], none)) none none
        (-1) 1 = some (r, hist) ∧
      hist = [Event.now ⟨0⟩, Event.now ⟨0⟩] ∧
      r.2 = some (noRecoveryPointError plainText none none) :=
  ⟨(none, some (noRecoveryPointError plainText none none)), [Event.now ⟨0⟩, Event.now ⟨0⟩],
    rfl, rfl,
    (C12_error_by_bounds plainText).1 (stillEnv _ (some [], none)) none none (-1) 1 _ _
      (show MustFindLatestRecoveryPoint plainText (stillEnv _ (some [], none)) none none
        (-1) 1 = some ((none, some (noRecoveryPointError plainText none none)),
          [Event.now ⟨0⟩, Event.now ⟨0⟩]) from rfl)
      rfl
      (fun pre post hsplit => by
        rcases pre with _ | ⟨a, _ | ⟨b, pre⟩⟩ <;> simp at hsplit)⟩

/-! ## The polling calls under a clock moved by the sleeps (claim C13) -/

theorem sleptTime_append (a b : List Event) :
    sleptTime (a ++ b) = sleptTime a + sleptTime b := by
  induction a with
  | nil => simp [sleptTime]
  | cons x a ih =>
    cases x <;> simp [sleptTime, ih]
    omega

theorem PollRun.found_of_eq {α : Type} (clock : List Event → Time)
    (lookup : List Event → Option α × Option String) (period timeout : Int)
    (timeoutAt : Time) (hist : List Event) (a : α) (hto : timeout ≠ 0)
    (hclock : (clock hist).Before timeoutAt = true)
    (hl : lookup (hist ++ [Event.now (clock hist)]) = (some a, none)) :
    PollRun clock lookup period timeout timeoutAt hist (LoopEnd.left (some a) none)
      [Event.now (clock hist), Event.lookup] := by
  have h := @PollRun.found α clock lookup period timeout timeoutAt hist hto hclock
    (by rw [hl]) (by rw [hl]; rfl)
  rw [hl] at h
  exact h

theorem PollRun.eventually_found {α : Type} (clock : List Event → Time)
    (lookup : List Event → Option α × Option String) (period timeout N : Int) (t0 : Time)
    (found : List Event → α)
    (hclock : ∀ h, clock h = t0.Add (sleptTime h)) (hper : 0 < period) (hN : 0 ≤ N)
    (hto : N + period ≤ timeout)
    (hnothing : ∀ h, sleptTime h < N → lookup h = (none, none))
    (hfound : ∀ h, N ≤ sleptTime h → lookup h = (some (found h), none))
    (m : Nat) (hist : List Event) (hslept : sleptTime hist < N + period)
    (hm : N - sleptTime hist ≤ m) :
    ∃ suffix pre, PollRun clock lookup period timeout (t0.Add timeout) hist
        (LoopEnd.left (some (found pre)) none) suffix ∧
      hist ++ suffix = pre ++ [Event.lookup] := by
  have hne : timeout ≠ 0 := by omega
  have hbefore : ∀ h, sleptTime h < N + period →
      (clock h).Before (t0.Add timeout) = true := by
    intro h hs
    rw [hclock h]
    simp only [Time.Before, Time.Add, decide_eq_true_eq]
    omega
  have hnow : ∀ h, sleptTime (h ++ [Event.now (clock h)]) = sleptTime h := by
    intro h
    rw [sleptTime_append]
    simp [sleptTime]
  induction m generalizing hist with
  | zero =>
    have hl := hfound (hist ++ [Event.now (clock hist)]) (by rw [hnow]; omega)
    exact ⟨[Event.now (clock hist), Event.lookup], hist ++ [Event.now (clock hist)],
      PollRun.found_of_eq clock lookup period timeout _ hist _ hne (hbefore hist hslept) hl,
      by simp⟩
  | succ m ih =>
    by_cases hcase : N ≤ sleptTime hist
    · have hl := hfound (hist ++ [Event.now (clock hist)]) (by rw [hnow]; exact hcase)
      exact ⟨[Event.now (clock hist), Event.lookup], hist ++ [Event.now (clock hist)],
        PollRun.found_of_eq clock lookup period timeout _ hist _ hne (hbefore hist hslept) hl,
        by simp⟩
    · have hl := hnothing (hist ++ [Event.now (clock hist)]) (by rw [hnow]; omega)
      have hnext : sleptTime
          (hist ++ [Event.now (clock hist), Event.lookup, Event.sleep period])
          = sleptTime hist + period := by
        rw [sleptTime_append]
        simp [sleptTime]
      obtain ⟨suffix, pre, hrun, hs⟩ := ih
        (hist ++ [Event.now (clock hist), Event.lookup, Event.sleep period])
        (by rw [hnext]; omega) (by rw [hnext]; push_cast at hm ⊢; omega)
      refine ⟨[Event.now (clock hist), Event.lookup, Event.sleep period] ++ suffix, pre,
        PollRun.retried hist _ suffix hne (hbefore hist hslept) hl hrun, ?_⟩
      rw [← List.append_assoc, hs]

theorem pollCall_eventually_found {α : Type} (clock : List Event → Time)
    (lookup : List Event → Option α × Option String) (period timeout N : Int)
    (msg : String) (found : List Event → α)
    (hclock : ∀ h, clock h = (clock []).Add (sleptTime h)) (hper : 0 < period) (hN : 0 ≤ N)
    (hto : N + period ≤ timeout)
    (hnothing : ∀ h, (clock h).nanos - (clock []).nanos < N → lookup h = (none, none))
    (hfound : ∀ h, N ≤ (clock h).nanos - (clock []).nanos →
      lookup h = (some (found h), none)) :
    ∃ n, ∀ fuel, n < fuel → ∃ pre,
      (pollLoop clock lookup period timeout ((clock []).Add timeout) fuel none none
          [Event.now (clock [])]).map (fun x => (x.1.results msg, x.2))
        = some ((some (found pre), none), pre ++ [Event.lookup]) := by
  have hel : ∀ h, (clock h).nanos - (clock []).nanos = sleptTime h := by
    intro h
    rw [hclock h]
    simp [Time.Add]
  obtain ⟨suffix, pre, hrun, hs⟩ := PollRun.eventually_found clock lookup period timeout N
    (clock []) found hclock hper hN hto
    (fun h hh => hnothing h (by rw [hel]; exact hh))
    (fun h hh => hfound h (by rw [hel]; exact hh))
    N.toNat [Event.now (clock [])]
    (by simp [sleptTime]; omega) (by simp [sleptTime])
  obtain ⟨n, hn⟩ := pollCall_complete _ _ _ _ _ msg _ _ _ hrun
  refine ⟨n, fun fuel hf => ⟨pre, ?_⟩⟩
  rw [hn fuel hf]
  simp only [LoopEnd.results, Option.isNone_some, Bool.false_eq_true, if_false,
    Option.some.injEq, Prod.mk.injEq, true_and]
  exact hs

/-- Claim C13: under a clock that is moved by the sleeps only (every sleep adds
its duration, lookups and clock readings take no time), for every duration
`N ≥ 0` and every timeout of at least `N` plus the poll period: if the lookup
returns a nil result and a nil error whenever less than `N` has elapsed since
the call started, and a result with a nil error once `N` has elapsed, then
`MustGetAppByName` and `MustFindLatestRecoveryPoint` end for every large enough
bound on the rounds, after finitely many lookups, and return the result of the
last lookup with a nil error. -/
theorem C13_found_before_deadline (gt : GoText) (N timeout : Int) (hN : 0 ≤ N) :
    (∀ (env : PollEnv (Slice App × Option String)) (name : GoString)
        (found : List Event → Ptr App),
      (∀ h, env.clock h = (env.clock []).Add (sleptTime h)) →
      N + AppPollPeriod ≤ timeout →
      (∀ h, elapsed env h < N → appLookup gt env name h = (none, none)) →
      (∀ h, N ≤ elapsed env h → appLookup gt env name h = (some (found h), none)) →
      ∃ n, ∀ fuel, n < fuel → ∃ pre, MustGetAppByName gt env name timeout fuel
        = some ((some (found pre), none), pre ++ [Event.lookup])) ∧
    (∀ (env : PollEnv (Slice RecoveryPoint × Option String))
        (timestampMin timestampMax : Option Time) (found : List Event → Ptr RecoveryPoint),
      (∀ h, env.clock h = (env.clock []).Add (sleptTime h)) →
      N + RecoveryPointPollPeriod ≤ timeout →
      (∀ h, elapsed env h < N → rpLookup env h = (none, none)) →
      (∀ h, N ≤ elapsed env h → rpLookup env h = (some (found h), none)) →
      ∃ n, ∀ fuel, n < fuel → ∃ pre,
        MustFindLatestRecoveryPoint gt env timestampMin timestampMax timeout fuel
        = some ((some (found pre), none), pre ++ [Event.lookup])) := by
  constructor
  · intro env name found hclock hto hnothing hfound
    obtain ⟨n, hn⟩ := pollCall_eventually_found env.clock (appLookup gt env name)
      AppPollPeriod timeout N (noAppError gt name) found hclock (by decide) hN hto
      hnothing hfound
    exact ⟨n, fun fuel hf => by
      obtain ⟨pre, hpre⟩ := hn fuel hf
      exact ⟨pre, by rw [MustGetAppByName_eq]; exact hpre⟩⟩
  · intro env timestampMin timestampMax found hclock hto hnothing hfound
    obtain ⟨n, hn⟩ := pollCall_eventually_found env.clock (rpLookup env)
      RecoveryPointPollPeriod timeout N (noRecoveryPointError gt timestampMin timestampMax)
      found hclock (by decide) hN hto hnothing hfound
    exact ⟨n, fun fuel hf => by
      obtain ⟨pre, hpre⟩ := hn fuel hf
      exact ⟨pre, by rw [MustFindLatestRecoveryPoint_eq]; exact hpre⟩⟩

/-- Claim C13, witness: with a clock moved by the sleeps, a listing request that
returns the app `x` once seven seconds have elapsed and a timeout of twelve
seconds, `MustGetAppByName` ends and returns that app with a nil error. -/
theorem C13_found_before_deadline_witness :
    ∃ n, ∀ fuel, n < fuel → ∃ pre,
      MustGetAppByName plainText sleepClockEnv "x" 12000000000 fuel
        = some ((some { index := 0, val := appNamed "x" }, none), pre ++ [Event.lookup]) :=
  (C13_found_before_deadline plainText 7000000000 12000000000 (by decide)).1
    sleepClockEnv "x" (fun _ => { index := 0, val := appNamed "x" })
    (fun h => by simp [sleepClockEnv, Time.Add, sleptTime])
    (by decide)
    (fun h hh => by
      have hlt : sleptTime h < 7000000000 := by
        simpa [elapsed, sleepClockEnv, sleptTime] using hh
      simp only [appLookup, sleepClockEnv, if_pos hlt]
      rfl)
    (fun h hh => by
      have hge : ¬ sleptTime h < 7000000000 := by
        have : (7000000000 : Int) ≤ sleptTime h := by
          simpa [elapsed, sleepClockEnv, sleptTime] using hh
        omega
      simp only [appLookup, sleepClockEnv, if_neg hge]
      rfl)

/-! ## The order of lookup, sleep and deadline check (claim C14) -/

theorem pollCall_nothing_then_sleep {α : Type} (clock : List Event → Time)
    (lookup : List Event → Option α × Option String) (period timeout : Int)
    (timeoutAt : Time) (msg : String) (fuel : Nat) (t0 : Time)
    (r : Option α × Option String) (hist : List Event) (hto : timeout ≠ 0)
    (h : (pollLoop clock lookup period timeout timeoutAt fuel none none [Event.now t0]).map
        (fun x => (x.1.results msg, x.2)) = some (r, hist))
    (pre post : List Event) (hsplit : hist = pre ++ Event.lookup :: post)
    (hnothing : lookup pre = (none, none)) :
    ∃ rest, post = Event.sleep period ::
        Event.now (clock (pre ++ [Event.lookup, Event.sleep period])) :: rest ∧
      ((clock (pre ++ [Event.lookup, Event.sleep period])).Before timeoutAt = false →
        rest = []) ∧
      ((clock (pre ++ [Event.lookup, Event.sleep period])).Before timeoutAt = true →
        ∃ rest2, rest = Event.lookup :: rest2) := by
  obtain ⟨e, suffix, hrun, hhist, _⟩ := pollCall_sound _ _ _ _ _ _ _ _ _ _ h
  rw [hhist] at hsplit
  obtain ⟨p, hp, hs⟩ := split_after_head _ _ _ _ _ (by simp) hsplit
  subst hp
  exact hrun.nothing_then_sleep_then_check p post hs hto hnothing

theorem pollCall_sleep_after_lookup {α : Type} (clock : List Event → Time)
    (lookup : List Event → Option α × Option String) (period timeout : Int)
    (timeoutAt : Time) (msg : String) (fuel : Nat) (t0 : Time)
    (r : Option α × Option String) (hist : List Event)
    (h : (pollLoop clock lookup period timeout timeoutAt fuel none none [Event.now t0]).map
        (fun x => (x.1.results msg, x.2)) = some (r, hist))
    (pre post : List Event) (d : Int) (hsplit : hist = pre ++ Event.sleep d :: post) :
    d = period ∧ timeout ≠ 0 ∧
      ∃ pre2, pre = pre2 ++ [Event.now (clock pre2), Event.lookup] ∧
        (clock pre2).Before timeoutAt = true ∧
        lookup (pre2 ++ [Event.now (clock pre2)]) = (none, none) := by
  obtain ⟨e, suffix, hrun, hhist, _⟩ := pollCall_sound _ _ _ _ _ _ _ _ _ _ h
  rw [hhist] at hsplit
  obtain ⟨p, hp, hs⟩ := split_after_head _ _ _ _ _ (by simp) hsplit
  subst hp
  obtain ⟨hd, hto, p2, hp2, hbefore, hnothing⟩ := hrun.sleep_after_lookup p post d hs
  refine ⟨hd, hto, Event.now t0 :: p2, ?_, hbefore, hnothing⟩
  rw [hp2]
  rfl

/-- Claim C14 (amended): in `MustGetAppByName` and `MustFindLatestRecoveryPoint`
with a timeout that is not zero, in the history of a call that has ended: a
lookup that found nothing is always followed at once by a sleep of the poll
period, and this sleep by a reading of the clock, the deadline check; when
that reading has reached or passed the deadline the history ends there, and
otherwise the next lookup follows.  Every sleep has the poll period and comes
right after a lookup that found nothing, with no reading of the clock between
the two: the last reading before the sleep is the one before that lookup, and
it was before the deadline. -/
theorem C14_sleep_then_deadline_check (gt : GoText) (timeout : Int) (hto : timeout ≠ 0) :
    (∀ (env : PollEnv (Slice App × Option String)) (name : GoString) fuel r hist,
      MustGetAppByName gt env name timeout fuel = some (r, hist) →
      (∀ pre post, hist = pre ++ Event.lookup :: post →
        appLookup gt env name pre = (none, none) →
        ∃ rest, post = Event.sleep AppPollPeriod ::
            Event.now (env.clock (pre ++ [Event.lookup, Event.sleep AppPollPeriod])) :: rest ∧
          ((env.clock (pre ++ [Event.lookup, Event.sleep AppPollPeriod])).Before
              (deadline env timeout) = false → rest = []) ∧
          ((env.clock (pre ++ [Event.lookup, Event.sleep AppPollPeriod])).Before
              (deadline env timeout) = true → ∃ rest2, rest = Event.lookup :: rest2)) ∧
      (∀ pre post d, hist = pre ++ Event.sleep d :: post →
        d = AppPollPeriod ∧
        ∃ pre2, pre = pre2 ++ [Event.now (env.clock pre2), Event.lookup] ∧
          (env.clock pre2).Before (deadline env timeout) = true ∧
          appLookup gt env name (pre2 ++ [Event.now (env.clock pre2)]) = (none, none))) ∧
    (∀ (env : PollEnv (Slice RecoveryPoint × Option String))
        (timestampMin timestampMax : Option Time) fuel r hist,
      MustFindLatestRecoveryPoint gt env timestampMin timestampMax timeout fuel
        = some (r, hist) →
      (∀ pre post, hist = pre ++ Event.lookup :: post →
        rpLookup env pre = (none, none) →
        ∃ rest, post = Event.sleep RecoveryPointPollPeriod ::
            Event.now (env.clock (pre ++ [Event.lookup, Event.sleep RecoveryPointPollPeriod]))
              :: rest ∧
          ((env.clock (pre ++ [Event.lookup, Event.sleep RecoveryPointPollPeriod])).Before
              (deadline env timeout) = false → rest = []) ∧
          ((env.clock (pre ++ [Event.lookup, Event.sleep RecoveryPointPollPeriod])).Before
              (deadline env timeout) = true → ∃ rest2, rest = Event.lookup :: rest2)) ∧
      (∀ pre post d, hist = pre ++ Event.sleep d :: post →
        d = RecoveryPointPollPeriod ∧
        ∃ pre2, pre = pre2 ++ [Event.now (env.clock pre2), Event.lookup] ∧
          (env.clock pre2).Before (deadline env timeout) = true ∧
          rpLookup env (pre2 ++ [Event.now (env.clock pre2)]) = (none, none))) := by
  constructor
  · intro env name fuel r hist h
    rw [MustGetAppByName_eq] at h
    constructor
    · intro pre post hsplit hnothing
      exact pollCall_nothing_then_sleep _ _ _ _ _ _ _ _ _ _ hto h pre post hsplit hnothing
    · intro pre post d hsplit
      obtain ⟨hd, _, hrest⟩ := pollCall_sleep_after_lookup _ _ _ _ _ _ _ _ _ _ h pre post d
        hsplit
      exact ⟨hd, hrest⟩
  · intro env timestampMin timestampMax fuel r hist h
    rw [MustFindLatestRecoveryPoint_eq] at h
    constructor
    · intro pre post hsplit hnothing
      exact pollCall_nothing_then_sleep _ _ _ _ _ _ _ _ _ _ hto h pre post hsplit hnothing
    · intro pre post d hsplit
      obtain ⟨hd, _, hrest⟩ := pollCall_sleep_after_lookup _ _ _ _ _ _ _ _ _ _ h pre post d
        hsplit
      exact ⟨hd, hrest⟩

/-- Claim C14, counterexample: with a timeout of one second and a lookup during
which the clock moves to a hundred seconds, the lookup finds nothing at a time
past the deadline, and the call sleeps all the same: the sleep comes right
after the lookup, and the clock is read only after the sleep. -/
theorem C14_counterexample :
    MustGetAppByName plainText slowLookupEnv "x" 1000000000 2
      = some ((none, some "there is no Arpio application named \"x\""),
          [Event.now ⟨0⟩, Event.now ⟨0⟩, Event.lookup] ++
            Event.sleep AppPollPeriod :: [Event.now ⟨100000000000⟩]) ∧
    appLookup plainText slowLookupEnv "x" [Event.now ⟨0⟩, Event.now ⟨0⟩] = (none, none) ∧
    (slowLookupEnv.clock [Event.now ⟨0⟩, Event.now ⟨0⟩, Event.lookup]).Before
      (deadline slowLookupEnv 1000000000) = false :=
  ⟨rfl, rfl, by decide⟩

/-- Claim C14 (amended), witness: in the call with the slow lookup, the lookup
that found nothing is followed by the sleep and then by the reading of the
clock that ends the loop. -/
theorem C14_sleep_then_deadline_check_witness :
    ∃ rest, [Event.sleep AppPollPeriod, Event.now ⟨100000000000⟩]
        = Event.sleep AppPollPeriod ::
          Event.now (slowLookupEnv.clock ([Event.now ⟨0⟩, Event.now ⟨0⟩] ++
            [Event.lookup, Event.sleep AppPollPeriod])) :: rest ∧
      ((slowLookupEnv.clock ([Event.now ⟨0⟩, Event.now ⟨0⟩] ++
          [Event.lookup, Event.sleep AppPollPeriod])).Before
            (deadline slowLookupEnv 1000000000) = false → rest = []) ∧
      ((slowLookupEnv.clock ([Event.now ⟨0⟩, Event.now ⟨0⟩] ++
          [Event.lookup, Event.sleep AppPollPeriod])).Before
            (deadline slowLookupEnv 1000000000) = true →
        ∃ rest2, rest = Event.lookup :: rest2) :=
  ((C14_sleep_then_deadline_check plainText 1000000000 (by decide)).1
    slowLookupEnv "x" 2 (none, some "there is no Arpio application named \"x\"")
    ([Event.now ⟨0⟩, Event.now ⟨0⟩, Event.lookup] ++
      Event.sleep AppPollPeriod :: [Event.now ⟨100000000000⟩])
    (show MustGetAppByName plainText slowLookupEnv "x" 1000000000 2
      = some ((none, some "there is no Arpio application named \"x\""),
          [Event.now ⟨0⟩, Event.now ⟨0⟩, Event.lookup] ++
            Event.sleep AppPollPeriod :: [Event.now ⟨100000000000⟩]) from rfl)).1
    [Event.now ⟨0⟩, Event.now ⟨0⟩] [Event.sleep AppPollPeriod, Event.now ⟨100000000000⟩]
    rfl rfl


end Arpio
